import Mathlib

/-!
# Boost.DLL: the POSIX shared library handle, `library_info`, `import`

A shallow embedding of `boost::dll::detail::shared_library_impl`
(`include/boost/dll/detail/posix/shared_library_impl.hpp`) together with the
pieces of `std::filesystem::path`, `<dlfcn.h>` and `<system_error>` it is
written against, of the format selection of `library_info`
(`include/boost/dll/library_info.hpp`), of `symbol_location_ptr`
(`include/boost/dll/runtime_symbol_info.hpp`) and of `import`
(`include/boost/dll/import.hpp`).

* A pathname is the character sequence a `std::filesystem::path` holds in the
  POSIX native format; decomposition follows ISO C++17 [fs.path.decompose] as
  libstdc++ implements it: the root directory is one element, a single
  separator, however many separators spell it in the pathname.
* The operating system is a record of oracles.  Every oracle sees the list of
  loader calls made so far, so its answers may depend on the whole history.
* Loader calls (`dlopen`, `dlclose`, `dlsym`, `dlerror`, `dladdr`) are appended
  to a trace.
-/

namespace BoostDLL

/-! ## Build configuration -/

/-- Build-time constants the header reads: the operating system macros of
`boost/predef/os.h` and the flag values of `<dlfcn.h>`. -/
structure Platform where
  BOOST_OS_MACOS : Bool
  BOOST_OS_IOS : Bool
  BOOST_OS_LINUX : Bool
  BOOST_OS_ANDROID : Bool
  RTLD_LAZY : Nat
  RTLD_NOW : Nat
  RTLD_GLOBAL : Nat
  RTLD_LOCAL : Nat
  RTLD_DEEPBIND : Nat

/-- Linux with glibc. -/
def linux_glibc : Platform :=
  { BOOST_OS_MACOS := false, BOOST_OS_IOS := false,
    BOOST_OS_LINUX := true, BOOST_OS_ANDROID := false,
    RTLD_LAZY := 0x1, RTLD_NOW := 0x2, RTLD_GLOBAL := 0x100,
    RTLD_LOCAL := 0, RTLD_DEEPBIND := 0x8 }

/-- macOS (no `RTLD_DEEPBIND` there: the field is 0). -/
def macos : Platform :=
  { BOOST_OS_MACOS := true, BOOST_OS_IOS := false,
    BOOST_OS_LINUX := false, BOOST_OS_ANDROID := false,
    RTLD_LAZY := 0x1, RTLD_NOW := 0x2, RTLD_GLOBAL := 0x8,
    RTLD_LOCAL := 0x4, RTLD_DEEPBIND := 0 }

/-! ## `std::filesystem::path` (POSIX) -/

/-- The native pathname of a `std::filesystem::path`. -/
abbrev path := List Char

/-- The directory separator. -/
def preferred_separator : Char := '/'

/-- Whether a character is not a directory separator. -/
def not_sep (c : Char) : Bool := c != preferred_separator

/-- Whether a character is a directory separator. -/
def is_sep (c : Char) : Bool := c == preferred_separator

/-- No character of the pathname is a separator. -/
def sep_free (s : path) : Prop := ∀ c ∈ s, not_sep c = true

/-- Embeds `path::filename()`: the last element of the pathname, empty when the
pathname is empty, is a root directory, or ends with a separator. -/
def filename (p : path) : path :=
  (p.reverse.takeWhile not_sep).reverse

/-- Embeds `path::has_filename()`. -/
def has_filename (p : path) : Bool := !(filename p).isEmpty

/-- Embeds `path::has_relative_path()`: some character is not a separator. -/
def has_relative_path (p : path) : Bool := p.any not_sep

/-- Embeds `path::has_root_directory()`. -/
def has_root_directory (p : path) : Bool := p.head? == some preferred_separator

/-- Embeds `path::is_absolute()`: on POSIX, a root directory is present. -/
def is_absolute (p : path) : Bool := has_root_directory p

/-- Embeds `path::parent_path()`: the path itself when it has no relative path,
otherwise the pathname up to the end of the element before the last one. The
root directory is one element, stored as a single separator however many
separators spell it, so that the parent of `//x` is `/`. -/
def parent_path (p : path) : path :=
  if !has_relative_path p then p
  else
    let d := p.reverse.dropWhile not_sep
    let e := d.dropWhile is_sep
    if e.isEmpty then (if d.isEmpty then [] else [preferred_separator]) else e.reverse

/-- Embeds `path::has_parent_path()`. -/
def has_parent_path (p : path) : Bool := !(parent_path p).isEmpty

/-- Embeds `path::empty()`. -/
def path_empty (p : path) : Bool := p.isEmpty

/-- Embeds `operator/`: an absolute right operand replaces the left one; otherwise a
separator is inserted when the left operand has a file name. -/
def path_append (p q : path) : path :=
  if is_absolute q then q
  else if has_filename p then p ++ [preferred_separator] ++ q
  else p ++ q

/-- Embeds `std::string::c_str()`: the characters up to the first NUL. -/
def c_str (s : List Char) : List Char := s.takeWhile (fun c => c != Char.ofNat 0)

/-- Embeds `std::strncmp` on NUL-terminated strings: the difference of the first pair
of differing characters among the first `n`, 0 when there is none. -/
def strncmp : List Char → List Char → Nat → Int
  | _, _, 0 => 0
  | [], [], _ + 1 => 0
  | [], b :: _, _ + 1 => - (b.toNat : Int)
  | a :: _, [], _ + 1 => (a.toNat : Int)
  | a :: as, b :: bs, n + 1 =>
      if a = b then strncmp as bs n else (a.toNat : Int) - (b.toNat : Int)

/-! ## `shared_library_impl`: static members -/

/-- Embeds `shared_library_impl::suffix()`. -/
def suffix (cfg : Platform) : path :=
  if cfg.BOOST_OS_MACOS || cfg.BOOST_OS_IOS then ".dylib".toList else ".so".toList

/-- Embeds `shared_library_impl::decorate(sl)`. -/
def decorate (cfg : Platform) (sl : path) : path :=
  let actual_path : path :=
    if strncmp (c_str (filename sl)) "lib".toList 3 != 0
    then (if has_parent_path sl then path_append (parent_path sl) "lib".toList
          else "lib".toList) ++ filename sl
    else sl
  actual_path ++ suffix cfg

/-! ## `std::error_code` and the loader interface -/

/-- The `std::errc` conditions this library reports; `other` stands for any
further value an error code may hold. -/
inductive errc
  | bad_file_descriptor
  | executable_format_error
  | invalid_seek
  | bad_address
  | other (value : Nat)
deriving DecidableEq

/-- A `std::error_code`: `none` is the cleared code. -/
abbrev error_code := Option errc

/-- The type `native_handle_t` is `void*`; 0 is `NULL`. -/
abbrev native_handle_t := Nat

/-- One call to the dynamic loader: its arguments and, where it has one, its
result. A `none` file name is the `NULL` argument of `dlopen`; the result of
`dladdr` is the `dli_fname` it fills in, `none` when it returns 0. -/
inductive Event
  | dlopen (file : Option path) (mode : Nat) (result : native_handle_t)
  | dlclose (handle : native_handle_t)
  | dlsym (handle : native_handle_t) (name : List Char) (result : Nat)
  | dlerror
  | dladdr (addr : Nat) (result : Option path)
deriving DecidableEq

/-- Result of `_NSGetExecutablePath(buf, &size)`. -/
structure NSGetExecutablePathResult where
  status : Int
  buf : path
  size : Nat

/-- The operating system, as oracles over the history of loader calls.
`dlerror` answers `none` when the loader has no error text to hand out, that
is when `dlerror()` returns `NULL`. `fs_exists` answers `none` when
`std::filesystem::exists(p)` raises `filesystem_error`; the other file system
queries are the overloads that report through an error code. -/
structure OS where
  dlopen : List Event → Option path → Nat → native_handle_t
  dlsym : List Event → native_handle_t → List Char → Nat
  dladdr : List Event → Nat → Option path
  dlerror : List Event → Option (List Char)
  fs_exists : List Event → path → Option Bool
  equivalent : List Event → path → path → Bool × error_code
  current_path : List Event → path × error_code
  read_symlink : List Event → path → path × error_code
  NSGetExecutablePath : List Event → Nat → NSGetExecutablePathResult

/-- Embeds `boost::dll::detail::reset_dlerror()`: one `dlerror` call, result dropped. -/
def reset_dlerror (t : List Event) : List Event := t ++ [Event.dlerror]

/-- Embeds `boost::dll::detail::program_location_impl(ec)`, for the macOS/iOS branch
and for the default (Linux, Android, generic Unix) branch. -/
def program_location_impl (cfg : Platform) (os : OS) (t : List Event) : path × error_code :=
  if cfg.BOOST_OS_MACOS || cfg.BOOST_OS_IOS then
    let r1 := os.NSGetExecutablePath t 1024
    if r1.status = 0 then (r1.buf, none)
    else
      let r2 := os.NSGetExecutablePath t r1.size
      (r2.buf, if r2.status ≠ 0 then some errc.bad_file_descriptor else none)
  else os.read_symlink t "/proc/self/exe".toList

/-! ## `load_mode::type` (non-Windows branch) -/

/-- Width of `int` and `unsigned int`. -/
def int_modulus : Nat := 2 ^ 32

namespace load_mode

/-- The enumerator `default_mode`. -/
def default_mode : Nat := 0

/-- A Windows-only flag: 0 on this branch. -/
def dont_resolve_dll_references : Nat := 0

/-- A Windows-only flag: 0 on this branch. -/
def load_ignore_code_authz_level : Nat := 0

/-- A Windows-only flag: 0 on this branch. -/
def load_with_altered_search_path : Nat := 0

/-- The enumerator `rtld_lazy = RTLD_LAZY`. -/
def rtld_lazy (cfg : Platform) : Nat := cfg.RTLD_LAZY % int_modulus

/-- The enumerator `rtld_now = RTLD_NOW`. -/
def rtld_now (cfg : Platform) : Nat := cfg.RTLD_NOW % int_modulus

/-- The enumerator `rtld_global = RTLD_GLOBAL`. -/
def rtld_global (cfg : Platform) : Nat := cfg.RTLD_GLOBAL % int_modulus

/-- The enumerator `rtld_local = RTLD_LOCAL`. -/
def rtld_local (cfg : Platform) : Nat := cfg.RTLD_LOCAL % int_modulus

/-- The enumerator `rtld_deepbind`: `RTLD_DEEPBIND`, or 0 where the compiler
check of the header rules it out (the platform field is then 0). -/
def rtld_deepbind (cfg : Platform) : Nat := cfg.RTLD_DEEPBIND % int_modulus

/-- The enumerator `append_decorations`. -/
def append_decorations : Nat := 0x00800000

/-- The enumerator `search_system_folders = (append_decorations << 1)`. -/
def search_system_folders : Nat := append_decorations <<< 1

/-- The free `operator|` on modes: both operands are cast to `unsigned int`,
the bitwise or is cast back. -/
def bit_or (left right : Nat) : Nat := (left % int_modulus) ||| (right % int_modulus)

end load_mode

/-- Embeds `~static_cast<unsigned>(x)`. -/
def bit_not (x : Nat) : Nat := (int_modulus - 1) ^^^ (x % int_modulus)

/-! ## `shared_library_impl`: the handle -/

/-- The class `shared_library_impl`: its single data member. -/
structure shared_library_impl where
  handle_ : native_handle_t
deriving DecidableEq

namespace shared_library_impl

/-- Default constructor: `handle_(NULL)`. -/
def default_construct : shared_library_impl := { handle_ := 0 }

/-- Embeds `is_loaded()`. -/
def is_loaded (self : shared_library_impl) : Bool := self.handle_ != 0

/-- Embeds `native()`. -/
def native (self : shared_library_impl) : native_handle_t := self.handle_

/-- Embeds `unload()`. -/
def unload (self : shared_library_impl) (t : List Event) : shared_library_impl × List Event :=
  if !self.is_loaded then (self, t)
  else ({ handle_ := 0 }, t ++ [Event.dlclose self.handle_])

/-- Destructor: `unload()`; the object is gone afterwards. -/
def destroy (self : shared_library_impl) (t : List Event) : List Event :=
  (self.unload t).2

/-- Move constructor from `sl`: the new object, then `sl` afterwards. -/
def move_construct (sl : shared_library_impl) (t : List Event) :
    shared_library_impl × shared_library_impl × List Event :=
  ({ handle_ := sl.handle_ }, { handle_ := 0 }, t)

/-- Embeds `swap(rhs)`: `self` afterwards, then `rhs` afterwards. -/
def swap (self rhs : shared_library_impl) (t : List Event) :
    shared_library_impl × shared_library_impl × List Event :=
  ({ handle_ := rhs.handle_ }, { handle_ := self.handle_ }, t)

/-- Move assignment `self = move(sl)`: `swap(sl)`. -/
def move_assign (self sl : shared_library_impl) (t : List Event) :
    shared_library_impl × shared_library_impl × List Event :=
  self.swap sl t

/-- What a call of `load` leaves behind: the object, the caller's error code,
the loader calls so far, and whether the call ended by an exception. -/
structure LoadResult where
  self : shared_library_impl
  ec : error_code
  trace : List Event
  threw : Bool
deriving DecidableEq

/-- The tail of `load`, from "Opening by exactly specified path" on. -/
def load_exact (cfg : Platform) (os : OS) (sl : path) (native_mode : Nat)
    (ec : error_code) (t : List Event) : LoadResult :=
  let h := os.dlopen t (some sl) native_mode
  let t := t ++ [Event.dlopen (some sl) native_mode h]
  if h ≠ 0 then
    { self := { handle_ := h }, ec := ec, trace := reset_dlerror t, threw := false }
  else
    let ec : error_code := some errc.bad_file_descriptor
    let (loc, prog_loc_err) := program_location_impl cfg os t
    if prog_loc_err = none ∧ (os.equivalent t sl loc).1 = true
        ∧ (os.equivalent t sl loc).2 = none then
      let t := reset_dlerror t
      let h := os.dlopen t none native_mode
      let t := t ++ [Event.dlopen none native_mode h]
      { self := { handle_ := h }
        ec := if h = 0 then some errc.bad_file_descriptor else none
        trace := t, threw := false }
    else
      { self := { handle_ := h }, ec := ec, trace := t, threw := false }

/-- The "Fixing modes" block of `load`: lazy binding unless `rtld_now` is
asked for, local visibility unless `rtld_global` is asked for. -/
def fix_modes (cfg : Platform) (native_mode : Nat) : Nat :=
  let native_mode :=
    if native_mode &&& load_mode.rtld_now cfg = 0
    then native_mode ||| load_mode.rtld_lazy cfg else native_mode
  if native_mode &&& load_mode.rtld_global cfg = 0
  then native_mode ||| load_mode.rtld_local cfg else native_mode

/-- The block of `load` that keeps the loader away from the system folders:
on Linux and Android a name without parent path becomes `./name`; elsewhere a
relative path is resolved against the current directory when that is known. -/
def fix_path (cfg : Platform) (os : OS) (sl : path) (native_mode : Nat)
    (t : List Event) : path :=
  if cfg.BOOST_OS_LINUX || cfg.BOOST_OS_ANDROID then
    if !has_parent_path sl ∧ native_mode &&& load_mode.search_system_folders = 0
    then path_append ".".toList sl else sl
  else
    if !is_absolute sl ∧ native_mode &&& load_mode.search_system_folders = 0 then
      let (prog_loc, current_path_ec) := os.current_path t
      if current_path_ec = none then path_append prog_loc sl else sl
    else sl

/-- The part of `load` from "Trying to open with appended decorations" to the
end of the function. -/
def load_decorated (cfg : Platform) (os : OS) (sl : path) (native_mode : Nat)
    (ec : error_code) (t : List Event) : LoadResult :=
  if native_mode &&& load_mode.append_decorations ≠ 0 then
    let native_mode := native_mode &&& bit_not load_mode.append_decorations
    let actual_path := decorate cfg sl
    let h := os.dlopen t (some actual_path) native_mode
    let t := t ++ [Event.dlopen (some actual_path) native_mode h]
    if h ≠ 0 then
      { self := { handle_ := h }, ec := ec, trace := reset_dlerror t, threw := false }
    else
      let (loc, _) := program_location_impl cfg os t
      match os.fs_exists t actual_path with
      | none => { self := { handle_ := h }, ec := ec, trace := t, threw := true }
      | some found =>
        if found = true ∧ (os.equivalent t sl loc).1 = false then
          { self := { handle_ := h }, ec := some errc.executable_format_error,
            trace := t, threw := false }
        else load_exact cfg os sl native_mode ec t
  else load_exact cfg os sl native_mode ec t

/-- Embeds `load(sl, portable_mode, ec)`. -/
def load (cfg : Platform) (os : OS) (self : shared_library_impl) (sl : path)
    (portable_mode : Nat) (ec : error_code) (t : List Event) : LoadResult :=
  let native_mode : Nat := portable_mode % int_modulus
  let (self, t) := self.unload t
  if path_empty sl then
    { self := self, ec := some errc.bad_file_descriptor, trace := reset_dlerror t,
      threw := false }
  else
    let native_mode := fix_modes cfg native_mode
    let sl := fix_path cfg os sl native_mode t
    let native_mode := native_mode &&& bit_not load_mode.search_system_folders
    load_decorated cfg os sl native_mode ec t

/-- The value `native_mode` has in `load` at every `dlopen` call: the
requested mode after the "Fixing modes" block, with the two bits private to
the library cleared. -/
def native_mode_of (cfg : Platform) (portable_mode : Nat) : Nat :=
  (fix_modes cfg (portable_mode % int_modulus) &&& bit_not load_mode.search_system_folders)
    &&& bit_not load_mode.append_decorations

/-- The value `sl` has in `load` at the calls of `decorate` and `dlopen`. -/
def load_path (cfg : Platform) (os : OS) (sl : path) (portable_mode : Nat)
    (t : List Event) : path :=
  fix_path cfg os sl (fix_modes cfg (portable_mode % int_modulus)) t

/-- Embeds `symbol_addr(sb, ec)`: the address, the caller's error code afterwards, and
the loader calls so far. -/
def symbol_addr (os : OS) (self : shared_library_impl) (sb : List Char)
    (ec : error_code) (t : List Event) : Nat × error_code × List Event :=
  let symbol := os.dlsym t self.handle_ sb
  let t := t ++ [Event.dlsym self.handle_ sb symbol]
  (symbol, if symbol = 0 then some errc.invalid_seek else ec, t)

end shared_library_impl

/-- The four loader flags and the two bits private to the library occupy
separate bits, as they do in every `<dlfcn.h>`. -/
def flags_disjoint (cfg : Platform) : Prop :=
  load_mode.rtld_lazy cfg &&& load_mode.rtld_now cfg = 0 ∧
  load_mode.rtld_lazy cfg &&& load_mode.rtld_global cfg = 0 ∧
  load_mode.rtld_lazy cfg &&& load_mode.rtld_local cfg = 0 ∧
  load_mode.rtld_local cfg &&& load_mode.rtld_now cfg = 0 ∧
  load_mode.rtld_local cfg &&& load_mode.rtld_global cfg = 0 ∧
  load_mode.rtld_lazy cfg &&&
    (load_mode.append_decorations ||| load_mode.search_system_folders) = 0 ∧
  load_mode.rtld_now cfg &&&
    (load_mode.append_decorations ||| load_mode.search_system_folders) = 0 ∧
  load_mode.rtld_global cfg &&&
    (load_mode.append_decorations ||| load_mode.search_system_folders) = 0 ∧
  load_mode.rtld_local cfg &&&
    (load_mode.append_decorations ||| load_mode.search_system_folders) = 0

/-- The loader calls of `t1` made after those of `t`. -/
def new_events (t t1 : List Event) : List Event := t1.drop t.length

/-- The modes of the `dlopen` calls of a trace, in order. -/
def dlopen_modes (t : List Event) : List Nat :=
  t.filterMap (fun e => match e with
    | Event.dlopen _ m _ => some m
    | _ => none)

/-- The file names of the `dlopen` calls of a trace, in order. -/
def dlopen_files (t : List Event) : List (Option path) :=
  t.filterMap (fun e => match e with
    | Event.dlopen f _ _ => some f
    | _ => none)

/-- The handles passed to the `dlclose` calls of a trace, in order. -/
def dlclose_handles (t : List Event) : List native_handle_t :=
  t.filterMap (fun e => match e with
    | Event.dlclose h => some h
    | _ => none)

/-! ## A program over several handles -/

/-- One statement of a client program. Objects are numbered in the order of
their construction. -/
inductive Op
  | default_construct
  | load (i : Nat) (sl : path) (portable_mode : Nat) (ec : error_code)
  | unload (i : Nat)
  | swap (i j : Nat)
  | move_construct (i : Nat)
  | move_assign (i j : Nat)
  | destroy (i : Nat)
deriving DecidableEq

/-- The objects a program has constructed, `none` once destroyed, and the
loader calls made so far. -/
structure Program where
  objects : List (Option shared_library_impl)
  trace : List Event
deriving DecidableEq

/-- Program start: no object, no loader call. -/
def Program.start : Program := { objects := [], trace := [] }

/-- The object numbered `i`, when it has been constructed and not destroyed. -/
def Program.live (s : Program) (i : Nat) : Option shared_library_impl :=
  (s.objects.get? i).join

/-- Executes one statement; `none` when it names an object that does not exist
or was destroyed. -/
def step (cfg : Platform) (os : OS) (s : Program) : Op → Option Program
  | Op.default_construct =>
      some { s with objects := s.objects ++ [some shared_library_impl.default_construct] }
  | Op.load i sl portable_mode ec =>
      match s.live i with
      | none => none
      | some x =>
        let r := x.load cfg os sl portable_mode ec s.trace
        some { objects := s.objects.set i (some r.self), trace := r.trace }
  | Op.unload i =>
      match s.live i with
      | none => none
      | some x =>
        some { objects := s.objects.set i (some (x.unload s.trace).1),
               trace := (x.unload s.trace).2 }
  | Op.swap i j =>
      match s.live i, s.live j with
      | some a, some b =>
        some { objects := (s.objects.set i (some (a.swap b s.trace).1)).set j
                 (some (a.swap b s.trace).2.1),
               trace := (a.swap b s.trace).2.2 }
      | _, _ => none
  | Op.move_construct i =>
      match s.live i with
      | none => none
      | some x =>
        some { objects := s.objects.set i (some (x.move_construct s.trace).2.1)
                 ++ [some (x.move_construct s.trace).1],
               trace := (x.move_construct s.trace).2.2 }
  | Op.move_assign i j =>
      match s.live i, s.live j with
      | some a, some b =>
        some { objects := (s.objects.set i (some (a.move_assign b s.trace).1)).set j
                 (some (a.move_assign b s.trace).2.1),
               trace := (a.move_assign b s.trace).2.2 }
      | _, _ => none
  | Op.destroy i =>
      match s.live i with
      | none => none
      | some x => some { objects := s.objects.set i none, trace := x.destroy s.trace }

/-- Executes a sequence of statements. -/
def run (cfg : Platform) (os : OS) : Program → List Op → Option Program
  | s, [] => some s
  | s, op :: ops =>
      match step cfg os s op with
      | none => none
      | some s1 => run cfg os s1 ops

/-- One when the object holds handle `h`, 0 otherwise. -/
def held (h : native_handle_t) (x : shared_library_impl) : Nat :=
  if x.handle_ = h then 1 else 0

/-- One when the slot is a live object holding handle `h`, 0 otherwise. -/
def held_slot (h : native_handle_t) : Option shared_library_impl → Nat
  | none => 0
  | some x => held h x

/-- Number of live objects holding handle `h`. -/
def holders (h : native_handle_t) (objects : List (Option shared_library_impl)) : Nat :=
  (objects.map (held_slot h)).sum

/-- Number of `dlopen` calls in the trace that returned handle `h`. -/
def opens_of (h : native_handle_t) (t : List Event) : Nat :=
  t.countP (fun e => match e with
    | Event.dlopen _ _ r => r == h
    | _ => false)

/-- Number of `dlclose` calls in the trace on handle `h`. -/
def closes_of (h : native_handle_t) (t : List Event) : Nat :=
  t.countP (fun e => match e with
    | Event.dlclose k => k == h
    | _ => false)

/-- The non-null handles returned by the `dlopen` calls of the trace, in order. -/
def opened_handles (t : List Event) : List native_handle_t :=
  t.filterMap (fun e => match e with
    | Event.dlopen _ _ r => if r = 0 then none else some r
    | _ => none)

/-- Every object has been destroyed. -/
def all_destroyed (s : Program) : Bool := s.objects.all Option.isNone

/-- The counting invariant: for every non-null handle, the live objects
holding it and the `dlclose` calls on it add up to the `dlopen` calls that
returned it. -/
def balanced (s : Program) : Prop :=
  ∀ h : native_handle_t, h ≠ 0 →
    holders h s.objects + closes_of h s.trace = opens_of h s.trace

/-- A loader that never hands out the same handle twice: each `dlopen`
answers with the number of loader calls made so far, plus one. -/
def os_fresh : OS :=
  { dlopen := fun t _ _ => t.length + 1
    dlsym := fun _ _ _ => 0
    dladdr := fun _ _ => none
    dlerror := fun _ => none
    fs_exists := fun _ _ => some true
    equivalent := fun _ a b => (a == b, none)
    current_path := fun _ => ("/home".toList, none)
    read_symlink := fun _ _ => ("/usr/bin/app".toList, none)
    NSGetExecutablePath := fun _ _ => ⟨0, "/usr/bin/app".toList, 13⟩ }

/-! ## `library_info` -/

/-- The enumerators of `library_info::fmt_`. -/
inductive fmt
  | fmt_elf_info32
  | fmt_elf_info64
  | fmt_pe_info32
  | fmt_pe_info64
  | fmt_macho_info32
  | fmt_macho_info64
deriving DecidableEq

/-- The operating system family the compiler macros tell: `_WIN32` defined,
`__APPLE__` defined, or neither (Linux and the other POSIX systems). -/
inductive HostOS
  | win32
  | apple
  | other
deriving DecidableEq

/-- The host a program is compiled for: its family and `sizeof(void*)`. -/
structure Host where
  os : HostOS
  sizeof_void_ptr : Nat

/-- An exception that ends the construction of a `library_info`: a
`std::runtime_error` with its message, or the `std::ios_base::failure` the
stream raises (its exception mask holds `failbit`, `badbit` and `eofbit`). -/
inductive Exn
  | runtime_error (what : String)
  | ios_failure
deriving DecidableEq

/-- Embeds `library_info::throw_if_in_32bit()`. -/
def throw_if_in_32bit (host : Host) : Option Exn :=
  if host.sizeof_void_ptr = 4 then some (Exn.runtime_error "Not native format: 64bit binary")
  else none

/-- Embeds `library_info::throw_if_in_windows()`. -/
def throw_if_in_windows (host : Host) : Option Exn :=
  if host.os = HostOS.win32 then some (Exn.runtime_error "Not native format: not a PE binary")
  else none

/-- Embeds `library_info::throw_if_in_linux()`. -/
def throw_if_in_linux (host : Host) : Option Exn :=
  if host.os ≠ HostOS.win32 ∧ host.os ≠ HostOS.apple
  then some (Exn.runtime_error "Not native format: not an ELF binary")
  else none

/-- Embeds `library_info::throw_if_in_macos()`. -/
def throw_if_in_macos (host : Host) : Option Exn :=
  if host.os = HostOS.apple then some (Exn.runtime_error "Not native format: not an Mach-O binary")
  else none

/-- Runs checks one after the other: the first exception raised, if any. -/
def first_throw : List (Option Exn) → Option Exn
  | [] => none
  | some e :: _ => some e
  | none :: rest => first_throw rest

/-- The order in which `library_info::init` asks the readers. -/
def reader_order : List fmt :=
  [fmt.fmt_elf_info32, fmt.fmt_elf_info64, fmt.fmt_pe_info32, fmt.fmt_pe_info64,
   fmt.fmt_macho_info32, fmt.fmt_macho_info64]

/-- The checks in the branch of `library_info::init` for each format, run when
`throw_if_not_native` is set. -/
def native_checks (host : Host) : fmt → List (Option Exn)
  | fmt.fmt_elf_info32 => [throw_if_in_windows host, throw_if_in_macos host]
  | fmt.fmt_elf_info64 =>
      [throw_if_in_windows host, throw_if_in_macos host, throw_if_in_32bit host]
  | fmt.fmt_pe_info32 => [throw_if_in_linux host, throw_if_in_macos host]
  | fmt.fmt_pe_info64 => [throw_if_in_linux host, throw_if_in_macos host, throw_if_in_32bit host]
  | fmt.fmt_macho_info32 => [throw_if_in_linux host, throw_if_in_windows host]
  | fmt.fmt_macho_info64 =>
      [throw_if_in_linux host, throw_if_in_windows host, throw_if_in_32bit host]

/-- The body of a matched branch of `library_info::init`: the checks when asked
for, then `fmt_ = x`. -/
def select_format (host : Host) (throw_if_not_native : Bool) (x : fmt) : Except Exn fmt :=
  match (if throw_if_not_native = true then first_throw (native_checks host x) else none) with
  | some e => Except.error e
  | none => Except.ok x

/-- What `library_info::init` leaves behind: the format stored in `fmt_` or
the exception raised, and the readers asked, in order, each with its answer
(`none` when the call of `parsing_supported` raised). -/
structure InitResult where
  result : Except Exn fmt
  probes : List (fmt × Option Bool)

/-- The chain of `if`/`else if` of `library_info::init` from the readers in
`readers` on. The functions `parsing_supported` of the six readers are the
parameter `parsing_supported`; they read from the stream, of type `σ`. -/
def init_from {σ : Type} (host : Host) (parsing_supported : fmt → σ → Option Bool × σ)
    (throw_if_not_native : Bool) : List fmt → σ → List (fmt × Option Bool) → InitResult
  | [], _, asked =>
      { result := Except.error (Exn.runtime_error "Unsupported binary format"),
        probes := asked }
  | x :: readers, f_, asked =>
      match parsing_supported x f_ with
      | (none, _) => { result := Except.error Exn.ios_failure, probes := asked ++ [(x, none)] }
      | (some true, _) =>
          { result := select_format host throw_if_not_native x,
            probes := asked ++ [(x, some true)] }
      | (some false, f1) =>
          init_from host parsing_supported throw_if_not_native readers f1
            (asked ++ [(x, some false)])

/-- Embeds `library_info::init(throw_if_not_native)`. -/
def init {σ : Type} (host : Host) (parsing_supported : fmt → σ → Option Bool × σ)
    (f_ : σ) (throw_if_not_native : Bool) : InitResult :=
  init_from host parsing_supported throw_if_not_native reader_order f_ []

/-- Embeds the constructor `library_info(library_path, throw_if_not_native_format)`:
`opened` is the stream on the file, `none` when it could not be opened, in
which case setting the exception mask raises. -/
def library_info_construct {σ : Type} (host : Host)
    (parsing_supported : fmt → σ → Option Bool × σ) (opened : Option σ)
    (throw_if_not_native_format : Bool) : InitResult :=
  match opened with
  | none => { result := Except.error Exn.ios_failure, probes := [] }
  | some f_ => init host parsing_supported f_ throw_if_not_native_format

/-- The stream as `library_info::init` hands it to the next reader once the
readers `asked` were asked in turn, starting on `f_`: every call of
`parsing_supported` leaves the stream to the call after it. -/
def stream_after {σ : Type} (parsing_supported : fmt → σ → Option Bool × σ) :
    List fmt → σ → σ
  | [], f_ => f_
  | x :: asked, f_ => stream_after parsing_supported asked (parsing_supported x f_).2

/-- The answer of the reader `x` when `library_info::init` asks it after the
readers `asked`: `some true` when it detects its format, `some false` when it
does not, `none` when the read raises. -/
def detect {σ : Type} (parsing_supported : fmt → σ → Option Bool × σ) (f_ : σ)
    (asked : List fmt) (x : fmt) : Option Bool :=
  (parsing_supported x (stream_after parsing_supported asked f_)).1

/-- The operating system family whose native format `x` is. -/
def fmt.family : fmt → HostOS
  | fmt.fmt_elf_info32 => HostOS.other
  | fmt.fmt_elf_info64 => HostOS.other
  | fmt.fmt_pe_info32 => HostOS.win32
  | fmt.fmt_pe_info64 => HostOS.win32
  | fmt.fmt_macho_info32 => HostOS.apple
  | fmt.fmt_macho_info64 => HostOS.apple

/-- Whether `x` is a 64-bit format. -/
def fmt.is_64 : fmt → Bool
  | fmt.fmt_elf_info64 => true
  | fmt.fmt_pe_info64 => true
  | fmt.fmt_macho_info64 => true
  | _ => false

/-- Whether an exception is a `std::runtime_error` whose message starts with
`Not native format`. -/
def not_native_error : Exn → Bool
  | Exn.runtime_error what => "Not native format".toList.isPrefixOf what.toList
  | Exn.ios_failure => false

/-- A 64-bit Linux host. -/
def host_linux64 : Host := { os := HostOS.other, sizeof_void_ptr := 8 }

/-- A 32-bit Windows host. -/
def host_windows32 : Host := { os := HostOS.win32, sizeof_void_ptr := 4 }

/-- Sample readers over a file given as its bytes: ELF files start with
`7f 45 4c 46` and a class byte, PE files with `MZ`; nothing else is recognised
and a file shorter than the magic number makes the read raise. -/
def sample_readers : fmt → List Nat → Option Bool × List Nat
  | fmt.fmt_elf_info32, f =>
      (if f.length < 5 then none else some (f.take 5 == [0x7f, 0x45, 0x4c, 0x46, 1]), f)
  | fmt.fmt_elf_info64, f =>
      (if f.length < 5 then none else some (f.take 5 == [0x7f, 0x45, 0x4c, 0x46, 2]), f)
  | fmt.fmt_pe_info32, f => (some (f.take 2 == [0x4d, 0x5a] && f.getD 2 0 == 1), f)
  | fmt.fmt_pe_info64, f => (some (f.take 2 == [0x4d, 0x5a] && f.getD 2 0 == 2), f)
  | fmt.fmt_macho_info32, f => (some false, f)
  | fmt.fmt_macho_info64, f => (some false, f)

/-! ## `symbol_location_ptr` -/

/-- Embeds `symbol_location_ptr(ptr_to_symbol, ec)`, non-Windows branch: the
path returned, the caller's error code afterwards, and the loader calls so
far. The pointer is its address, 0 for a null pointer. -/
def symbol_location_ptr (os : OS) (ptr_to_symbol : Nat) (_ec : error_code)
    (t : List Event) : path × error_code × List Event :=
  if ptr_to_symbol = 0 then ([], some errc.bad_address, t)
  else
    let res := os.dladdr t ptr_to_symbol
    let t := t ++ [Event.dladdr ptr_to_symbol res]
    match res with
    | some dli_fname => (dli_fname, none, t)
    | none => ([], some errc.bad_address, reset_dlerror t)

/-! ## `report_error` and the location queries -/

/-- A `std::system_error` as it is constructed: the error code and the text
given as `what_arg`. -/
structure system_error where
  code : error_code
  what_arg : List Char
deriving DecidableEq

/-- Embeds `boost::dll::detail::report_error(ec, message)`, non-Windows branch. The
function has no normal return: its outcome is the exception it raises,
together with the loader calls so far. -/
def report_error (os : OS) (ec : error_code) (message : List Char) (t : List Event) :
    system_error × List Event :=
  let error_txt := os.dlerror t
  let t := t ++ [Event.dlerror]
  match error_txt with
  | some txt =>
    ({ code := ec
       what_arg := message ++ " (dlerror system message: ".toList ++ txt ++ ")".toList }, t)
  | none => ({ code := ec, what_arg := message }, t)

/-- Embeds `symbol_location_ptr(ptr_to_symbol)`, the overload without error code. -/
def symbol_location_ptr_throwing (os : OS) (ptr_to_symbol : Nat) (t : List Event) :
    Except system_error path × List Event :=
  let (ret, ec, t) := symbol_location_ptr os ptr_to_symbol none t
  if ec ≠ none then
    let (e, t) := report_error os ec
      "boost::dll::symbol_location_ptr(T ptr_to_symbol) failed".toList t
    (Except.error e, t)
  else (Except.ok ret, t)

/-- Embeds `symbol_location(symbol, ec)`: `ec.clear()`, then `symbol_location_ptr` on
the address of the symbol. -/
def symbol_location (os : OS) (addressof_symbol : Nat) (_ec : error_code)
    (t : List Event) : path × error_code × List Event :=
  let ec : error_code := none
  symbol_location_ptr os addressof_symbol ec t

/-- Embeds `symbol_location(symbol)`, the overload without error code. -/
def symbol_location_throwing (os : OS) (addressof_symbol : Nat) (t : List Event) :
    Except system_error path × List Event :=
  let (ret, ec, t) := symbol_location_ptr os addressof_symbol none t
  if ec ≠ none then
    let (e, t) := report_error os ec
      "boost::dll::symbol_location(const T& symbol) failed".toList t
    (Except.error e, t)
  else (Except.ok ret, t)

/-- Embeds `this_line_location(ec)`: `symbol_location(f, ec)`, where `f` is the
function `this_line_location` of the calling translation unit, given here by
its address. -/
def this_line_location (os : OS) (f : Nat) (ec : error_code) (t : List Event) :
    path × error_code × List Event :=
  symbol_location os f ec t

/-- Embeds `this_line_location()`, the overload without error code. -/
def this_line_location_throwing (os : OS) (f : Nat) (t : List Event) :
    Except system_error path × List Event :=
  let (ret, ec, t) := this_line_location os f none t
  if ec ≠ none then
    let (e, t) := report_error os ec "boost::dll::this_line_location() failed".toList t
    (Except.error e, t)
  else (Except.ok ret, t)

/-- Embeds `program_location(ec)`: `ec.clear()`, then `program_location_impl(ec)`. -/
def program_location (cfg : Platform) (os : OS) (_ec : error_code) (t : List Event) :
    path × error_code × List Event :=
  let (ret, ec) := program_location_impl cfg os t
  (ret, ec, t)

/-- Embeds `program_location()`, the overload without error code. -/
def program_location_throwing (cfg : Platform) (os : OS) (t : List Event) :
    Except system_error path × List Event :=
  let (ret, ec) := program_location_impl cfg os t
  if ec ≠ none then
    let (e, t) := report_error os ec "boost::dll::program_location() failed".toList t
    (Except.error e, t)
  else (Except.ok ret, t)

/-- The four location queries of `runtime_symbol_info.hpp`, each with its
argument: a pointer, or the address of a symbol, or the address of the
function `this_line_location` itself. -/
inductive location_query
  | symbol_location_ptr (ptr_to_symbol : Nat)
  | symbol_location (addressof_symbol : Nat)
  | this_line_location (f : Nat)
  | program_location
deriving DecidableEq

/-- The overload of a location query that takes an error code. -/
def location_query.with_ec (cfg : Platform) (os : OS) :
    location_query → error_code → List Event → path × error_code × List Event
  | location_query.symbol_location_ptr p, ec, t => BoostDLL.symbol_location_ptr os p ec t
  | location_query.symbol_location a, ec, t => BoostDLL.symbol_location os a ec t
  | location_query.this_line_location f, ec, t => BoostDLL.this_line_location os f ec t
  | location_query.program_location, ec, t => BoostDLL.program_location cfg os ec t

/-- The overload of a location query that takes no error code. -/
def location_query.throwing (cfg : Platform) (os : OS) :
    location_query → List Event → Except system_error path × List Event
  | location_query.symbol_location_ptr p, t => symbol_location_ptr_throwing os p t
  | location_query.symbol_location a, t => symbol_location_throwing os a t
  | location_query.this_line_location f, t => this_line_location_throwing os f t
  | location_query.program_location, t => program_location_throwing cfg os t

/-- The text each overload without error code passes to `report_error`. -/
def location_query.message : location_query → List Char
  | location_query.symbol_location_ptr _ =>
    "boost::dll::symbol_location_ptr(T ptr_to_symbol) failed".toList
  | location_query.symbol_location _ =>
    "boost::dll::symbol_location(const T& symbol) failed".toList
  | location_query.this_line_location _ => "boost::dll::this_line_location() failed".toList
  | location_query.program_location => "boost::dll::program_location() failed".toList

/-- The text `report_error` appends to its message when `dlerror()` hands out
the text `error_txt`, and nothing when it hands out `NULL`. -/
def dlerror_note : Option (List Char) → List Char
  | some error_txt => " (dlerror system message: ".toList ++ error_txt ++ ")".toList
  | none => []

/-! ## `import` -/

/-- Modelled from the spec: the class `shared_library`, whose header is not
among the sources: the Shared Library Handle over one `shared_library_impl`.
Constructing it from a path and a mode loads the library and raises when the
load reports an error (`LoadFailed`); the handle of the object under
construction is then released. The answer is `none` when it raised. -/
def shared_library_construct (cfg : Platform) (os : OS) (lib : path) (mode : Nat)
    (t : List Event) : Option shared_library_impl × List Event :=
  let r := shared_library_impl.load cfg os shared_library_impl.default_construct lib mode none t
  if r.threw = true ∨ r.ec ≠ none then (none, r.self.destroy r.trace)
  else (some r.self, r.trace)

/-- Modelled from the spec: the member `shared_library::get<T>(name)`, which
resolves the symbol and raises `SymbolNotFound` when it does not resolve. The
answer is `none` when it raised. -/
def shared_library_get (os : OS) (self : shared_library_impl) (name : List Char)
    (t : List Event) : Option Nat × List Event :=
  let r := self.symbol_addr os name none t
  if r.2.1 ≠ none then (none, r.2.2) else (some r.1, r.2.2)

/-- The control block of a `std::shared_ptr<shared_library>`: the managed
library, `none` once destroyed, and the number of owners. -/
structure SharedCell where
  lib : Option shared_library_impl
  use_count : Nat
deriving DecidableEq

/-- What `import` leaves behind: the address held by the value returned
(`none` when `import` raised), the control block, and the loader calls. -/
structure ImportResult where
  value : Option Nat
  cell : SharedCell
  trace : List Event
deriving DecidableEq

/-- Embeds `import<T>(lib, name, mode)` for a path: `std::make_shared` builds
the library, `get<T>` resolves the name, the value returned shares ownership
with the local pointer `p`, which is destroyed on the way out. -/
def import_symbol (cfg : Platform) (os : OS) (lib : path) (name : List Char) (mode : Nat)
    (t : List Event) : ImportResult :=
  match shared_library_construct cfg os lib mode t with
  | (none, t1) => { value := none, cell := { lib := none, use_count := 0 }, trace := t1 }
  | (some sl, t1) =>
      match shared_library_get os sl name t1 with
      | (none, t2) =>
          { value := none, cell := { lib := none, use_count := 0 }, trace := sl.destroy t2 }
      | (some addr, t2) =>
          { value := some addr, cell := { lib := some sl, use_count := 1 }, trace := t2 }

/-- Copying a value copies its `std::shared_ptr`: one more owner. There must be
a value to copy. -/
def SharedCell.copy (c : SharedCell) (t : List Event) : Option (SharedCell × List Event) :=
  if c.use_count = 0 then none
  else some ({ c with use_count := c.use_count + 1 }, t)

/-- Destroying a value destroys its `std::shared_ptr`: one owner fewer, and the
last owner destroys the library, whose destructor unloads it. -/
def SharedCell.drop (c : SharedCell) (t : List Event) : Option (SharedCell × List Event) :=
  if c.use_count = 0 then none
  else if c.use_count = 1 then
    match c.lib with
    | none => some ({ lib := none, use_count := 0 }, t)
    | some sl => some ({ lib := none, use_count := 0 }, sl.destroy t)
  else some ({ c with use_count := c.use_count - 1 }, t)

/-- One statement of a program that imports symbols: a call of `import` (or of
`import_alias`, which builds its control block in the same way), the copy of a
value, the destruction of a value. The values returned are numbered in the
order of the calls that returned them; a value and its copies share the
control block of that number. -/
inductive ImportOp
  | call_import (lib : path) (name : List Char) (mode : Nat)
  | copy (i : Nat)
  | drop (i : Nat)
deriving DecidableEq

/-- The control blocks of the values `import` returned so far, and the loader
calls made so far. -/
structure Importer where
  cells : List SharedCell
  trace : List Event
deriving DecidableEq

/-- Program start: no value, no loader call. -/
def Importer.start : Importer := { cells := [], trace := [] }

/-- Executes one statement. A call of `import` that raises returns no value
and leaves no control block behind. The answer is `none` when the statement
copies or destroys a value that does not exist. -/
def import_step (cfg : Platform) (os : OS) (s : Importer) : ImportOp → Option Importer
  | ImportOp.call_import lib name mode =>
      match (import_symbol cfg os lib name mode s.trace).value with
      | none =>
          some { cells := s.cells, trace := (import_symbol cfg os lib name mode s.trace).trace }
      | some _ =>
          some { cells := s.cells ++ [(import_symbol cfg os lib name mode s.trace).cell],
                 trace := (import_symbol cfg os lib name mode s.trace).trace }
  | ImportOp.copy i =>
      match s.cells[i]? with
      | none => none
      | some c =>
        match c.copy s.trace with
        | none => none
        | some r => some { cells := s.cells.set i r.1, trace := r.2 }
  | ImportOp.drop i =>
      match s.cells[i]? with
      | none => none
      | some c =>
        match c.drop s.trace with
        | none => none
        | some r => some { cells := s.cells.set i r.1, trace := r.2 }

/-- Executes a sequence of statements. -/
def import_run (cfg : Platform) (os : OS) : Importer → List ImportOp → Option Importer
  | s, [] => some s
  | s, op :: ops =>
      match import_step cfg os s op with
      | none => none
      | some s1 => import_run cfg os s1 ops

/-- Number of copies the statements make of the value numbered `i`. -/
def copies_of (i : Nat) : List ImportOp → Nat
  | [] => 0
  | ImportOp.copy j :: ops => (if j = i then 1 else 0) + copies_of i ops
  | _ :: ops => copies_of i ops

/-- Number of values numbered `i` the statements destroy. -/
def drops_of (i : Nat) : List ImportOp → Nat
  | [] => 0
  | ImportOp.drop j :: ops => (if j = i then 1 else 0) + drops_of i ops
  | _ :: ops => drops_of i ops

/-- Number of control blocks whose library is alive and holds handle `h`. -/
def cell_holders (h : native_handle_t) (cells : List SharedCell) : Nat :=
  (cells.map (fun c => held_slot h c.lib)).sum

/-- A control block is well formed: it has no owner exactly when its library is
destroyed, and a library that is alive is loaded. -/
def cell_ok (c : SharedCell) : Prop :=
  (c.use_count = 0 ↔ c.lib = none) ∧ ∀ sl, c.lib = some sl → sl.is_loaded = true

/-- The counting invariant of a program that imports symbols: every control
block is well formed and, for every non-null handle, the control blocks whose
library holds it and the `dlclose` calls on it add up to the `dlopen` calls
that returned it. -/
def importer_ok (s : Importer) : Prop :=
  (∀ c ∈ s.cells, cell_ok c) ∧
  ∀ h : native_handle_t, h ≠ 0 →
    cell_holders h s.cells + closes_of h s.trace = opens_of h s.trace

/-! ## Concrete loaders -/

/-- A loader that refuses every file and resolves no symbol; the running
program is `/usr/bin/app`. -/
def os_refuse : OS :=
  { dlopen := fun _ _ _ => 0
    dlsym := fun _ _ _ => 0
    dladdr := fun _ _ => none
    dlerror := fun _ => none
    fs_exists := fun _ _ => some false
    equivalent := fun _ a b => (a == b, none)
    current_path := fun _ => ("/home".toList, none)
    read_symlink := fun _ _ => ("/usr/bin/app".toList, none)
    NSGetExecutablePath := fun _ _ => ⟨0, "/usr/bin/app".toList, 13⟩ }

/-- A loader in the manner of glibc: every named file opens to the same handle
7 (an object opened again yields the same handle), the main program opens to
handle 1, and a lookup through the null handle searches the default scope,
where `printf` is found. The text of a failed lookup is kept until the next
loader call. -/
def os_glibc : OS :=
  { dlopen := fun _ file _ => match file with
      | none => 1
      | some _ => 7
    dlsym := fun _ h name =>
      if name = "printf".toList then 4096
      else if h = 7 ∧ name = "plugin".toList then 8192 else 0
    dladdr := fun _ addr =>
      if addr = 4096 then some "/lib/x86_64-linux-gnu/libc.so.6".toList
      else if addr = 8192 then some "./libplugin.so".toList else none
    dlerror := fun t => match t.getLast? with
      | some (Event.dlsym _ _ 0) => some "undefined symbol".toList
      | _ => none
    fs_exists := fun _ _ => some true
    equivalent := fun _ a b => (a == b, none)
    current_path := fun _ => ("/home".toList, none)
    read_symlink := fun _ _ => ("/usr/bin/app".toList, none)
    NSGetExecutablePath := fun _ _ => ⟨0, "/usr/bin/app".toList, 13⟩ }

/-- A loader that opens no file by name but opens the main program, which is
`/usr/bin/app`, to handle 1. -/
def os_program : OS :=
  { dlopen := fun _ file _ => match file with
      | none => 1
      | some _ => 0
    dlsym := fun _ _ _ => 0
    dladdr := fun _ _ => none
    dlerror := fun _ => none
    fs_exists := fun _ _ => some false
    equivalent := fun _ a b => (a == b, none)
    current_path := fun _ => ("/home".toList, none)
    read_symlink := fun _ _ => ("/usr/bin/app".toList, none)
    NSGetExecutablePath := fun _ _ => ⟨0, "/usr/bin/app".toList, 13⟩ }

/-- A loader that accepts only `./myplugin`, a shared object that carries no
decoration; no decorated file exists. -/
def os_undecorated : OS :=
  { dlopen := fun _ file _ => if file = some "./myplugin".toList then 5 else 0
    dlsym := fun _ _ _ => 0
    dladdr := fun _ _ => none
    dlerror := fun _ => none
    fs_exists := fun _ p => some (p == "./myplugin".toList)
    equivalent := fun _ a b => (a == b, none)
    current_path := fun _ => ("/home".toList, none)
    read_symlink := fun _ _ => ("/usr/bin/app".toList, none)
    NSGetExecutablePath := fun _ _ => ⟨0, "/usr/bin/app".toList, 13⟩ }

/-- A sample program, first part: two libraries are loaded, one handle is
moved into a new object, two objects are swapped. -/
def sample_ops_first : List Op :=
  [Op.default_construct, Op.load 0 "x".toList 0 none, Op.move_construct 0,
   Op.default_construct, Op.load 2 "y".toList 0 none, Op.swap 1 2]

/-- The sample program, second part: an unload, a move assignment, and the
destruction of all three objects. -/
def sample_ops_second : List Op :=
  [Op.unload 1, Op.move_assign 0 2, Op.destroy 0, Op.destroy 1, Op.destroy 2]

/-- The state the first part of the sample program reaches with `os_fresh`. -/
def sample_mid : Program :=
  { objects := [some { handle_ := 0 }, some { handle_ := 3 }, some { handle_ := 1 }],
    trace := [Event.dlopen (some "./x".toList) 1 1, Event.dlerror,
              Event.dlopen (some "./y".toList) 1 3, Event.dlerror] }

/-- The state the whole sample program reaches with `os_fresh`. -/
def sample_fin : Program :=
  { objects := [none, none, none],
    trace := [Event.dlopen (some "./x".toList) 1 1, Event.dlerror,
              Event.dlopen (some "./y".toList) 1 3, Event.dlerror,
              Event.dlclose 3, Event.dlclose 1] }

/-! ## Lemmas on pathnames -/

theorem lib_toList : "lib".toList = ['l', 'i', 'b'] := rfl

theorem toNat_sub_ne_zero (a b : Char) (h : a ≠ b) : (a.toNat : Int) - (b.toNat : Int) ≠ 0 := by
  intro h2
  apply h
  have h3 : a.toNat = b.toNat := by omega
  rw [← Char.ofNat_toNat a, ← Char.ofNat_toNat b, h3]

theorem toNat_ne_zero (b : Char) (h : b ≠ Char.ofNat 0) : (b.toNat : Int) ≠ 0 := by
  intro h2
  apply h
  have h3 : b.toNat = 0 := by omega
  rw [← Char.ofNat_toNat b, h3]

theorem strncmp_c_str_eq_zero (n : Nat) : ∀ (a b : List Char),
    n ≤ b.length → (∀ c ∈ b.take n, c ≠ Char.ofNat 0) →
    (strncmp (c_str a) b n = 0 ↔ a.take n = b.take n) := by
  induction n with
  | zero => intro a b _ _; simp [strncmp]
  | succ n ih =>
    intro a b hlen hnul
    rcases b with _ | ⟨y, bs⟩
    · simp at hlen
    · have hy : y ≠ Char.ofNat 0 := hnul y (by simp)
      have hbs : ∀ c ∈ bs.take n, c ≠ Char.ofNat 0 := fun c hc => hnul c (by simp [hc])
      have hl : n ≤ bs.length := by simpa using hlen
      rcases a with _ | ⟨x, as⟩
      · simp [c_str, strncmp, toNat_ne_zero y hy]
      · by_cases hx : x = Char.ofNat 0
        · subst hx
          have : Char.ofNat 0 ≠ y := fun h => hy h.symm
          simp [c_str, strncmp, toNat_ne_zero y hy, this]
        · by_cases hxy : x = y
          · subst hxy
            have := ih as bs hl hbs
            simpa [c_str, strncmp, hx] using this
          · simp [c_str, strncmp, hx, hxy, toNat_sub_ne_zero x y hxy]

/-- The test `strncmp(name.c_str(), "lib", 3)` is zero exactly when the first
three characters of the name are `lib`. -/
theorem strncmp_lib_eq_zero (f : List Char) :
    strncmp (c_str f) "lib".toList 3 = 0 ↔ f.take 3 = "lib".toList := by
  have := strncmp_c_str_eq_zero 3 f "lib".toList (by decide) (by decide)
  simpa using this

theorem is_sep_eq_not (c : Char) : is_sep c = !not_sep c := by
  cases h : c == preferred_separator <;> simp [is_sep, not_sep, bne, h]

theorem not_sep_separator : not_sep preferred_separator = false := by decide

theorem sep_free_reverse {s : path} (hs : sep_free s) : ∀ c ∈ s.reverse, not_sep c = true :=
  fun c hc => hs c (List.mem_reverse.mp hc)

theorem filename_sep_free (p : path) : sep_free (filename p) := by
  intro c hc
  unfold filename at hc
  exact List.mem_takeWhile_imp (List.mem_reverse.mp hc)

theorem filename_append (p s : path) (hs : sep_free s) :
    filename (p ++ s) = filename p ++ s := by
  unfold filename
  rw [List.reverse_append, List.takeWhile_append_of_pos (sep_free_reverse hs)]
  simp

theorem filename_of_sep_free (s : path) (hs : sep_free s) : filename s = s := by
  have := filename_append [] s hs
  simpa [filename] using this

theorem filename_snoc_sep (p : path) : filename (p ++ [preferred_separator]) = [] := by
  simp [filename, not_sep_separator]

theorem dropWhile_not_sep_of_all_sep (l : List Char) (h : ∀ c ∈ l, not_sep c = false) :
    l.dropWhile not_sep = l := by
  cases l with
  | nil => rfl
  | cons a l => simp [List.dropWhile, h a (by simp)]

theorem dropWhile_is_sep_of_all_sep (l : List Char) (h : ∀ c ∈ l, not_sep c = false) :
    l.dropWhile is_sep = [] := by
  rw [List.dropWhile_eq_nil_iff]
  intro c hc
  simp [is_sep_eq_not, h c hc]

theorem no_relative_path_iff (p : path) :
    has_relative_path p = false ↔ ∀ c ∈ p, not_sep c = false := by
  simp [has_relative_path]

theorem parent_path_of_no_relative_path (p : path) (h : has_relative_path p = false) :
    parent_path p = p := by
  simp [parent_path, h]

theorem parent_path_append (p s : path) (hs : sep_free s)
    (hp : has_relative_path p = true) :
    parent_path (p ++ s) = parent_path p := by
  rcases s with _ | ⟨x, s⟩
  · simp
  · have hrel : has_relative_path (p ++ x :: s) = true := by
      simp only [has_relative_path, List.any_eq_true]
      exact ⟨x, by simp, hs x (by simp)⟩
    have hd : (p ++ x :: s).reverse.dropWhile not_sep = p.reverse.dropWhile not_sep := by
      rw [List.reverse_append, List.dropWhile_append_of_pos (sep_free_reverse hs)]
    simp only [parent_path]
    rw [hd]
    simp [hrel, hp]

/-- A name right after separators only: its parent is the root directory,
spelled with one separator. -/
theorem parent_path_root_append (q s : path) (hq : has_relative_path q = false)
    (hs : sep_free s) (hne : s ≠ []) :
    parent_path (q ++ s) = if q.isEmpty then [] else [preferred_separator] := by
  rcases s with _ | ⟨x, s⟩
  · exact absurd rfl hne
  · have hrel : has_relative_path (q ++ x :: s) = true := by
      simp only [has_relative_path, List.any_eq_true]
      exact ⟨x, by simp, hs x (by simp)⟩
    have hd : (q ++ x :: s).reverse.dropWhile not_sep = q.reverse.dropWhile not_sep := by
      rw [List.reverse_append, List.dropWhile_append_of_pos (sep_free_reverse hs)]
    have hall := (no_relative_path_iff q).mp hq
    have hall2 : ∀ c ∈ q.reverse, not_sep c = false := fun c hc => hall c (List.mem_reverse.mp hc)
    simp only [parent_path, hrel, hd, dropWhile_not_sep_of_all_sep _ hall2,
      dropWhile_is_sep_of_all_sep _ hall2]
    simp

theorem has_relative_path_of_has_filename (p : path) (h : has_filename p = true) :
    has_relative_path p = true := by
  simp only [has_relative_path, List.any_eq_true]
  have hne : filename p ≠ [] := by
    intro h0
    simp [has_filename, h0] at h
  obtain ⟨c, l, hcl⟩ := List.exists_cons_of_ne_nil hne
  have hc : c ∈ filename p := by rw [hcl]; simp
  refine ⟨c, ?_, filename_sep_free p c hc⟩
  unfold filename at hc
  exact List.mem_reverse.mp ((List.takeWhile_sublist _).subset (List.mem_reverse.mp hc))

theorem has_relative_path_append_right (p s : path) (hs : sep_free s) (hne : s ≠ []) :
    has_relative_path (p ++ s) = true := by
  obtain ⟨x, l, rfl⟩ := List.exists_cons_of_ne_nil hne
  simp only [has_relative_path, List.any_eq_true]
  exact ⟨x, by simp, hs x (by simp)⟩

theorem has_relative_path_append_left (p s : path) (hp : has_relative_path p = true) :
    has_relative_path (p ++ s) = true := by
  simp only [has_relative_path, List.any_eq_true] at hp ⊢
  obtain ⟨x, hx, hx2⟩ := hp
  exact ⟨x, by simp [hx], hx2⟩

theorem has_filename_iff (p : path) :
    has_filename p = true ↔ ∃ q c, p = q ++ [c] ∧ not_sep c = true := by
  constructor
  · intro h
    rcases List.eq_nil_or_concat p with hp | ⟨q, c, hp⟩
    · subst hp; simp [has_filename, filename] at h
    · rw [List.concat_eq_append] at hp
      refine ⟨q, c, hp, ?_⟩
      subst hp
      by_contra hc
      simp [has_filename, filename, hc] at h
  · rintro ⟨q, c, rfl, hc⟩
    simp [has_filename, filename, hc]

theorem no_filename_iff (p : path) :
    has_filename p = false ↔ p = [] ∨ ∃ q, p = q ++ [preferred_separator] := by
  constructor
  · intro h
    rcases List.eq_nil_or_concat p with hp | ⟨q, c, hp⟩
    · exact Or.inl hp
    · rw [List.concat_eq_append] at hp
      right
      refine ⟨q, ?_⟩
      subst hp
      by_cases hc : not_sep c = true
      · have := (has_filename_iff (q ++ [c])).mpr ⟨q, c, rfl, hc⟩
        rw [h] at this; cases this
      · have : c = preferred_separator := by
          simpa [not_sep] using hc
        rw [this]
  · rintro (rfl | ⟨q, rfl⟩)
    · rfl
    · simp [has_filename, filename_snoc_sep]

theorem parent_path_snoc_sep (p : path) (h : has_filename p = true) :
    parent_path (p ++ [preferred_separator]) = p := by
  obtain ⟨q, c, rfl, hc⟩ := (has_filename_iff p).mp h
  have hrel : has_relative_path (q ++ [c, preferred_separator]) = true := by
    simp only [has_relative_path, List.any_eq_true]
    exact ⟨c, by simp, hc⟩
  have hc2 : is_sep c = false := by simp [is_sep_eq_not, hc]
  have hs : is_sep preferred_separator = true := by decide
  simp [parent_path, hrel, not_sep_separator, hc2, hs]

/-- A parent path without file name is empty or spells the root directory. -/
theorem parent_path_no_filename (p : path) (h : has_filename (parent_path p) = false) :
    has_relative_path (parent_path p) = false ∧
    (parent_path p = [] ∨ parent_path p = [preferred_separator] ∨
      (has_relative_path p = false ∧ 2 ≤ p.length)) := by
  by_cases hp : has_relative_path p = true
  · by_cases he : ((p.reverse.dropWhile not_sep).dropWhile is_sep).isEmpty = true
    · by_cases hd : (p.reverse.dropWhile not_sep).isEmpty = true
      · have hpp : parent_path p = [] := by
          simp only [parent_path, hp, he, hd]
          simp
        rw [hpp]
        exact ⟨rfl, Or.inl rfl⟩
      · have hpp : parent_path p = [preferred_separator] := by
          simp only [parent_path, hp, he, hd]
          simp
        rw [hpp]
        exact ⟨by decide, Or.inr (Or.inl rfl)⟩
    · exfalso
      have hpp : parent_path p = ((p.reverse.dropWhile not_sep).dropWhile is_sep).reverse := by
        simp only [parent_path, hp, he]
        simp
      have hne : (p.reverse.dropWhile not_sep).dropWhile is_sep ≠ [] := by
        simpa using he
      have hhead := List.head_dropWhile_not is_sep (p.reverse.dropWhile not_sep) hne
      obtain ⟨a, l, hal⟩ := List.exists_cons_of_ne_nil hne
      have ha : is_sep a = false := by
        simpa [hal] using hhead
      have : has_filename (parent_path p) = true := by
        rw [has_filename_iff]
        refine ⟨l.reverse, a, ?_, ?_⟩
        · rw [hpp, hal]; simp
        · simpa [is_sep_eq_not] using ha
      rw [h] at this; cases this
  · have hp2 : has_relative_path p = false := by simpa using hp
    rw [parent_path_of_no_relative_path p hp2]
    refine ⟨hp2, ?_⟩
    rcases p with _ | ⟨a, _ | ⟨b, l⟩⟩
    · exact Or.inl rfl
    · right; left
      have ha := (no_relative_path_iff [a]).mp hp2 a (by simp)
      have : a = preferred_separator := by simpa [not_sep] using ha
      rw [this]
    · right; right
      exact ⟨hp2, by simp⟩

theorem suffix_sep_free (cfg : Platform) : sep_free (suffix cfg) := by
  unfold suffix sep_free
  split <;> decide

theorem lib_sep_free : sep_free "lib".toList := by
  unfold sep_free; decide

theorem sep_free_append {a b : path} (ha : sep_free a) (hb : sep_free b) : sep_free (a ++ b) := by
  intro c hc
  rcases List.mem_append.mp hc with h | h
  · exact ha c h
  · exact hb c h

theorem decorate_of_lib (cfg : Platform) (p : path)
    (h : (filename p).take 3 = "lib".toList) : decorate cfg p = p ++ suffix cfg := by
  have := (strncmp_lib_eq_zero (filename p)).mpr h
  unfold decorate
  simp only [this]
  simp

theorem decorate_of_not_lib (cfg : Platform) (p : path)
    (h : (filename p).take 3 ≠ "lib".toList) :
    decorate cfg p =
      (if has_parent_path p then path_append (parent_path p) "lib".toList else "lib".toList)
        ++ filename p ++ suffix cfg := by
  have : strncmp (c_str (filename p)) "lib".toList 3 ≠ 0 :=
    fun h0 => h ((strncmp_lib_eq_zero (filename p)).mp h0)
  unfold decorate
  simp only [bne_iff_ne, ne_eq, this, not_false_eq_true, if_true]

/-- The directory part that `decorate` puts in front of `lib`. -/
theorem path_append_lib (q : path) :
    path_append q "lib".toList =
      if has_filename q then q ++ [preferred_separator] ++ "lib".toList else q ++ "lib".toList := by
  have : is_absolute "lib".toList = false := by decide
  unfold path_append
  simp only [this]
  simp

theorem filename_decorate (cfg : Platform) (p : path) :
    filename (decorate cfg p) =
      if (filename p).take 3 = "lib".toList then filename p ++ suffix cfg
      else "lib".toList ++ filename p ++ suffix cfg := by
  have hsfx := suffix_sep_free cfg
  have hfn := filename_sep_free p
  by_cases h : (filename p).take 3 = "lib".toList
  · rw [decorate_of_lib cfg p h, if_pos h, filename_append _ _ hsfx]
  · rw [decorate_of_not_lib cfg p h, if_neg h, filename_append _ _ hsfx, filename_append _ _ hfn]
    congr 2
    by_cases hpp : has_parent_path p = true
    · rw [if_pos hpp, path_append_lib]
      by_cases hf : has_filename (parent_path p) = true
      · rw [if_pos hf, filename_append _ _ lib_sep_free, filename_snoc_sep]; rfl
      · have hf2 : has_filename (parent_path p) = false := by simpa using hf
        rw [if_neg hf, filename_append _ _ lib_sep_free]
        have : filename (parent_path p) = [] := by
          simpa [has_filename] using hf2
        rw [this]; rfl
    · rw [if_neg hpp]
      exact filename_of_sep_free _ lib_sep_free

/-- The parent path of a decorated path: that of the path itself, except that
a root directory spelled with several separators, and nothing after it, comes
back spelled with one. -/
theorem parent_path_decorate (cfg : Platform) (p : path) :
    parent_path (decorate cfg p) =
      if has_relative_path p = false ∧ 2 ≤ p.length then [preferred_separator]
      else parent_path p := by
  have hsfx := suffix_sep_free cfg
  have hfn := filename_sep_free p
  have hlibne : "lib".toList ≠ [] := by decide
  by_cases h : (filename p).take 3 = "lib".toList
  · have hf : has_filename p = true := by
      cases hc : filename p with
      | nil => rw [hc] at h; exact absurd h (by decide)
      | cons a l => simp [has_filename, hc]
    have hrel := has_relative_path_of_has_filename p hf
    rw [decorate_of_lib cfg p h, parent_path_append _ _ hsfx hrel, if_neg]
    rintro ⟨h0, _⟩
    rw [hrel] at h0; cases h0
  · rw [decorate_of_not_lib cfg p h]
    by_cases hpp : has_parent_path p = true
    · rw [if_pos hpp, path_append_lib]
      by_cases hf : has_filename (parent_path p) = true
      · have hr1 : has_relative_path
            (parent_path p ++ [preferred_separator] ++ "lib".toList) = true :=
          has_relative_path_append_right _ _ lib_sep_free hlibne
        have hr0 : has_relative_path (parent_path p ++ [preferred_separator]) = true :=
          has_relative_path_append_left _ _ (has_relative_path_of_has_filename _ hf)
        rw [if_pos hf, parent_path_append _ _ hsfx (has_relative_path_append_left _ _ hr1),
          parent_path_append _ _ hfn hr1, parent_path_append _ _ lib_sep_free hr0,
          parent_path_snoc_sep _ hf, if_neg]
        rintro ⟨h0, _⟩
        rw [parent_path_of_no_relative_path p h0] at hf
        have := has_relative_path_of_has_filename p hf
        rw [h0] at this; cases this
      · have hf2 : has_filename (parent_path p) = false := by simpa using hf
        obtain ⟨k1, k2⟩ := parent_path_no_filename p hf2
        have hne : parent_path p ≠ [] := by
          intro h0
          simp [has_parent_path, h0] at hpp
        have hr1 : has_relative_path (parent_path p ++ "lib".toList) = true :=
          has_relative_path_append_right _ _ lib_sep_free hlibne
        rw [if_neg hf, parent_path_append _ _ hsfx (has_relative_path_append_left _ _ hr1),
          parent_path_append _ _ hfn hr1, parent_path_root_append _ _ k1 lib_sep_free hlibne]
        have hiso : (parent_path p).isEmpty = false := by
          cases hc : parent_path p with
          | nil => exact absurd hc hne
          | cons a l => rfl
        rw [hiso]
        by_cases hc : has_relative_path p = false ∧ 2 ≤ p.length
        · rw [if_pos hc]; rfl
        · rw [if_neg hc]
          rcases k2 with k2 | k2 | k2
          · exact absurd k2 hne
          · rw [k2]; rfl
          · exact absurd k2 hc
    · have hnil : parent_path p = [] := by
        simpa [has_parent_path] using hpp
      have hr1 : has_relative_path ("lib".toList) = true := by decide
      rw [if_neg hpp, parent_path_append _ _ hsfx (has_relative_path_append_left _ _ hr1),
        parent_path_append _ _ hfn hr1, if_neg, hnil]
      · decide
      · rintro ⟨h0, h1⟩
        rw [parent_path_of_no_relative_path p h0] at hnil
        rw [hnil] at h1
        simp at h1

theorem has_relative_path_decorate (cfg : Platform) (p : path) :
    has_relative_path (decorate cfg p) = true := by
  have hne : suffix cfg ≠ [] := by
    unfold suffix; split <;> decide
  unfold decorate
  exact has_relative_path_append_right _ _ (suffix_sep_free cfg) hne

theorem filename_decorate_take (cfg : Platform) (p : path) :
    (filename (decorate cfg p)).take 3 = "lib".toList := by
  rw [filename_decorate]
  split
  · next h =>
    have hl : 3 ≤ (filename p).length := by
      by_contra hlt
      have := congrArg List.length h
      simp at this
      omega
    rw [List.take_append_of_le_length hl, h]
  · simp [lib_toList]

theorem decorate_decorate (cfg : Platform) (p : path) :
    decorate cfg (decorate cfg p) = decorate cfg p ++ suffix cfg :=
  decorate_of_lib cfg _ (filename_decorate_take cfg p)

/-! ## Lemmas on the handle -/

open shared_library_impl

theorem unload_fst (self : shared_library_impl) (t : List Event) :
    (self.unload t).1 = { handle_ := 0 } := by
  rcases self with ⟨h⟩
  by_cases hh : h = 0 <;> simp [unload, is_loaded, hh]

theorem unload_snd (self : shared_library_impl) (t : List Event) :
    (self.unload t).2 =
      t ++ (if self.is_loaded = true then [Event.dlclose self.handle_] else []) := by
  rcases self with ⟨h⟩
  by_cases hh : h = 0 <;> simp [unload, is_loaded, hh]

/-! ## Counting loader calls -/

theorem opens_of_append (h : native_handle_t) (t u : List Event) :
    opens_of h (t ++ u) = opens_of h t + opens_of h u := by
  simp [opens_of]

theorem closes_of_append (h : native_handle_t) (t u : List Event) :
    closes_of h (t ++ u) = closes_of h t + closes_of h u := by
  simp [closes_of]

theorem opens_of_nil (h : native_handle_t) : opens_of h [] = 0 := rfl

theorem closes_of_nil (h : native_handle_t) : closes_of h [] = 0 := rfl

theorem opens_of_dlopen (h : native_handle_t) (f : Option path) (m : Nat) (r : native_handle_t)
    (t : List Event) :
    opens_of h (Event.dlopen f m r :: t) = (if r = h then 1 else 0) + opens_of h t := by
  by_cases hr : r = h <;> simp [opens_of, List.countP_cons, hr, Nat.add_comm]

theorem opens_of_dlerror (h : native_handle_t) (t : List Event) :
    opens_of h (Event.dlerror :: t) = opens_of h t := by
  simp [opens_of, List.countP_cons]

theorem opens_of_dlclose (h k : native_handle_t) (t : List Event) :
    opens_of h (Event.dlclose k :: t) = opens_of h t := by
  simp [opens_of, List.countP_cons]

theorem closes_of_dlopen (h : native_handle_t) (f : Option path) (m : Nat) (r : native_handle_t)
    (t : List Event) :
    closes_of h (Event.dlopen f m r :: t) = closes_of h t := by
  simp [closes_of, List.countP_cons]

theorem closes_of_dlerror (h : native_handle_t) (t : List Event) :
    closes_of h (Event.dlerror :: t) = closes_of h t := by
  simp [closes_of, List.countP_cons]

theorem closes_of_dlclose (h k : native_handle_t) (t : List Event) :
    closes_of h (Event.dlclose k :: t) = (if k = h then 1 else 0) + closes_of h t := by
  by_cases hk : k = h <;> simp [closes_of, List.countP_cons, hk, Nat.add_comm]

theorem held_mk (h k : native_handle_t) :
    held h { handle_ := k } = if k = h then 1 else 0 := rfl

/-- What `load_exact` adds to the trace: the old trace is kept, nothing is
closed, and the only non-null handle opened is the one held at the end. -/
theorem load_exact_counts (cfg : Platform) (os : OS) (sl : path) (native_mode : Nat)
    (ec : error_code) (t : List Event) (h : native_handle_t) (hh : h ≠ 0) :
    t <+: (load_exact cfg os sl native_mode ec t).trace ∧
    closes_of h (load_exact cfg os sl native_mode ec t).trace = closes_of h t ∧
    opens_of h (load_exact cfg os sl native_mode ec t).trace =
      opens_of h t + held h (load_exact cfg os sl native_mode ec t).self := by
  unfold load_exact
  simp only []
  split_ifs with h1 h2 <;>
    simp_all [reset_dlerror, opens_of_append, closes_of_append, opens_of_dlopen,
      opens_of_dlerror, closes_of_dlopen, closes_of_dlerror, opens_of_nil, closes_of_nil,
      Ne.symm hh, held_mk]

/-- What `load_decorated` adds to the trace. -/
theorem load_decorated_counts (cfg : Platform) (os : OS) (sl : path) (native_mode : Nat)
    (ec : error_code) (t : List Event) (h : native_handle_t) (hh : h ≠ 0) :
    t <+: (load_decorated cfg os sl native_mode ec t).trace ∧
    closes_of h (load_decorated cfg os sl native_mode ec t).trace = closes_of h t ∧
    opens_of h (load_decorated cfg os sl native_mode ec t).trace =
      opens_of h t + held h (load_decorated cfg os sl native_mode ec t).self := by
  unfold load_decorated
  simp only []
  split_ifs with h1 h2
  · simp_all [reset_dlerror, opens_of_append, closes_of_append, opens_of_dlopen,
      opens_of_dlerror, closes_of_dlopen, closes_of_dlerror, opens_of_nil, closes_of_nil,
      Ne.symm hh, held_mk]
  · have key := load_exact_counts cfg os sl
      (native_mode &&& bit_not load_mode.append_decorations) ec
      (t ++ [Event.dlopen (some (decorate cfg sl))
        (native_mode &&& bit_not load_mode.append_decorations)
        (os.dlopen t (some (decorate cfg sl))
          (native_mode &&& bit_not load_mode.append_decorations))]) h hh
    have h2' : os.dlopen t (some (decorate cfg sl))
          (native_mode &&& bit_not load_mode.append_decorations) = 0 := by
      simpa using h2
    split
    · simp [h2', opens_of_append, closes_of_append, opens_of_dlopen, closes_of_dlopen,
        opens_of_nil, closes_of_nil, Ne.symm hh, held_mk]
    · split_ifs with h4
      · simp [h2', opens_of_append, closes_of_append, opens_of_dlopen, closes_of_dlopen,
          opens_of_nil, closes_of_nil, Ne.symm hh, held_mk]
      · rw [h2'] at key ⊢
        obtain ⟨k1, k2, k3⟩ := key
        refine ⟨(List.prefix_append _ _).trans k1, ?_, ?_⟩
        · rw [k2]
          simp [closes_of_append, closes_of_dlopen, closes_of_nil]
        · rw [k3]
          simp [opens_of_append, opens_of_dlopen, opens_of_nil, Ne.symm hh]
  · exact load_exact_counts cfg os sl native_mode ec t h hh

/-- What `load` adds to the trace: the old trace is kept, the handle held
before is closed, and the only non-null handle opened is the one held at the
end. -/
theorem load_counts (cfg : Platform) (os : OS) (self : shared_library_impl) (sl : path)
    (portable_mode : Nat) (ec : error_code) (t : List Event) (h : native_handle_t)
    (hh : h ≠ 0) :
    t <+: (load cfg os self sl portable_mode ec t).trace ∧
    closes_of h (load cfg os self sl portable_mode ec t).trace
      = closes_of h t + held h self ∧
    opens_of h (load cfg os self sl portable_mode ec t).trace =
      opens_of h t + held h (load cfg os self sl portable_mode ec t).self := by
  have hu : t <+: (self.unload t).2 := by
    rw [unload_snd]; exact List.prefix_append _ _
  have hc : closes_of h (self.unload t).2 = closes_of h t + held h self := by
    rw [unload_snd, closes_of_append]
    rcases self with ⟨k⟩
    by_cases hk : k = h
    · subst hk; simp [is_loaded, hh, closes_of_dlclose, closes_of_nil, held_mk]
    · by_cases hk0 : k = 0 <;>
        simp [is_loaded, hk, hk0, closes_of_dlclose, closes_of_nil, held_mk, Ne.symm hh]
  have ho : opens_of h (self.unload t).2 = opens_of h t := by
    rw [unload_snd, opens_of_append]
    split <;> simp [opens_of_dlclose, opens_of_nil]
  unfold load
  simp only []
  split_ifs with h1
  · refine ⟨hu.trans (List.prefix_append _ _), ?_, ?_⟩
    · simp [reset_dlerror, closes_of_append, closes_of_dlerror, closes_of_nil, hc]
    · simp [reset_dlerror, opens_of_append, opens_of_dlerror, opens_of_nil, ho, unload_fst,
        held_mk, Ne.symm hh]
  · obtain ⟨k1, k2, k3⟩ := load_decorated_counts cfg os
      (fix_path cfg os sl (fix_modes cfg (portable_mode % int_modulus)) (self.unload t).2)
      (fix_modes cfg (portable_mode % int_modulus) &&& bit_not load_mode.search_system_folders)
      ec (self.unload t).2 h hh
    exact ⟨hu.trans k1, by rw [k2, hc], by rw [k3, ho]⟩

/-! ## Lemmas on programs -/

theorem sum_map_set {α : Type} (f : α → Nat) (l : List α) (i : Nat) (x y : α)
    (hi : l[i]? = some x) :
    ((l.set i y).map f).sum + f x = (l.map f).sum + f y := by
  induction l generalizing i with
  | nil => simp at hi
  | cons b l ih =>
    cases i with
    | zero =>
      simp at hi
      subst hi
      simp
      omega
    | succ i =>
      simp at hi
      have := ih i hi
      simp only [List.set_cons_succ, List.map_cons, List.sum_cons]
      omega

theorem live_iff (s : Program) (i : Nat) (x : shared_library_impl) :
    s.live i = some x ↔ s.objects[i]? = some (some x) := by
  unfold Program.live
  cases h : s.objects[i]? with
  | none => simp [h]
  | some o => cases o <;> simp [h]

theorem holders_set (objs : List (Option shared_library_impl)) (i : Nat)
    (x y : shared_library_impl) (h : native_handle_t) (hi : objs[i]? = some (some x)) :
    holders h (objs.set i (some y)) + held h x = holders h objs + held h y :=
  sum_map_set (held_slot h) objs i (some x) (some y) hi

theorem holders_set_none (objs : List (Option shared_library_impl)) (i : Nat)
    (x : shared_library_impl) (h : native_handle_t) (hi : objs[i]? = some (some x)) :
    holders h (objs.set i none) + held h x = holders h objs :=
  sum_map_set (held_slot h) objs i (some x) none hi

theorem holders_concat (objs : List (Option shared_library_impl))
    (y : shared_library_impl) (h : native_handle_t) :
    holders h (objs ++ [some y]) = holders h objs + held h y := by
  simp [holders, held_slot]

theorem held_zero (h : native_handle_t) (hh : h ≠ 0) :
    held h { handle_ := 0 } = 0 := by
  simp [held, Ne.symm hh]

theorem held_eta (h : native_handle_t) (x : shared_library_impl) :
    held h { handle_ := x.handle_ } = held h x := rfl

/-- Exchanging the handles of two live objects (the same object twice
included) leaves the number of holders of every handle as it was. -/
theorem holders_exchange (objs : List (Option shared_library_impl)) (i j : Nat)
    (a b : shared_library_impl) (h : native_handle_t)
    (hi : objs[i]? = some (some a)) (hj : objs[j]? = some (some b)) :
    holders h ((objs.set i (some { handle_ := b.handle_ })).set j
      (some { handle_ := a.handle_ })) = holders h objs := by
  have h1 := holders_set objs i a { handle_ := b.handle_ } h hi
  have hlen : i < objs.length := by
    by_contra hc
    rw [List.getElem?_eq_none (by omega)] at hi
    cases hi
  by_cases hij : i = j
  · subst hij
    have hab : a = b := by
      rw [hi] at hj
      simpa using hj
    subst hab
    have hj2 : (objs.set i (some ({ handle_ := a.handle_ } : shared_library_impl)))[i]?
        = some (some { handle_ := a.handle_ }) := by
      simp [List.getElem?_set, hlen]
    have h2 := holders_set _ i _ { handle_ := a.handle_ } h hj2
    simp only [held_eta] at h1 h2
    omega
  · have hj2 : (objs.set i (some ({ handle_ := b.handle_ } : shared_library_impl)))[j]?
        = some (some b) := by
      simp [List.getElem?_set, hij, hj]
    have h2 := holders_set _ j _ { handle_ := a.handle_ } h hj2
    simp only [held_eta] at h1 h2
    omega

theorem step_balanced (cfg : Platform) (os : OS) (s s1 : Program) (op : Op)
    (hstep : step cfg os s op = some s1) (hb : balanced s) :
    balanced s1 ∧ s.trace <+: s1.trace := by
  cases op with
  | default_construct =>
    simp only [step, Option.some.injEq] at hstep
    subst hstep
    refine ⟨?_, List.prefix_refl _⟩
    intro h hh
    have := hb h hh
    simp only [holders_concat, default_construct, held_zero h hh]
    omega
  | load i sl m ec =>
    cases hl : s.live i with
    | none => simp [step, hl] at hstep
    | some x =>
      simp only [step, hl, Option.some.injEq] at hstep
      subst hstep
      have hi := (live_iff s i x).mp hl
      refine ⟨?_, (load_counts cfg os x sl m ec s.trace 1 (by decide)).1⟩
      intro h hh
      obtain ⟨_, k2, k3⟩ := load_counts cfg os x sl m ec s.trace h hh
      have := hb h hh
      have := holders_set s.objects i x (load cfg os x sl m ec s.trace).self h hi
      simp only [k2, k3]
      omega
  | unload i =>
    cases hl : s.live i with
    | none => simp [step, hl] at hstep
    | some x =>
      simp only [step, hl, Option.some.injEq] at hstep
      subst hstep
      have hi := (live_iff s i x).mp hl
      have hc : ∀ h, h ≠ 0 → closes_of h (x.unload s.trace).2 = closes_of h s.trace + held h x := by
        intro h hh
        rw [unload_snd, closes_of_append]
        rcases x with ⟨k⟩
        by_cases hk : k = h
        · subst hk; simp [is_loaded, hh, closes_of_dlclose, closes_of_nil, held_mk]
        · by_cases hk0 : k = 0 <;>
            simp [is_loaded, hk, hk0, closes_of_dlclose, closes_of_nil, held_mk, Ne.symm hh]
      have ho : ∀ h, opens_of h (x.unload s.trace).2 = opens_of h s.trace := by
        intro h
        rw [unload_snd, opens_of_append]
        split <;> simp [opens_of_dlclose, opens_of_nil]
      refine ⟨?_, by rw [unload_snd]; exact List.prefix_append _ _⟩
      intro h hh
      have := hb h hh
      have := holders_set s.objects i x (x.unload s.trace).1 h hi
      simp only [hc h hh, ho h]
      rw [unload_fst, held_zero h hh] at this
      rw [unload_fst]
      omega
  | swap i j =>
    cases hl : s.live i with
    | none => simp [step, hl] at hstep
    | some a =>
      cases hl2 : s.live j with
      | none => simp [step, hl, hl2] at hstep
      | some b =>
        simp only [step, hl, hl2, Option.some.injEq] at hstep
        subst hstep
        refine ⟨?_, List.prefix_refl _⟩
        intro h hh
        have := hb h hh
        have := holders_exchange s.objects i j a b h ((live_iff s i a).mp hl)
          ((live_iff s j b).mp hl2)
        simp only [shared_library_impl.swap]
        omega
  | move_construct i =>
    cases hl : s.live i with
    | none => simp [step, hl] at hstep
    | some x =>
      simp only [step, hl, Option.some.injEq] at hstep
      subst hstep
      have hi := (live_iff s i x).mp hl
      refine ⟨?_, List.prefix_refl _⟩
      intro h hh
      have := hb h hh
      have := holders_set s.objects i x { handle_ := 0 } h hi
      rw [held_zero h hh] at this
      simp only [shared_library_impl.move_construct, holders_concat, held_eta]
      omega
  | move_assign i j =>
    cases hl : s.live i with
    | none => simp [step, hl] at hstep
    | some a =>
      cases hl2 : s.live j with
      | none => simp [step, hl, hl2] at hstep
      | some b =>
        simp only [step, hl, hl2, Option.some.injEq] at hstep
        subst hstep
        refine ⟨?_, List.prefix_refl _⟩
        intro h hh
        have := hb h hh
        have := holders_exchange s.objects i j a b h ((live_iff s i a).mp hl)
          ((live_iff s j b).mp hl2)
        simp only [shared_library_impl.move_assign, shared_library_impl.swap]
        omega
  | destroy i =>
    cases hl : s.live i with
    | none => simp [step, hl] at hstep
    | some x =>
      simp only [step, hl, Option.some.injEq] at hstep
      subst hstep
      have hi := (live_iff s i x).mp hl
      have hc : ∀ h, h ≠ 0 → closes_of h (x.unload s.trace).2 = closes_of h s.trace + held h x := by
        intro h hh
        rw [unload_snd, closes_of_append]
        rcases x with ⟨k⟩
        by_cases hk : k = h
        · subst hk; simp [is_loaded, hh, closes_of_dlclose, closes_of_nil, held_mk]
        · by_cases hk0 : k = 0 <;>
            simp [is_loaded, hk, hk0, closes_of_dlclose, closes_of_nil, held_mk, Ne.symm hh]
      have ho : ∀ h, opens_of h (x.unload s.trace).2 = opens_of h s.trace := by
        intro h
        rw [unload_snd, opens_of_append]
        split <;> simp [opens_of_dlclose, opens_of_nil]
      refine ⟨?_, by simp only [destroy]; rw [unload_snd]; exact List.prefix_append _ _⟩
      intro h hh
      have := hb h hh
      have := holders_set_none s.objects i x h hi
      simp only [destroy, hc h hh, ho h]
      omega

theorem load_exact_loaded_iff (cfg : Platform) (os : OS) (sl : path) (native_mode : Nat)
    (t : List Event) :
    (load_exact cfg os sl native_mode none t).threw = false ∧
    ((load_exact cfg os sl native_mode none t).self.is_loaded = true ↔
      (load_exact cfg os sl native_mode none t).ec = none) := by
  unfold load_exact
  simp only []
  split_ifs with h1 h2 h3 <;> simp_all [is_loaded]

theorem load_decorated_loaded_iff (cfg : Platform) (os : OS) (sl : path) (native_mode : Nat)
    (t : List Event)
    (hret : (load_decorated cfg os sl native_mode none t).threw = false) :
    ((load_decorated cfg os sl native_mode none t).self.is_loaded = true ↔
      (load_decorated cfg os sl native_mode none t).ec = none) := by
  revert hret
  unfold load_decorated
  simp only []
  split_ifs with h1 h2
  · simp [is_loaded, h2]
  · split
    · simp
    · split_ifs with h4
      · simp [is_loaded, h2]
      · intro _; exact (load_exact_loaded_iff _ _ _ _ _).2
  · intro _; exact (load_exact_loaded_iff _ _ _ _ _).2


theorem run_balanced (cfg : Platform) (os : OS) (ops : List Op) :
    ∀ (s s1 : Program), run cfg os s ops = some s1 → balanced s →
      balanced s1 ∧ s.trace <+: s1.trace := by
  induction ops with
  | nil =>
    intro s s1 h hb
    simp only [run, Option.some.injEq] at h
    subst h
    exact ⟨hb, List.prefix_refl _⟩
  | cons op ops ih =>
    intro s s1 h hb
    cases hs : step cfg os s op with
    | none => simp [run, hs] at h
    | some s2 =>
      simp only [run, hs] at h
      obtain ⟨b2, p2⟩ := step_balanced cfg os s s2 op hs hb
      obtain ⟨b1, p1⟩ := ih s2 s1 h b2
      exact ⟨b1, p2.trans p1⟩

theorem balanced_start : balanced Program.start := by
  intro h _
  rfl

theorem holders_of_all_destroyed (s : Program) (hall : all_destroyed s = true)
    (h : native_handle_t) : holders h s.objects = 0 := by
  unfold all_destroyed at hall
  unfold holders
  generalize s.objects = l at hall
  induction l with
  | nil => rfl
  | cons o l ih =>
    simp only [List.all_cons, Bool.and_eq_true] at hall
    cases o with
    | none => simpa [held_slot] using ih hall.2
    | some x => simp at hall

theorem opens_of_eq_count (t : List Event) (h : native_handle_t) (hh : h ≠ 0) :
    opens_of h t = (opened_handles t).count h := by
  induction t with
  | nil => rfl
  | cons e t ih =>
    cases e with
    | dlopen f m r =>
      rw [opens_of_dlopen, ih]
      by_cases hr : r = 0
      · subst hr
        simp [opened_handles, Ne.symm hh]
      · by_cases hrh : r = h
        · subst hrh
          simp [opened_handles, hr, Nat.add_comm]
        · simp [opened_handles, hr, hrh, List.count_cons]
    | dlclose k => rw [opens_of_dlclose, ih]; simp [opened_handles]
    | dlsym k n r =>
      have : opens_of h (Event.dlsym k n r :: t) = opens_of h t := by
        simp [opens_of, List.countP_cons]
      rw [this, ih]; simp [opened_handles]
    | dlerror => rw [opens_of_dlerror, ih]; simp [opened_handles]
    | dladdr a r =>
      have : opens_of h (Event.dladdr a r :: t) = opens_of h t := by
        simp [opens_of, List.countP_cons]
      rw [this, ih]; simp [opened_handles]

theorem mem_opened_handles_ne_zero (t : List Event) (h : native_handle_t)
    (hm : h ∈ opened_handles t) : h ≠ 0 := by
  unfold opened_handles at hm
  rw [List.mem_filterMap] at hm
  obtain ⟨e, _, he⟩ := hm
  cases e with
  | dlopen f m r =>
    by_cases hr : r = 0
    · simp [hr] at he
    · simp [hr] at he
      rw [← he]; exact hr
  | dlclose k => simp at he
  | dlsym k n r => simp at he
  | dlerror => simp at he
  | dladdr a r => simp at he


/-! ## Lemmas on load modes -/

theorem testBit_bit_not (a i : Nat) :
    (bit_not a).testBit i = (decide (i < 32) && !a.testBit i) := by
  unfold bit_not int_modulus
  rw [Nat.testBit_xor, Nat.testBit_two_pow_sub_one, Nat.testBit_mod_two_pow]
  cases decide (i < 32) <;> cases a.testBit i <;> rfl

theorem land_eq_zero_iff (a b : Nat) :
    a &&& b = 0 ↔ ∀ i, ¬ (a.testBit i = true ∧ b.testBit i = true) := by
  constructor
  · intro h i hi
    have := congrArg (fun x => x.testBit i) h
    simp [hi.1, hi.2] at this
  · intro h
    apply Nat.eq_of_testBit_eq
    intro i
    have := h i
    simp only [Nat.testBit_and, Nat.zero_testBit]
    cases ha : a.testBit i <;> cases hb : b.testBit i <;> simp_all

theorem testBit_lt_int (x i : Nat) (hx : x < int_modulus) (hi : x.testBit i = true) :
    i < 32 := by
  by_contra hge
  have h32 : 32 ≤ i := by omega
  have : x < 2 ^ i := lt_of_lt_of_le hx (Nat.pow_le_pow_right (by decide) h32)
  rw [Nat.testBit_lt_two_pow this] at hi
  cases hi

/-- With separate flag bits, the "Fixing modes" block adds `rtld_lazy` exactly
when the request lacks `rtld_now` and `rtld_local` exactly when it lacks
`rtld_global`. -/
theorem fix_modes_eq (cfg : Platform) (hd : flags_disjoint cfg) (m : Nat) :
    fix_modes cfg m =
      (m ||| (if m &&& load_mode.rtld_now cfg = 0 then load_mode.rtld_lazy cfg else 0))
        ||| (if m &&& load_mode.rtld_global cfg = 0 then load_mode.rtld_local cfg else 0) := by
  obtain ⟨_, hLG, _⟩ := hd
  have key : (m ||| load_mode.rtld_lazy cfg) &&& load_mode.rtld_global cfg
      = m &&& load_mode.rtld_global cfg := by
    apply Nat.eq_of_testBit_eq
    intro i
    have := (land_eq_zero_iff _ _).mp hLG i
    simp only [Nat.testBit_and, Nat.testBit_or]
    cases h1 : m.testBit i <;> cases h2 : (load_mode.rtld_lazy cfg).testBit i <;>
      cases h3 : (load_mode.rtld_global cfg).testBit i <;> simp_all
  unfold fix_modes
  simp only []
  by_cases c1 : m &&& load_mode.rtld_now cfg = 0
  · simp only [c1, if_true, key]
    split <;> simp
  · simp only [c1, if_false, Nat.or_zero]
    split <;> simp

theorem or_land_cancel (v a f : Nat) (h : a &&& f = 0) : (v ||| a) &&& f = v &&& f := by
  apply Nat.eq_of_testBit_eq
  intro i
  have := (land_eq_zero_iff _ _).mp h i
  simp only [Nat.testBit_and, Nat.testBit_or]
  cases h1 : v.testBit i <;> cases h2 : a.testBit i <;> cases h3 : f.testBit i <;> simp_all

theorem or_land_self (v f : Nat) : (v ||| f) &&& f = f := by
  apply Nat.eq_of_testBit_eq
  intro i
  simp only [Nat.testBit_and, Nat.testBit_or]
  cases h1 : v.testBit i <;> cases h3 : f.testBit i <;> simp_all

theorem land_comm_eq_zero {a b : Nat} (h : a &&& b = 0) : b &&& a = 0 := by
  rw [Nat.land_comm]; exact h

/-- Clearing the two private bits does not touch a flag that is disjoint from
them. -/
theorem clear_private_land (v f : Nat) (hf : f < int_modulus)
    (h : f &&& (load_mode.append_decorations ||| load_mode.search_system_folders) = 0) :
    ((v &&& bit_not load_mode.search_system_folders) &&& bit_not load_mode.append_decorations)
      &&& f = v &&& f := by
  apply Nat.eq_of_testBit_eq
  intro i
  have h1 := (land_eq_zero_iff _ _).mp h i
  have h2 := testBit_lt_int f i hf
  simp only [Nat.testBit_or] at h1
  simp only [Nat.testBit_and, testBit_bit_not]
  cases hv : v.testBit i <;> cases hfi : f.testBit i <;>
    cases hA : (load_mode.append_decorations).testBit i <;>
    cases hS : (load_mode.search_system_folders).testBit i <;> simp_all

/-- The loader flags in the native mode of `load`, bit for bit. -/
theorem native_mode_flags (cfg : Platform) (hd : flags_disjoint cfg) (pm : Nat) :
    native_mode_of cfg pm &&& load_mode.rtld_now cfg
      = (pm % int_modulus) &&& load_mode.rtld_now cfg ∧
    native_mode_of cfg pm &&& load_mode.rtld_global cfg
      = (pm % int_modulus) &&& load_mode.rtld_global cfg ∧
    native_mode_of cfg pm &&& load_mode.rtld_lazy cfg
      = (if (pm % int_modulus) &&& load_mode.rtld_now cfg = 0 then load_mode.rtld_lazy cfg
         else (pm % int_modulus) &&& load_mode.rtld_lazy cfg) ∧
    native_mode_of cfg pm &&& load_mode.rtld_local cfg
      = (if (pm % int_modulus) &&& load_mode.rtld_global cfg = 0 then load_mode.rtld_local cfg
         else (pm % int_modulus) &&& load_mode.rtld_local cfg) := by
  have hfix := fix_modes_eq cfg hd (pm % int_modulus)
  obtain ⟨hLN, hLG, hLLo, hLoN, hLoG, hLP, hNP, hGP, hLoP⟩ := hd
  have bL : load_mode.rtld_lazy cfg < int_modulus := Nat.mod_lt _ (by decide)
  have bN : load_mode.rtld_now cfg < int_modulus := Nat.mod_lt _ (by decide)
  have bG : load_mode.rtld_global cfg < int_modulus := Nat.mod_lt _ (by decide)
  have bLo : load_mode.rtld_local cfg < int_modulus := Nat.mod_lt _ (by decide)
  unfold native_mode_of
  rw [hfix, clear_private_land _ _ bN hNP, clear_private_land _ _ bG hGP,
    clear_private_land _ _ bL hLP, clear_private_land _ _ bLo hLoP]
  generalize pm % int_modulus = m
  refine ⟨?_, ?_, ?_, ?_⟩
  · have hX : (if m &&& load_mode.rtld_now cfg = 0 then load_mode.rtld_lazy cfg else 0)
        &&& load_mode.rtld_now cfg = 0 := by split <;> simp [hLN]
    have hY : (if m &&& load_mode.rtld_global cfg = 0 then load_mode.rtld_local cfg else 0)
        &&& load_mode.rtld_now cfg = 0 := by split <;> simp [hLoN]
    rw [or_land_cancel _ _ _ hY, or_land_cancel _ _ _ hX]
  · have hX : (if m &&& load_mode.rtld_now cfg = 0 then load_mode.rtld_lazy cfg else 0)
        &&& load_mode.rtld_global cfg = 0 := by split <;> simp [hLG]
    have hY : (if m &&& load_mode.rtld_global cfg = 0 then load_mode.rtld_local cfg else 0)
        &&& load_mode.rtld_global cfg = 0 := by split <;> simp [hLoG]
    rw [or_land_cancel _ _ _ hY, or_land_cancel _ _ _ hX]
  · have hY : (if m &&& load_mode.rtld_global cfg = 0 then load_mode.rtld_local cfg else 0)
        &&& load_mode.rtld_lazy cfg = 0 := by
      split <;> simp [land_comm_eq_zero hLLo]
    rw [or_land_cancel _ _ _ hY]
    by_cases c1 : m &&& load_mode.rtld_now cfg = 0
    · simp only [c1, if_true]
      exact or_land_self _ _
    · simp only [c1, if_false, Nat.or_zero]
  · have hX : (if m &&& load_mode.rtld_now cfg = 0 then load_mode.rtld_lazy cfg else 0)
        &&& load_mode.rtld_local cfg = 0 := by split <;> simp [hLLo]
    by_cases c2 : m &&& load_mode.rtld_global cfg = 0
    · simp only [c2, if_true]
      exact or_land_self _ _
    · simp only [c2, if_false, Nat.or_zero]
      rw [or_land_cancel _ _ _ hX]

theorem append_decorations_eq : load_mode.append_decorations = 2 ^ 23 := by decide

theorem search_system_folders_eq : load_mode.search_system_folders = 2 ^ 24 := by decide

theorem land_two_pow_ne_zero_iff (x k : Nat) :
    x &&& 2 ^ k ≠ 0 ↔ x.testBit k = true := by
  rw [Ne, land_eq_zero_iff]
  constructor
  · intro h
    by_contra hx
    apply h
    intro i hi
    have : k = i := by
      by_contra hne
      rw [Nat.testBit_two_pow_of_ne hne] at hi
      exact absurd hi.2 (by simp)
    subst this
    exact hx hi.1
  · intro hx h
    exact h k ⟨hx, Nat.testBit_two_pow_self⟩

/-! ## Lemmas on the loader calls of load -/

theorem new_events_append (t a : List Event) : new_events t (t ++ a) = a := by
  simp [new_events]

theorem new_events_self (t : List Event) : new_events t t = [] := by
  simp [new_events]

theorem new_events_split (t a t1 : List Event) (h : t ++ a <+: t1) :
    new_events t t1 = a ++ new_events (t ++ a) t1 := by
  obtain ⟨b, rfl⟩ := h
  simp [new_events]

/-- What `load_exact` adds to the trace: `dlopen` calls in the given mode, no
`dlclose`, and the handle held at the end is null or was opened there. -/
theorem load_exact_new_events (cfg : Platform) (os : OS) (sl : path) (m : Nat)
    (ec : error_code) (t : List Event) :
    dlclose_handles (new_events t (load_exact cfg os sl m ec t).trace) = [] ∧
    (∀ x ∈ dlopen_modes (new_events t (load_exact cfg os sl m ec t).trace), x = m) ∧
    ((load_exact cfg os sl m ec t).self.handle_ = 0 ∨
      (load_exact cfg os sl m ec t).self.handle_
        ∈ opened_handles (new_events t (load_exact cfg os sl m ec t).trace)) := by
  unfold load_exact
  simp only []
  split_ifs with h1 h2 <;>
    simp_all [reset_dlerror, new_events, dlclose_handles, dlopen_modes, opened_handles]

/-- Clearing `append_decorations` from a mode that lacks it changes nothing. -/
theorem clear_absent_append (x : Nat)
    (h : (x &&& bit_not load_mode.search_system_folders) &&& load_mode.append_decorations = 0) :
    (x &&& bit_not load_mode.search_system_folders) &&& bit_not load_mode.append_decorations
      = x &&& bit_not load_mode.search_system_folders := by
  apply Nat.eq_of_testBit_eq
  intro i
  have h1 := (land_eq_zero_iff _ _).mp h i
  simp only [Nat.testBit_and, testBit_bit_not] at h1 ⊢
  cases hv : x.testBit i <;> cases hd : decide (i < 32) <;>
    cases hA : (load_mode.append_decorations).testBit i <;>
    cases hS : (load_mode.search_system_folders).testBit i <;> simp_all

/-- What `load_decorated` adds to the trace. -/
theorem load_decorated_new_events (cfg : Platform) (os : OS) (sl : path) (m : Nat)
    (ec : error_code) (t : List Event) :
    dlclose_handles (new_events t (load_decorated cfg os sl m ec t).trace) = [] ∧
    (∀ x ∈ dlopen_modes (new_events t (load_decorated cfg os sl m ec t).trace),
      x = (if m &&& load_mode.append_decorations ≠ 0
           then m &&& bit_not load_mode.append_decorations else m)) ∧
    ((load_decorated cfg os sl m ec t).self.handle_ = 0 ∨
      (load_decorated cfg os sl m ec t).self.handle_
        ∈ opened_handles (new_events t (load_decorated cfg os sl m ec t).trace)) := by
  unfold load_decorated
  simp only []
  split_ifs with h1 h2
  · simp_all [reset_dlerror, new_events, dlclose_handles, dlopen_modes, opened_handles]
  · have h2' : os.dlopen t (some (decorate cfg sl))
        (m &&& bit_not load_mode.append_decorations) = 0 := by simpa using h2
    rw [h2']
    split
    · simp [new_events, dlclose_handles, dlopen_modes, opened_handles]
    · split_ifs with h4
      · simp [new_events, dlclose_handles, dlopen_modes, opened_handles]
      · obtain ⟨k1, k2, k3⟩ := load_exact_new_events cfg os sl
          (m &&& bit_not load_mode.append_decorations) ec
          (t ++ [Event.dlopen (some (decorate cfg sl))
            (m &&& bit_not load_mode.append_decorations) 0])
        have hp := (load_exact_counts cfg os sl
          (m &&& bit_not load_mode.append_decorations) ec
          (t ++ [Event.dlopen (some (decorate cfg sl))
            (m &&& bit_not load_mode.append_decorations) 0]) 1 (by decide)).1
        rw [new_events_split _ _ _ hp]
        refine ⟨?_, ?_, ?_⟩
        · simpa [dlclose_handles] using k1
        · intro x hx
          simp only [dlopen_modes, List.filterMap_append, List.mem_append] at hx
          rcases hx with hx | hx
          · simpa using hx
          · exact k2 x hx
        · rcases k3 with k3 | k3
          · exact Or.inl k3
          · right
            simp only [opened_handles, List.filterMap_append, List.mem_append]
            exact Or.inr k3
  · exact load_exact_new_events cfg os sl m ec t

/-- What `load` adds to the trace: first the release of the handle held before
(the trace of `unload`), then only `dlopen` calls in the native mode and
`dlerror` calls; the handle held at the end is null or was opened there. -/
theorem load_new_events (cfg : Platform) (os : OS) (self : shared_library_impl) (sl : path)
    (pm : Nat) (ec : error_code) (t : List Event) :
    (self.unload t).2 <+: (load cfg os self sl pm ec t).trace ∧
    dlclose_handles (new_events (self.unload t).2 (load cfg os self sl pm ec t).trace) = [] ∧
    (∀ x ∈ dlopen_modes (new_events (self.unload t).2 (load cfg os self sl pm ec t).trace),
      x = native_mode_of cfg pm) ∧
    ((load cfg os self sl pm ec t).self.handle_ = 0 ∨
      (load cfg os self sl pm ec t).self.handle_
        ∈ opened_handles (new_events (self.unload t).2 (load cfg os self sl pm ec t).trace)) := by
  unfold load
  simp only []
  split_ifs with h1
  · simp [reset_dlerror, new_events, dlclose_handles, dlopen_modes, unload_fst]
  · obtain ⟨k1, k2, k3⟩ := load_decorated_new_events cfg os
      (fix_path cfg os sl (fix_modes cfg (pm % int_modulus)) (self.unload t).2)
      (fix_modes cfg (pm % int_modulus) &&& bit_not load_mode.search_system_folders)
      ec (self.unload t).2
    have hp := (load_decorated_counts cfg os
      (fix_path cfg os sl (fix_modes cfg (pm % int_modulus)) (self.unload t).2)
      (fix_modes cfg (pm % int_modulus) &&& bit_not load_mode.search_system_folders)
      ec (self.unload t).2 1 (by decide)).1
    refine ⟨hp, k1, ?_, k3⟩
    intro x hx
    rw [k2 x hx]
    unfold native_mode_of
    split_ifs with h2
    · rfl
    · exact (clear_absent_append _ (by simpa using h2)).symm

theorem load_of_nonempty (cfg : Platform) (os : OS) (self : shared_library_impl) (sl : path)
    (pm : Nat) (ec : error_code) (t : List Event) (hne : path_empty sl = false) :
    load cfg os self sl pm ec t =
      load_decorated cfg os (load_path cfg os sl pm (self.unload t).2)
        (fix_modes cfg (pm % int_modulus) &&& bit_not load_mode.search_system_folders)
        ec (self.unload t).2 := by
  unfold load load_path
  simp [hne]

theorem testBit_fix_modes (cfg : Platform) (m i : Nat) (h : m.testBit i = true) :
    (fix_modes cfg m).testBit i = true := by
  unfold fix_modes
  simp only []
  split_ifs <;> simp [Nat.testBit_or, h]

/-- A requested `append_decorations` bit is still set when `load` tests it. -/
theorem append_bit_kept (cfg : Platform) (pm : Nat)
    (h : (pm % int_modulus) &&& load_mode.append_decorations ≠ 0) :
    (fix_modes cfg (pm % int_modulus) &&& bit_not load_mode.search_system_folders)
      &&& load_mode.append_decorations ≠ 0 := by
  rw [append_decorations_eq, land_two_pow_ne_zero_iff] at h ⊢
  rw [Nat.testBit_and, testBit_bit_not, testBit_fix_modes cfg _ _ h, search_system_folders_eq,
    Nat.testBit_two_pow_of_ne (by decide)]
  decide

/-- The outcomes of `load_decorated` when `append_decorations` is set, by the
answer to the decorated `dlopen` and to the file system queries. -/
theorem load_decorated_cases (cfg : Platform) (os : OS) (sl : path) (m : Nat)
    (ec : error_code) (t : List Event)
    (h1 : m &&& load_mode.append_decorations ≠ 0) :
    (os.dlopen t (some (decorate cfg sl)) (m &&& bit_not load_mode.append_decorations) ≠ 0 →
      load_decorated cfg os sl m ec t =
        { self := { handle_ := os.dlopen t (some (decorate cfg sl))
                      (m &&& bit_not load_mode.append_decorations) }
          ec := ec
          trace := t ++ [Event.dlopen (some (decorate cfg sl))
                      (m &&& bit_not load_mode.append_decorations)
                      (os.dlopen t (some (decorate cfg sl))
                        (m &&& bit_not load_mode.append_decorations)), Event.dlerror]
          threw := false }) ∧
    (os.dlopen t (some (decorate cfg sl)) (m &&& bit_not load_mode.append_decorations) = 0 →
      (os.fs_exists (t ++ [Event.dlopen (some (decorate cfg sl))
          (m &&& bit_not load_mode.append_decorations) 0]) (decorate cfg sl) = none →
        load_decorated cfg os sl m ec t =
          { self := { handle_ := 0 }, ec := ec
            trace := t ++ [Event.dlopen (some (decorate cfg sl))
                      (m &&& bit_not load_mode.append_decorations) 0]
            threw := true }) ∧
      (os.fs_exists (t ++ [Event.dlopen (some (decorate cfg sl))
          (m &&& bit_not load_mode.append_decorations) 0]) (decorate cfg sl) = some true →
        (os.equivalent (t ++ [Event.dlopen (some (decorate cfg sl))
          (m &&& bit_not load_mode.append_decorations) 0]) sl
          (program_location_impl cfg os (t ++ [Event.dlopen (some (decorate cfg sl))
            (m &&& bit_not load_mode.append_decorations) 0])).1).1 = false →
        load_decorated cfg os sl m ec t =
          { self := { handle_ := 0 }, ec := some errc.executable_format_error
            trace := t ++ [Event.dlopen (some (decorate cfg sl))
                      (m &&& bit_not load_mode.append_decorations) 0]
            threw := false }) ∧
      ((os.fs_exists (t ++ [Event.dlopen (some (decorate cfg sl))
          (m &&& bit_not load_mode.append_decorations) 0]) (decorate cfg sl) = some false ∨
        (os.fs_exists (t ++ [Event.dlopen (some (decorate cfg sl))
          (m &&& bit_not load_mode.append_decorations) 0]) (decorate cfg sl) = some true ∧
         (os.equivalent (t ++ [Event.dlopen (some (decorate cfg sl))
          (m &&& bit_not load_mode.append_decorations) 0]) sl
          (program_location_impl cfg os (t ++ [Event.dlopen (some (decorate cfg sl))
            (m &&& bit_not load_mode.append_decorations) 0])).1).1 = true)) →
        load_decorated cfg os sl m ec t =
          load_exact cfg os sl (m &&& bit_not load_mode.append_decorations) ec
            (t ++ [Event.dlopen (some (decorate cfg sl))
              (m &&& bit_not load_mode.append_decorations) 0]))) := by
  refine ⟨?_, ?_⟩
  · intro h2
    unfold load_decorated
    simp [h1, h2, reset_dlerror]
  · intro h2
    refine ⟨?_, ?_, ?_⟩
    · intro h3
      unfold load_decorated
      simp [h1, h2, h3]
    · intro h3 h4
      unfold load_decorated
      simp [h1, h2, h3, h4]
    · intro h3
      unfold load_decorated
      rcases h3 with h3 | ⟨h3, h4⟩
      · simp [h1, h2, h3]
      · simp [h1, h2, h3, h4]

/-- The first loader call of `load_exact` is the `dlopen` of the path. -/
theorem load_exact_first_call (cfg : Platform) (os : OS) (sl : path) (m : Nat)
    (ec : error_code) (t : List Event) :
    t ++ [Event.dlopen (some sl) m (os.dlopen t (some sl) m)]
      <+: (load_exact cfg os sl m ec t).trace := by
  unfold load_exact
  simp only []
  split_ifs <;> simp only [reset_dlerror] <;>
    first
    | exact List.prefix_refl _
    | exact List.prefix_append _ _
    | exact (List.prefix_append _ _).trans (List.prefix_append _ _)

theorem dlopen_modes_ne_nil_of_call (t t1 : List Event) (f : Option path) (m : Nat)
    (r : native_handle_t) (h : t ++ [Event.dlopen f m r] <+: t1) :
    dlopen_modes (new_events t t1) ≠ [] := by
  rw [new_events_split _ _ _ h]
  simp [dlopen_modes]

/-- A `load` of a non-empty path makes at least one `dlopen` call. -/
theorem load_opens_something (cfg : Platform) (os : OS) (self : shared_library_impl)
    (sl : path) (pm : Nat) (ec : error_code) (t : List Event) (hne : path_empty sl = false) :
    dlopen_modes (new_events (self.unload t).2 (load cfg os self sl pm ec t).trace) ≠ [] := by
  rw [load_of_nonempty cfg os self sl pm ec t hne]
  generalize (self.unload t).2 = t0
  generalize load_path cfg os sl pm t0 = p
  generalize fix_modes cfg (pm % int_modulus) &&& bit_not load_mode.search_system_folders = m
  by_cases h1 : m &&& load_mode.append_decorations ≠ 0
  · obtain ⟨c1, c2⟩ := load_decorated_cases cfg os p m ec t0 h1
    by_cases h2 : os.dlopen t0 (some (decorate cfg p))
        (m &&& bit_not load_mode.append_decorations) ≠ 0
    · rw [c1 h2]
      simp [new_events, dlopen_modes]
    · have h2' : os.dlopen t0 (some (decorate cfg p))
          (m &&& bit_not load_mode.append_decorations) = 0 := by simpa using h2
      obtain ⟨d1, d2, d3⟩ := c2 h2'
      cases hfs : os.fs_exists (t0 ++ [Event.dlopen (some (decorate cfg p))
          (m &&& bit_not load_mode.append_decorations) 0]) (decorate cfg p) with
      | none => rw [d1 hfs]; simp [new_events, dlopen_modes]
      | some found =>
        cases found with
        | false =>
          rw [d3 (Or.inl hfs)]
          have hp := load_exact_first_call cfg os p
            (m &&& bit_not load_mode.append_decorations) ec
            (t0 ++ [Event.dlopen (some (decorate cfg p))
              (m &&& bit_not load_mode.append_decorations) 0])
          exact dlopen_modes_ne_nil_of_call _ _ _ _ _
            ((List.prefix_append _ _).trans hp)
        | true =>
          cases heq : (os.equivalent (t0 ++ [Event.dlopen (some (decorate cfg p))
              (m &&& bit_not load_mode.append_decorations) 0]) p
              (program_location_impl cfg os (t0 ++ [Event.dlopen (some (decorate cfg p))
                (m &&& bit_not load_mode.append_decorations) 0])).1).1 with
          | false => rw [d2 hfs heq]; simp [new_events, dlopen_modes]
          | true =>
            rw [d3 (Or.inr ⟨hfs, heq⟩)]
            have hp := load_exact_first_call cfg os p
              (m &&& bit_not load_mode.append_decorations) ec
              (t0 ++ [Event.dlopen (some (decorate cfg p))
                (m &&& bit_not load_mode.append_decorations) 0])
            exact dlopen_modes_ne_nil_of_call _ _ _ _ _
              ((List.prefix_append _ _).trans hp)
  · have : load_decorated cfg os p m ec t0 = load_exact cfg os p m ec t0 := by
      unfold load_decorated
      simp only [h1, if_false]
    rw [this]
    exact dlopen_modes_ne_nil_of_call _ _ _ _ _ (load_exact_first_call cfg os p m ec t0)

theorem flags_disjoint_linux_glibc : flags_disjoint linux_glibc := by
  unfold flags_disjoint
  decide

theorem dlopen_modes_new_events_unload (self : shared_library_impl) (t t1 : List Event)
    (h : (self.unload t).2 <+: t1) :
    dlopen_modes (new_events t t1) = dlopen_modes (new_events (self.unload t).2 t1) := by
  rw [unload_snd] at h ⊢
  rw [new_events_split _ _ _ h]
  split <;> simp [dlopen_modes]

/-- The outcomes of `load` of a non-empty path with `append_decorations`, by
the answer `h` to the decorated `dlopen` and to the file system queries. -/
theorem load_decorations_outcomes (cfg : Platform) (os : OS) (self : shared_library_impl)
    (sl : path) (pm : Nat) (ec : error_code) (t : List Event)
    (t0 : List Event) (p d : path) (N : Nat) (h : native_handle_t) (t1 : List Event)
    (ht0 : t0 = (self.unload t).2) (hp : p = load_path cfg os sl pm t0)
    (hd : d = decorate cfg p) (hN : N = native_mode_of cfg pm)
    (hh : h = os.dlopen t0 (some d) N) (ht1 : t1 = t0 ++ [Event.dlopen (some d) N h])
    (hne : path_empty sl = false)
    (hdec : (pm % int_modulus) &&& load_mode.append_decorations ≠ 0) :
    t1 <+: (load cfg os self sl pm ec t).trace ∧
    (h ≠ 0 →
      load cfg os self sl pm ec t =
        { self := { handle_ := h }, ec := ec, trace := t1 ++ [Event.dlerror],
          threw := false }) ∧
    (h = 0 → os.fs_exists t1 d = some true →
      (os.equivalent t1 p (program_location_impl cfg os t1).1).1 = false →
      load cfg os self sl pm ec t =
        { self := { handle_ := 0 }, ec := some errc.executable_format_error, trace := t1,
          threw := false }) ∧
    (h = 0 →
      (os.fs_exists t1 d = some false ∨
        (os.fs_exists t1 d = some true ∧
          (os.equivalent t1 p (program_location_impl cfg os t1).1).1 = true)) →
      load cfg os self sl pm ec t = load_exact cfg os p N ec t1 ∧
      t1 ++ [Event.dlopen (some p) N (os.dlopen t1 (some p) N)]
        <+: (load cfg os self sl pm ec t).trace) := by
  have hbit := append_bit_kept cfg pm hdec
  obtain ⟨c1, c2⟩ := load_decorated_cases cfg os p
    (fix_modes cfg (pm % int_modulus) &&& bit_not load_mode.search_system_folders) ec t0 hbit
  have hload := load_of_nonempty cfg os self sl pm ec t hne
  rw [← ht0, ← hp] at hload
  have hN' : (fix_modes cfg (pm % int_modulus) &&& bit_not load_mode.search_system_folders)
      &&& bit_not load_mode.append_decorations = N := by rw [hN]; rfl
  rw [hN', ← hd, ← hh] at c1
  rw [hN', ← hd, ← hh] at c2
  have hpre : t1 <+: (load cfg os self sl pm ec t).trace := by
    rw [hload]
    by_cases h0 : h = 0
    · obtain ⟨d1, d2, d3⟩ := c2 h0
      rw [h0] at ht1
      rw [← ht1] at d1 d2 d3
      cases hfs : os.fs_exists t1 d with
      | none => rw [d1 hfs]
      | some found =>
        cases found with
        | false =>
          rw [d3 (Or.inl hfs)]
          exact (List.prefix_append _ _).trans (load_exact_first_call cfg os p N ec t1)
        | true =>
          cases heq : (os.equivalent t1 p (program_location_impl cfg os t1).1).1 with
          | false => rw [d2 hfs heq]
          | true =>
            rw [d3 (Or.inr ⟨hfs, heq⟩)]
            exact (List.prefix_append _ _).trans (load_exact_first_call cfg os p N ec t1)
    · rw [c1 h0, ht1]
      exact ⟨[Event.dlerror], by simp⟩
  refine ⟨hpre, ?_, ?_, ?_⟩
  · intro h0
    rw [hload, c1 h0, ht1]
    simp
  · intro h0 hfs heq
    obtain ⟨_, d2, _⟩ := c2 h0
    rw [h0] at ht1
    rw [← ht1] at d2
    rw [hload, d2 hfs heq]
  · intro h0 hcase
    obtain ⟨_, _, d3⟩ := c2 h0
    rw [h0] at ht1
    rw [← ht1] at d3
    rw [hload, d3 hcase]
    exact ⟨rfl, load_exact_first_call cfg os p N ec t1⟩

/-- The native checks of a matched branch: the format is kept unless the check
is asked for and the format is foreign to the host or wider than its
pointers; the exception then raised is a `Not native format` error. -/
theorem select_format_spec (host : Host) (throw_if_not_native : Bool) (x : fmt) :
    (¬ (throw_if_not_native = true ∧
        (x.family ≠ host.os ∨ (x.is_64 = true ∧ host.sizeof_void_ptr = 4))) →
      select_format host throw_if_not_native x = Except.ok x) ∧
    ((throw_if_not_native = true ∧
        (x.family ≠ host.os ∨ (x.is_64 = true ∧ host.sizeof_void_ptr = 4))) →
      ∃ e, select_format host throw_if_not_native x = Except.error e ∧
        not_native_error e = true) := by
  have e1 : not_native_error (Exn.runtime_error "Not native format: 64bit binary") = true := by
    decide
  have e2 : not_native_error (Exn.runtime_error "Not native format: not a PE binary") = true := by
    decide
  have e3 : not_native_error (Exn.runtime_error "Not native format: not an ELF binary") = true := by
    decide
  have e4 : not_native_error (Exn.runtime_error "Not native format: not an Mach-O binary")
      = true := by decide
  rcases host with ⟨os, w⟩
  cases throw_if_not_native <;> cases x <;> cases os <;> by_cases h4 : w = 4 <;>
    simp [select_format, native_checks, first_throw, throw_if_in_windows, throw_if_in_macos,
      throw_if_in_linux, throw_if_in_32bit, fmt.family, fmt.is_64, h4, e1, e2, e3, e4]

theorem select_format_ne_unsupported (host : Host) (throw_if_not_native : Bool) (x : fmt) :
    select_format host throw_if_not_native x
      ≠ Except.error (Exn.runtime_error "Unsupported binary format") := by
  by_cases hc : throw_if_not_native = true ∧
      (x.family ≠ host.os ∨ (x.is_64 = true ∧ host.sizeof_void_ptr = 4))
  · obtain ⟨e, h1, h2⟩ := (select_format_spec host throw_if_not_native x).2 hc
    rw [h1]
    intro h
    injection h with h
    rw [h] at h2
    revert h2
    decide
  · rw [(select_format_spec host throw_if_not_native x).1 hc]
    intro h
    cases h

theorem stream_after_append {σ : Type} (ps : fmt → σ → Option Bool × σ) (a b : List fmt) :
    ∀ f_ : σ, stream_after ps (a ++ b) f_ = stream_after ps b (stream_after ps a f_) := by
  induction a with
  | nil => intro f_; rfl
  | cons x a ih => intro f_; simp only [List.cons_append, stream_after]; exact ih _

/-- The chain of `init` passes over the readers that answer no. -/
theorem init_from_skip {σ : Type} (host : Host) (ps : fmt → σ → Option Bool × σ)
    (throw_if_not_native : Bool) (pre rest : List fmt) :
    ∀ (f_ : σ) (asked : List (fmt × Option Bool)),
      (∀ pre1 y post1, pre = pre1 ++ y :: post1 → detect ps f_ pre1 y = some false) →
      init_from host ps throw_if_not_native (pre ++ rest) f_ asked =
        init_from host ps throw_if_not_native rest (stream_after ps pre f_)
          (asked ++ pre.map (fun y => (y, some false))) := by
  induction pre with
  | nil => intro f_ asked _; simp [stream_after]
  | cons x pre ih =>
    intro f_ asked h
    have hx : (ps x f_).1 = some false := h [] x pre rfl
    have hstep : init_from host ps throw_if_not_native (x :: pre ++ rest) f_ asked
        = init_from host ps throw_if_not_native (pre ++ rest) (ps x f_).2
            (asked ++ [(x, some false)]) := by
      rcases hps : ps x f_ with ⟨ans, f1⟩
      rw [hps] at hx
      simp only at hx
      subst hx
      simp [init_from, hps]
    rw [hstep, ih (ps x f_).2 (asked ++ [(x, some false)])]
    · simp [stream_after]
    · intro pre1 y post1 hp
      have := h (x :: pre1) y post1 (by rw [hp]; rfl)
      simpa [detect, stream_after] using this

/-- Among the readers either all answer no, or there is a first one that does
not. -/
theorem first_answer {σ : Type} (ps : fmt → σ → Option Bool × σ) (readers : List fmt) :
    ∀ f_ : σ,
      (∀ pre1 y post1, readers = pre1 ++ y :: post1 → detect ps f_ pre1 y = some false) ∨
      (∃ pre x post, readers = pre ++ x :: post ∧
        (∀ pre1 y post1, pre = pre1 ++ y :: post1 → detect ps f_ pre1 y = some false) ∧
        detect ps f_ pre x ≠ some false) := by
  induction readers with
  | nil =>
    intro f_
    left
    intro pre1 y post1 h
    simp at h
  | cons x readers ih =>
    intro f_
    by_cases hx : (ps x f_).1 = some false
    · rcases ih (ps x f_).2 with hall | ⟨pre, z, post, h1, h2, h3⟩
      · left
        intro pre1 y post1 h
        rcases pre1 with _ | ⟨w, pre1⟩
        · simp only [List.nil_append, List.cons.injEq] at h
          rw [← h.1]
          exact hx
        · simp only [List.cons_append, List.cons.injEq] at h
          have := hall pre1 y post1 h.2
          rw [← h.1]
          simpa [detect, stream_after] using this
      · right
        refine ⟨x :: pre, z, post, by rw [h1]; rfl, ?_, ?_⟩
        · intro pre1 y post1 h
          rcases pre1 with _ | ⟨w, pre1⟩
          · simp only [List.nil_append, List.cons.injEq] at h
            rw [← h.1]
            exact hx
          · simp only [List.cons_append, List.cons.injEq] at h
            have := h2 pre1 y post1 h.2
            rw [← h.1]
            simpa [detect, stream_after] using this
        · simpa [detect, stream_after] using h3
    · right
      exact ⟨[], x, readers, rfl, by intro pre1 y post1 h; simp at h, hx⟩

/-- The end of the chain of `init` at the first reader that does not answer
no, and after the last reader. -/
theorem init_from_head {σ : Type} (host : Host) (ps : fmt → σ → Option Bool × σ)
    (throw_if_not_native : Bool) (x : fmt) (rest : List fmt) (f_ : σ)
    (asked : List (fmt × Option Bool)) :
    ((ps x f_).1 = some true →
      init_from host ps throw_if_not_native (x :: rest) f_ asked =
        { result := select_format host throw_if_not_native x,
          probes := asked ++ [(x, some true)] }) ∧
    ((ps x f_).1 = none →
      init_from host ps throw_if_not_native (x :: rest) f_ asked =
        { result := Except.error Exn.ios_failure, probes := asked ++ [(x, none)] }) := by
  rcases hps : ps x f_ with ⟨ans, f1⟩
  constructor
  · intro h
    simp only at h
    subst h
    simp [init_from, hps]
  · intro h
    simp only at h
    subst h
    simp [init_from, hps]

/-- Construction on a file that could not be opened: setting the exception mask
raises. -/
theorem construct_unopened_raises {σ : Type} (host : Host) (ps : fmt → σ → Option Bool × σ)
    (b : Bool) :
    library_info_construct host ps none b
      = { result := Except.error Exn.ios_failure, probes := [] } := rfl

/-! ## Lemmas on `import` -/

/-- Entered with a clear error code, a `load` that returns with the code still
clear ends loaded. -/
theorem load_loaded_of_clear (cfg : Platform) (os : OS) (self : shared_library_impl)
    (sl : path) (pm : Nat) (t : List Event)
    (hret : (load cfg os self sl pm none t).threw = false)
    (hec : (load cfg os self sl pm none t).ec = none) :
    (load cfg os self sl pm none t).self.is_loaded = true := by
  revert hret hec
  unfold load
  simp only []
  split_ifs with h1
  · simp
  · intro hret hec
    exact (load_decorated_loaded_iff _ _ _ _ _ hret).mpr hec

/-- A successful `import` leaves a control block with one owner over a loaded
library. -/
theorem import_symbol_returns (cfg : Platform) (os : OS) (lib : path) (name : List Char)
    (mode : Nat) (t : List Event) (addr : Nat)
    (hv : (import_symbol cfg os lib name mode t).value = some addr) :
    ∃ sl : shared_library_impl, sl.is_loaded = true ∧
      (import_symbol cfg os lib name mode t).cell = { lib := some sl, use_count := 1 } := by
  unfold import_symbol at hv ⊢
  cases hc : shared_library_construct cfg os lib mode t with
  | mk o t1 =>
    cases o with
    | none => simp [hc] at hv
    | some sl =>
      cases hg : shared_library_get os sl name t1 with
      | mk a t2 =>
        cases a with
        | none => simp [hc, hg] at hv
        | some a0 =>
          refine ⟨sl, ?_, by simp [hc, hg]⟩
          unfold shared_library_construct at hc
          simp only [] at hc
          split_ifs at hc with hcond
          · simp at hc
          · simp only [Prod.mk.injEq, Option.some.injEq] at hc
            rw [← hc.1]
            have hcond' : (load cfg os default_construct lib mode none t).threw = false ∧
                (load cfg os default_construct lib mode none t).ec = none := by
              constructor
              · cases hthrew : (load cfg os default_construct lib mode none t).threw
                · rfl
                · exact absurd (Or.inl hthrew) hcond
              · by_contra hne
                exact hcond (Or.inr hne)
            exact load_loaded_of_clear cfg os default_construct lib mode t hcond'.1 hcond'.2

/-! ## Lemmas on programs that import symbols -/

theorem opens_of_dlsym (h k : native_handle_t) (n : List Char) (r : Nat) (t : List Event) :
    opens_of h (Event.dlsym k n r :: t) = opens_of h t := by
  simp [opens_of, List.countP_cons]

theorem closes_of_dlsym (h k : native_handle_t) (n : List Char) (r : Nat) (t : List Event) :
    closes_of h (Event.dlsym k n r :: t) = closes_of h t := by
  simp [closes_of, List.countP_cons]

/-- What the destructor adds to the trace: no `dlopen`, and one `dlclose` on
the handle held when that is not null. -/
theorem destroy_counts (sl : shared_library_impl) (t : List Event) (h : native_handle_t)
    (hh : h ≠ 0) :
    t <+: sl.destroy t ∧ opens_of h (sl.destroy t) = opens_of h t ∧
    closes_of h (sl.destroy t) = closes_of h t + held h sl := by
  unfold destroy
  rw [unload_snd]
  rcases sl with ⟨k⟩
  by_cases hk : k = 0
  · subst hk
    simp [is_loaded, held, Ne.symm hh]
  · refine ⟨List.prefix_append _ _, ?_, ?_⟩
    · simp [is_loaded, hk, opens_of_append, opens_of_dlclose, opens_of_nil]
    · simp [is_loaded, hk, closes_of_append, closes_of_dlclose, closes_of_nil, held]

/-- What `import` adds to the trace: the `dlopen` calls that returned a handle
are matched by `dlclose` calls, except for the handle the control block keeps. -/
theorem import_symbol_counts (cfg : Platform) (os : OS) (lib : path) (name : List Char)
    (mode : Nat) (t : List Event) (h : native_handle_t) (hh : h ≠ 0) :
    t <+: (import_symbol cfg os lib name mode t).trace ∧
    opens_of h (import_symbol cfg os lib name mode t).trace + closes_of h t
      = opens_of h t + closes_of h (import_symbol cfg os lib name mode t).trace
        + held_slot h (import_symbol cfg os lib name mode t).cell.lib := by
  obtain ⟨l1, l2, l3⟩ := load_counts cfg os default_construct lib mode none t h hh
  have hz : held h default_construct = 0 := held_zero h hh
  rw [hz] at l2
  obtain ⟨d1, d2, d3⟩ := destroy_counts (load cfg os default_construct lib mode none t).self
    (load cfg os default_construct lib mode none t).trace h hh
  unfold import_symbol
  cases hc : shared_library_construct cfg os lib mode t with
  | mk o t1 =>
    unfold shared_library_construct at hc
    simp only [] at hc
    split_ifs at hc with hcond
    · simp only [Prod.mk.injEq] at hc
      obtain ⟨ho, ht⟩ := hc
      subst ho
      subst ht
      simp only [held_slot]
      exact ⟨l1.trans d1, by omega⟩
    · simp only [Prod.mk.injEq] at hc
      obtain ⟨ho, ht⟩ := hc
      subst ho
      subst ht
      simp only []
      have hsym : ∀ (ec : error_code),
          (symbol_addr os (load cfg os default_construct lib mode none t).self name ec
            (load cfg os default_construct lib mode none t).trace).2.2
          = (load cfg os default_construct lib mode none t).trace ++
            [Event.dlsym (load cfg os default_construct lib mode none t).self.handle_ name
              (os.dlsym (load cfg os default_construct lib mode none t).trace
                (load cfg os default_construct lib mode none t).self.handle_ name)] := by
        intro ec; rfl
      obtain ⟨e1, e2, e3⟩ := destroy_counts (load cfg os default_construct lib mode none t).self
        ((load cfg os default_construct lib mode none t).trace ++
            [Event.dlsym (load cfg os default_construct lib mode none t).self.handle_ name
              (os.dlsym (load cfg os default_construct lib mode none t).trace
                (load cfg os default_construct lib mode none t).self.handle_ name)]) h hh
      have o1 : opens_of h ((load cfg os default_construct lib mode none t).trace ++
            [Event.dlsym (load cfg os default_construct lib mode none t).self.handle_ name
              (os.dlsym (load cfg os default_construct lib mode none t).trace
                (load cfg os default_construct lib mode none t).self.handle_ name)])
          = opens_of h (load cfg os default_construct lib mode none t).trace := by
        simp [opens_of_append, opens_of_dlsym, opens_of_nil]
      have o2 : closes_of h ((load cfg os default_construct lib mode none t).trace ++
            [Event.dlsym (load cfg os default_construct lib mode none t).self.handle_ name
              (os.dlsym (load cfg os default_construct lib mode none t).trace
                (load cfg os default_construct lib mode none t).self.handle_ name)])
          = closes_of h (load cfg os default_construct lib mode none t).trace := by
        simp [closes_of_append, closes_of_dlsym, closes_of_nil]
      cases hg : shared_library_get os (load cfg os default_construct lib mode none t).self name
          (load cfg os default_construct lib mode none t).trace with
      | mk a t2 =>
        unfold shared_library_get at hg
        simp only [] at hg
        split_ifs at hg with hcond2
        · simp only [Prod.mk.injEq] at hg
          obtain ⟨ha, ht2⟩ := hg
          subst ha
          subst ht2
          simp only [held_slot]
          rw [hsym]
          exact ⟨(l1.trans (List.prefix_append _ _)).trans e1, by omega⟩
        · simp only [Prod.mk.injEq] at hg
          obtain ⟨ha, ht2⟩ := hg
          subst ha
          subst ht2
          simp only [held_slot]
          rw [hsym]
          exact ⟨l1.trans (List.prefix_append _ _), by omega⟩


/-- A successful `import` leaves a well-formed control block. -/
theorem import_symbol_cell_ok (cfg : Platform) (os : OS) (lib : path) (name : List Char)
    (mode : Nat) (t : List Event) (addr : Nat)
    (hv : (import_symbol cfg os lib name mode t).value = some addr) :
    cell_ok (import_symbol cfg os lib name mode t).cell ∧
    (import_symbol cfg os lib name mode t).cell.use_count = 1 := by
  obtain ⟨sl, hl, hcell⟩ := import_symbol_returns cfg os lib name mode t addr hv
  rw [hcell]
  refine ⟨⟨by simp, ?_⟩, rfl⟩
  intro sl2 h2
  simp only [Option.some.injEq] at h2
  rw [← h2]
  exact hl

theorem copy_spec (c : SharedCell) (t : List Event) (r : SharedCell × List Event)
    (h : c.copy t = some r) :
    r.1.use_count = c.use_count + 1 ∧ r.1.lib = c.lib ∧ r.2 = t ∧ c.use_count ≠ 0 := by
  unfold SharedCell.copy at h
  split_ifs at h with h0
  simp only [Option.some.injEq] at h
  subst h
  exact ⟨rfl, rfl, rfl, h0⟩

/-- What the destruction of a value does to its control block and to the
trace. -/
theorem drop_spec (c : SharedCell) (t : List Event) (r : SharedCell × List Event)
    (hok : cell_ok c) (h : c.drop t = some r) (k : native_handle_t) (hk : k ≠ 0) :
    r.1.use_count + 1 = c.use_count ∧ cell_ok r.1 ∧ t <+: r.2 ∧
    opens_of k r.2 = opens_of k t ∧
    held_slot k r.1.lib + closes_of k r.2 = held_slot k c.lib + closes_of k t := by
  unfold SharedCell.drop at h
  split_ifs at h with h0 h1
  · cases hl : c.lib with
    | none =>
      rw [hl] at h
      simp only [Option.some.injEq] at h
      subst h
      exact ⟨by simp [h1], ⟨by simp, by simp⟩, List.prefix_refl _, rfl, rfl⟩
    | some sl =>
      rw [hl] at h
      simp only [Option.some.injEq] at h
      subst h
      obtain ⟨d1, d2, d3⟩ := destroy_counts sl t k hk
      refine ⟨by simp [h1], ⟨by simp, by simp⟩, d1, d2, ?_⟩
      simp only [held_slot]
      omega
  · simp only [Option.some.injEq] at h
    subst h
    refine ⟨by simp only; omega, ⟨?_, hok.2⟩, List.prefix_refl _, rfl, rfl⟩
    constructor
    · intro hz
      simp only at hz
      omega
    · intro hn
      exact absurd (hok.1.mpr hn) h0

theorem cell_holders_append (h : native_handle_t) (cells : List SharedCell) (c : SharedCell) :
    cell_holders h (cells ++ [c]) = cell_holders h cells + held_slot h c.lib := by
  simp [cell_holders]

theorem cell_holders_set (h : native_handle_t) (cells : List SharedCell) (i : Nat)
    (x y : SharedCell) (hi : cells[i]? = some x) :
    cell_holders h (cells.set i y) + held_slot h x.lib
      = cell_holders h cells + held_slot h y.lib :=
  sum_map_set (fun c : SharedCell => held_slot h c.lib) cells i x y hi

/-- Every statement keeps the counting invariant and only adds to the trace. -/
theorem import_step_ok (cfg : Platform) (os : OS) (s s1 : Importer) (op : ImportOp)
    (hstep : import_step cfg os s op = some s1) (hb : importer_ok s) :
    (importer_ok s1) ∧ s.trace <+: s1.trace := by
  obtain ⟨hcells, hbal⟩ := hb
  cases op with
  | call_import lib name mode =>
    simp only [import_step] at hstep
    cases hv : (import_symbol cfg os lib name mode s.trace).value with
    | none =>
      rw [hv] at hstep
      simp only [Option.some.injEq] at hstep
      subst hstep
      have hnone : (import_symbol cfg os lib name mode s.trace).cell.lib = none := by
        revert hv
        unfold import_symbol
        cases shared_library_construct cfg os lib mode s.trace with
        | mk o t1 =>
          cases o with
          | none => intro _; rfl
          | some sl =>
            simp only []
            cases shared_library_get os sl name t1 with
            | mk a t2 =>
              cases a with
              | none => intro _; rfl
              | some a0 => intro hv; simp at hv
      refine ⟨⟨hcells, ?_⟩, (import_symbol_counts cfg os lib name mode s.trace 1 (by decide)).1⟩
      intro h hh
      have := (import_symbol_counts cfg os lib name mode s.trace h hh).2
      rw [hnone] at this
      simp only [held_slot] at this
      have := hbal h hh
      simp only
      omega
    | some addr =>
      rw [hv] at hstep
      simp only [Option.some.injEq] at hstep
      subst hstep
      obtain ⟨hok, _⟩ := import_symbol_cell_ok cfg os lib name mode s.trace addr hv
      refine ⟨⟨?_, ?_⟩, (import_symbol_counts cfg os lib name mode s.trace 1 (by decide)).1⟩
      · intro c hc
        simp only [List.mem_append, List.mem_singleton] at hc
        rcases hc with hc | hc
        · exact hcells c hc
        · rw [hc]; exact hok
      · intro h hh
        have := (import_symbol_counts cfg os lib name mode s.trace h hh).2
        have := hbal h hh
        simp only [cell_holders_append]
        omega
  | copy i =>
    simp only [import_step] at hstep
    cases hi : s.cells[i]? with
    | none => rw [hi] at hstep; simp at hstep
    | some c =>
      rw [hi] at hstep
      simp only [] at hstep
      cases hc : c.copy s.trace with
      | none => rw [hc] at hstep; simp at hstep
      | some r =>
        rw [hc] at hstep
        simp only [Option.some.injEq] at hstep
        subst hstep
        obtain ⟨c1, c2, c3, c4⟩ := copy_spec c s.trace r hc
        have hcm : c ∈ s.cells := List.getElem?_mem hi
        refine ⟨⟨?_, ?_⟩, by simp only; rw [c3]⟩
        · intro x hx
          rcases List.mem_or_eq_of_mem_set hx with hx | hx
          · exact hcells x hx
          · rw [hx]
            refine ⟨⟨fun hz => by omega, fun hn => ?_⟩, fun sl hsl => ?_⟩
            · rw [c2] at hn
              exact absurd ((hcells c hcm).1.mpr hn) c4
            · rw [c2] at hsl
              exact (hcells c hcm).2 sl hsl
        · intro h hh
          have := cell_holders_set h s.cells i c r.1 hi
          rw [c2] at this
          have := hbal h hh
          simp only
          rw [c3]
          omega
  | drop i =>
    simp only [import_step] at hstep
    cases hi : s.cells[i]? with
    | none => rw [hi] at hstep; simp at hstep
    | some c =>
      rw [hi] at hstep
      simp only [] at hstep
      cases hc : c.drop s.trace with
      | none => rw [hc] at hstep; simp at hstep
      | some r =>
        rw [hc] at hstep
        simp only [Option.some.injEq] at hstep
        subst hstep
        have hcm : c ∈ s.cells := List.getElem?_mem hi
        obtain ⟨_, d2, d3, _, _⟩ := drop_spec c s.trace r (hcells c hcm) hc 1 (by decide)
        refine ⟨⟨?_, ?_⟩, d3⟩
        · intro x hx
          rcases List.mem_or_eq_of_mem_set hx with hx | hx
          · exact hcells x hx
          · rw [hx]; exact d2
        · intro h hh
          obtain ⟨_, _, _, e4, e5⟩ := drop_spec c s.trace r (hcells c hcm) hc h hh
          have := cell_holders_set h s.cells i c r.1 hi
          have := hbal h hh
          simp only
          omega

theorem import_run_ok (cfg : Platform) (os : OS) (ops : List ImportOp) :
    ∀ (s s1 : Importer), import_run cfg os s ops = some s1 → importer_ok s →
      (importer_ok s1) ∧ s.trace <+: s1.trace := by
  induction ops with
  | nil =>
    intro s s1 h hb
    simp only [import_run, Option.some.injEq] at h
    subst h
    exact ⟨hb, List.prefix_refl _⟩
  | cons op ops ih =>
    intro s s1 h hb
    simp only [import_run] at h
    cases hs : import_step cfg os s op with
    | none => rw [hs] at h; simp at h
    | some s2 =>
      rw [hs] at h
      simp only [] at h
      obtain ⟨b2, p2⟩ := import_step_ok cfg os s s2 op hs hb
      obtain ⟨b1, p1⟩ := ih s2 s1 h b2
      exact ⟨b1, p2.trans p1⟩

theorem importer_ok_start : importer_ok Importer.start := by
  refine ⟨?_, ?_⟩
  · intro c hc
    simp [Importer.start] at hc
  · intro h _
    rfl


theorem drop_use_count (c : SharedCell) (t : List Event) (r : SharedCell × List Event)
    (h : c.drop t = some r) : r.1.use_count + 1 = c.use_count := by
  unfold SharedCell.drop at h
  split_ifs at h with h0 h1
  · cases hl : c.lib with
    | none =>
      rw [hl] at h
      simp only [Option.some.injEq] at h
      subst h
      simp [h1]
    | some sl =>
      rw [hl] at h
      simp only [Option.some.injEq] at h
      subst h
      simp [h1]
  · simp only [Option.some.injEq] at h
    subst h
    simp only
    omega

/-- The owners of a control block after a run: those it had, plus the copies,
minus the destructions; a control block made during the run starts with one. -/
theorem import_run_counts (cfg : Platform) (os : OS) (ops : List ImportOp) :
    ∀ (s s1 : Importer), import_run cfg os s ops = some s1 →
      ∀ i c1, s1.cells[i]? = some c1 →
        (∀ c, s.cells[i]? = some c →
          c1.use_count + drops_of i ops = c.use_count + copies_of i ops) ∧
        (s.cells.length ≤ i → c1.use_count + drops_of i ops = 1 + copies_of i ops) := by
  induction ops with
  | nil =>
    intro s s1 h i c1 hi
    simp only [import_run, Option.some.injEq] at h
    subst h
    refine ⟨?_, ?_⟩
    · intro c hc
      rw [hi] at hc
      simp only [Option.some.injEq] at hc
      rw [hc]
      simp [drops_of, copies_of]
    · intro hle
      have := List.getElem?_eq_none hle
      rw [hi] at this
      cases this
  | cons op ops ih =>
    intro s s1 h i c1 hi
    simp only [import_run] at h
    cases hs : import_step cfg os s op with
    | none => rw [hs] at h; simp at h
    | some s2 =>
      rw [hs] at h
      simp only [] at h
      obtain ⟨ih1, ih2⟩ := ih s2 s1 h i c1 hi
      cases op with
      | call_import lib name mode =>
        simp only [import_step] at hs
        have hd : drops_of i (ImportOp.call_import lib name mode :: ops) = drops_of i ops := rfl
        have hcp : copies_of i (ImportOp.call_import lib name mode :: ops) = copies_of i ops :=
          rfl
        rw [hd, hcp]
        cases hv : (import_symbol cfg os lib name mode s.trace).value with
        | none =>
          rw [hv] at hs
          simp only [Option.some.injEq] at hs
          subst hs
          exact ⟨ih1, ih2⟩
        | some addr =>
          rw [hv] at hs
          simp only [Option.some.injEq] at hs
          subst hs
          obtain ⟨_, huc⟩ := import_symbol_cell_ok cfg os lib name mode s.trace addr hv
          refine ⟨?_, ?_⟩
          · intro c hc
            apply ih1 c
            simp only
            have hlt : i < s.cells.length := by
              by_contra hge
              have := List.getElem?_eq_none (Nat.le_of_not_lt hge)
              rw [hc] at this
              cases this
            rw [List.getElem?_append_left hlt]
            exact hc
          · intro hle
            by_cases heq : i = s.cells.length
            · have := ih1 (import_symbol cfg os lib name mode s.trace).cell (by
                simp only
                rw [heq, List.getElem?_append_right (Nat.le_refl _)]
                simp)
              rw [huc] at this
              exact this
            · apply ih2
              simp only [List.length_append, List.length_singleton]
              omega
      | copy j =>
        simp only [import_step] at hs
        cases hj : s.cells[j]? with
        | none => rw [hj] at hs; simp at hs
        | some c =>
          rw [hj] at hs
          simp only [] at hs
          cases hc : c.copy s.trace with
          | none => rw [hc] at hs; simp at hs
          | some r =>
            rw [hc] at hs
            simp only [Option.some.injEq] at hs
            subst hs
            obtain ⟨c1', _, _, _⟩ := copy_spec c s.trace r hc
            have hjlt : j < s.cells.length := by
              by_contra hge
              have := List.getElem?_eq_none (Nat.le_of_not_lt hge)
              rw [hj] at this
              cases this
            have hd : drops_of i (ImportOp.copy j :: ops) = drops_of i ops := rfl
            have hcp : copies_of i (ImportOp.copy j :: ops)
                = (if j = i then 1 else 0) + copies_of i ops := rfl
            rw [hd, hcp]
            refine ⟨?_, ?_⟩
            · intro c0 hc0
              by_cases hji : j = i
              · subst hji
                rw [hj] at hc0
                simp only [Option.some.injEq] at hc0
                subst hc0
                have := ih1 r.1 (by simp only; rw [List.getElem?_set_self hjlt])
                rw [if_pos rfl]
                omega
              · have := ih1 c0 (by simp only; rw [List.getElem?_set_ne hji]; exact hc0)
                rw [if_neg hji]
                omega
            · intro hle
              have hji : j ≠ i := by omega
              have := ih2 (by simp only [List.length_set]; exact hle)
              rw [if_neg hji]
              omega
      | drop j =>
        simp only [import_step] at hs
        cases hj : s.cells[j]? with
        | none => rw [hj] at hs; simp at hs
        | some c =>
          rw [hj] at hs
          simp only [] at hs
          cases hc : c.drop s.trace with
          | none => rw [hc] at hs; simp at hs
          | some r =>
            rw [hc] at hs
            simp only [Option.some.injEq] at hs
            subst hs
            have c1' := drop_use_count c s.trace r hc
            have hjlt : j < s.cells.length := by
              by_contra hge
              have := List.getElem?_eq_none (Nat.le_of_not_lt hge)
              rw [hj] at this
              cases this
            have hd : drops_of i (ImportOp.drop j :: ops)
                = (if j = i then 1 else 0) + drops_of i ops := rfl
            have hcp : copies_of i (ImportOp.drop j :: ops) = copies_of i ops := rfl
            rw [hd, hcp]
            refine ⟨?_, ?_⟩
            · intro c0 hc0
              by_cases hji : j = i
              · subst hji
                rw [hj] at hc0
                simp only [Option.some.injEq] at hc0
                subst hc0
                have := ih1 r.1 (by simp only; rw [List.getElem?_set_self hjlt])
                rw [if_pos rfl]
                omega
              · have := ih1 c0 (by simp only; rw [List.getElem?_set_ne hji]; exact hc0)
                rw [if_neg hji]
                omega
            · intro hle
              have hji : j ≠ i := by omega
              have := ih2 (by simp only [List.length_set]; exact hle)
              rw [if_neg hji]
              omega

theorem cell_holders_pos (h : native_handle_t) (cells : List SharedCell) (c : SharedCell)
    (sl : shared_library_impl) (hc : c ∈ cells) (hl : c.lib = some sl)
    (hh : sl.handle_ = h) : 1 ≤ cell_holders h cells := by
  induction cells with
  | nil => simp at hc
  | cons x cells ih =>
    simp only [cell_holders, List.map_cons, List.sum_cons]
    rcases List.mem_cons.mp hc with hx | hx
    · rw [← hx, hl]
      simp only [held_slot, held, hh, if_true]
      omega
    · have := ih hx
      simp only [cell_holders] at this
      omega

theorem cell_holders_of_no_lib (cells : List SharedCell) (h : native_handle_t)
    (hall : ∀ c ∈ cells, c.lib = none) : cell_holders h cells = 0 := by
  unfold cell_holders
  induction cells with
  | nil => rfl
  | cons c l ih =>
    have h0 : held_slot h c.lib = 0 := by rw [hall c (by simp)]; rfl
    rw [List.map_cons, List.sum_cons, h0, ih (fun x hx => hall x (by simp [hx]))]

/-! ## Lemmas on the path and the error code of load -/

theorem dropWhile_snoc_ne_nil {α : Type} (f : α → Bool) (l : List α) (a : α)
    (h : f a = false) : (l ++ [a]).dropWhile f ≠ [] := by
  induction l with
  | nil => simp [List.dropWhile, h]
  | cons b l ih =>
    simp only [List.cons_append, List.dropWhile_cons]
    split
    · exact ih
    · simp

/-- A pathname that starts at the root directory has a parent path. -/
theorem has_parent_path_of_absolute (p : path) (h : is_absolute p = true) :
    has_parent_path p = true := by
  cases p with
  | nil => simp [is_absolute, has_root_directory] at h
  | cons c rest =>
    have hc : c = preferred_separator := by
      simpa [is_absolute, has_root_directory] using h
    subst hc
    have hd : ((preferred_separator :: rest).reverse.dropWhile not_sep) ≠ [] := by
      rw [List.reverse_cons]
      exact dropWhile_snoc_ne_nil _ _ _ (by decide)
    have hd2 : ((preferred_separator :: rest).reverse.dropWhile not_sep).isEmpty = false := by
      cases hd' : ((preferred_separator :: rest).reverse.dropWhile not_sep) with
      | nil => exact absurd hd' hd
      | cons x xs => rfl
    unfold has_parent_path parent_path
    simp only [hd2]
    split_ifs with h1 h2 h3
    · simp
    · exact h3.elim
    · simp
    · cases he : (((preferred_separator :: rest).reverse.dropWhile not_sep).dropWhile is_sep) with
      | nil => rw [he] at h2; exact absurd rfl h2
      | cons x xs => simp

/-- On a name without parent path, `"." / name` is `./name`. -/
theorem path_append_dot (p : path) (h : has_parent_path p = false) :
    path_append ".".toList p = "./".toList ++ p := by
  have ha : is_absolute p = false := by
    cases hq : is_absolute p
    · rfl
    · rw [has_parent_path_of_absolute p hq] at h
      exact absurd h (by decide)
  unfold path_append
  rw [ha]
  have hf : has_filename ".".toList = true := by decide
  rw [hf]
  rfl

/-- The "Fixing modes" block leaves the `search_system_folders` bit as requested. -/
theorem fix_modes_search (cfg : Platform) (hd : flags_disjoint cfg) (m : Nat) :
    fix_modes cfg m &&& load_mode.search_system_folders
      = m &&& load_mode.search_system_folders := by
  obtain ⟨_, _, _, _, _, hL, _, _, hLoc⟩ := hd
  have e1 : load_mode.rtld_lazy cfg &&& load_mode.search_system_folders = 0 := by
    apply Nat.eq_of_testBit_eq
    intro i
    have := (land_eq_zero_iff _ _).mp hL i
    simp only [Nat.testBit_or] at this
    simp only [Nat.testBit_and, Nat.zero_testBit]
    cases h1 : (load_mode.rtld_lazy cfg).testBit i <;>
      cases h2 : (load_mode.search_system_folders).testBit i <;> simp_all
  have e2 : load_mode.rtld_local cfg &&& load_mode.search_system_folders = 0 := by
    apply Nat.eq_of_testBit_eq
    intro i
    have := (land_eq_zero_iff _ _).mp hLoc i
    simp only [Nat.testBit_or] at this
    simp only [Nat.testBit_and, Nat.zero_testBit]
    cases h1 : (load_mode.rtld_local cfg).testBit i <;>
      cases h2 : (load_mode.search_system_folders).testBit i <;> simp_all
  unfold fix_modes
  simp only []
  split_ifs <;> simp only [or_land_cancel _ _ _ e1, or_land_cancel _ _ _ e2]

/-- The path `load` works with on Linux and Android. -/
theorem load_path_linux (cfg : Platform) (os : OS) (sl : path) (pm : Nat) (t : List Event)
    (hos : cfg.BOOST_OS_LINUX = true ∨ cfg.BOOST_OS_ANDROID = true)
    (hd : flags_disjoint cfg) :
    load_path cfg os sl pm t =
      if has_parent_path sl = false ∧
          (pm % int_modulus) &&& load_mode.search_system_folders = 0
      then "./".toList ++ sl else sl := by
  unfold load_path fix_path
  have hc : (cfg.BOOST_OS_LINUX || cfg.BOOST_OS_ANDROID) = true := by
    rcases hos with h | h <;> simp [h]
  rw [if_pos hc, fix_modes_search cfg hd]
  by_cases hp : has_parent_path sl = false
  · by_cases hm : (pm % int_modulus) &&& load_mode.search_system_folders = 0
    · rw [if_pos ⟨by simp [hp], hm⟩, if_pos ⟨hp, hm⟩, path_append_dot sl hp]
    · rw [if_neg (fun h => hm h.2), if_neg (fun h => hm h.2)]
  · rw [if_neg (fun h => hp (by simpa using h.1)), if_neg (fun h => hp h.1)]

/-- The files `load_exact` opens, and the error code it leaves on success: the
exact path alone, with the error code untouched, or the exact path and then
the running program, with the error code cleared. -/
theorem load_exact_files (cfg : Platform) (os : OS) (sl : path) (m : Nat)
    (ec : error_code) (t : List Event) :
    (dlopen_files (new_events t (load_exact cfg os sl m ec t).trace) = [some sl] ∧
      ((load_exact cfg os sl m ec t).self.is_loaded = true →
        (load_exact cfg os sl m ec t).ec = ec)) ∨
    (dlopen_files (new_events t (load_exact cfg os sl m ec t).trace) = [some sl, none] ∧
      ((load_exact cfg os sl m ec t).self.is_loaded = true →
        (load_exact cfg os sl m ec t).ec = none)) := by
  unfold load_exact
  simp only []
  by_cases h1 : os.dlopen t (some sl) m ≠ 0
  · left
    simp only [if_pos h1]
    simp [reset_dlerror, new_events, dlopen_files]
  · have h0 : os.dlopen t (some sl) m = 0 := by simpa using h1
    simp only [if_neg h1]
    by_cases h2 : (program_location_impl cfg os
          (t ++ [Event.dlopen (some sl) m (os.dlopen t (some sl) m)])).2 = none ∧
        (os.equivalent (t ++ [Event.dlopen (some sl) m (os.dlopen t (some sl) m)]) sl
          (program_location_impl cfg os
            (t ++ [Event.dlopen (some sl) m (os.dlopen t (some sl) m)])).1).1 = true ∧
        (os.equivalent (t ++ [Event.dlopen (some sl) m (os.dlopen t (some sl) m)]) sl
          (program_location_impl cfg os
            (t ++ [Event.dlopen (some sl) m (os.dlopen t (some sl) m)])).1).2 = none
    · right
      simp only [if_pos h2]
      constructor
      · simp [reset_dlerror, new_events, dlopen_files]
      · intro hl
        have hne : ¬ (os.dlopen (reset_dlerror
            (t ++ [Event.dlopen (some sl) m (os.dlopen t (some sl) m)])) none m = 0) := by
          simpa [is_loaded] using hl
        rw [if_neg hne]
    · left
      simp only [if_neg h2]
      simp [new_events, dlopen_files, is_loaded, h0]

/-- The files `load_decorated` opens, and the error code it leaves on success. -/
theorem load_decorated_files (cfg : Platform) (os : OS) (sl : path) (m : Nat)
    (ec : error_code) (t : List Event) :
    (∀ f ∈ dlopen_files (new_events t (load_decorated cfg os sl m ec t).trace),
      f = some (decorate cfg sl) ∨ f = some sl ∨ f = none) ∧
    ((load_decorated cfg os sl m ec t).self.is_loaded = true →
      (((dlopen_files (new_events t (load_decorated cfg os sl m ec t).trace)).getLast?
            = some (some (decorate cfg sl)) ∨
        (dlopen_files (new_events t (load_decorated cfg os sl m ec t).trace)).getLast?
            = some (some sl)) ∧
        (load_decorated cfg os sl m ec t).ec = ec) ∨
      ((dlopen_files (new_events t (load_decorated cfg os sl m ec t).trace)).getLast?
            = some none ∧
        (load_decorated cfg os sl m ec t).ec = none)) := by
  have hex : ∀ (m1 : Nat) (t1 : List Event),
      (∀ f ∈ dlopen_files (new_events t1 (load_exact cfg os sl m1 ec t1).trace),
        f = some (decorate cfg sl) ∨ f = some sl ∨ f = none) ∧
      ((load_exact cfg os sl m1 ec t1).self.is_loaded = true →
        (((dlopen_files (new_events t1 (load_exact cfg os sl m1 ec t1).trace)).getLast?
              = some (some sl)) ∧
          (load_exact cfg os sl m1 ec t1).ec = ec) ∨
        ((dlopen_files (new_events t1 (load_exact cfg os sl m1 ec t1).trace)).getLast?
              = some none ∧
          (load_exact cfg os sl m1 ec t1).ec = none)) := by
    intro m1 t1
    rcases load_exact_files cfg os sl m1 ec t1 with ⟨hf, he⟩ | ⟨hf, he⟩
    · rw [hf]
      refine ⟨?_, fun hl => Or.inl ⟨rfl, he hl⟩⟩
      intro f hf'
      simp only [List.mem_singleton] at hf'
      exact Or.inr (Or.inl hf')
    · rw [hf]
      refine ⟨?_, fun hl => Or.inr ⟨rfl, he hl⟩⟩
      intro f hf'
      simp only [List.mem_cons, List.mem_singleton, List.not_mem_nil, or_false] at hf'
      rcases hf' with hf' | hf'
      · exact Or.inr (Or.inl hf')
      · exact Or.inr (Or.inr hf')
  unfold load_decorated
  simp only []
  split_ifs with h1 h2
  · simp [reset_dlerror, new_events, dlopen_files]
  · have h2' : os.dlopen t (some (decorate cfg sl))
        (m &&& bit_not load_mode.append_decorations) = 0 := by simpa using h2
    rw [h2']
    split
    · simp [new_events, dlopen_files, is_loaded]
    · split_ifs with h4
      · simp [new_events, dlopen_files, is_loaded]
      · have hp := (load_exact_counts cfg os sl
          (m &&& bit_not load_mode.append_decorations) ec
          (t ++ [Event.dlopen (some (decorate cfg sl))
            (m &&& bit_not load_mode.append_decorations) 0]) 1 (by decide)).1
        rw [new_events_split _ _ _ hp]
        have k := hex (m &&& bit_not load_mode.append_decorations)
          (t ++ [Event.dlopen (some (decorate cfg sl))
            (m &&& bit_not load_mode.append_decorations) 0])
        have hfiles : ∀ l : List Event,
            dlopen_files ([Event.dlopen (some (decorate cfg sl))
              (m &&& bit_not load_mode.append_decorations) 0] ++ l)
              = some (decorate cfg sl) :: dlopen_files l := by
          intro l; simp [dlopen_files]
        rw [hfiles]
        refine ⟨?_, ?_⟩
        · intro f hf
          rcases List.mem_cons.mp hf with hf | hf
          · exact Or.inl hf
          · exact k.1 f hf
        · intro hl
          rcases k.2 hl with ⟨hlast, hec⟩ | ⟨hlast, hec⟩
          · left
            refine ⟨Or.inr ?_, hec⟩
            rw [List.getLast?_cons, hlast]; rfl
          · right
            refine ⟨?_, hec⟩
            rw [List.getLast?_cons, hlast]; rfl
  · have k := hex m t
    refine ⟨k.1, fun hl => ?_⟩
    rcases k.2 hl with ⟨hlast, hec⟩ | ⟨hlast, hec⟩
    · exact Or.inl ⟨Or.inr hlast, hec⟩
    · exact Or.inr ⟨hlast, hec⟩

/-! ## Lemmas on the location queries -/

/-- The exception `report_error` raises. -/
theorem report_error_fst (os : OS) (ec : error_code) (message : List Char) (t : List Event) :
    (report_error os ec message t).1 =
      { code := ec, what_arg := message ++ dlerror_note (os.dlerror t) } := by
  unfold report_error dlerror_note
  cases h : os.dlerror t <;> simp [List.append_assoc]

/-- The one loader call `report_error` makes. -/
theorem report_error_snd (os : OS) (ec : error_code) (message : List Char) (t : List Event) :
    (report_error os ec message t).2 = t ++ [Event.dlerror] := by
  unfold report_error
  cases h : os.dlerror t <;> simp

/-- Each overload without error code, computed from the overload with one. -/
theorem location_query_throwing_eq (cfg : Platform) (os : OS) (q : location_query)
    (ec : error_code) (t : List Event) :
    q.throwing cfg os t =
      if (q.with_ec cfg os ec t).2.1 ≠ none then
        (Except.error { code := (q.with_ec cfg os ec t).2.1,
                        what_arg := q.message ++
                          dlerror_note (os.dlerror (q.with_ec cfg os ec t).2.2) },
          (q.with_ec cfg os ec t).2.2 ++ [Event.dlerror])
      else (Except.ok (q.with_ec cfg os ec t).1, (q.with_ec cfg os ec t).2.2) := by
  cases q with
  | symbol_location_ptr p =>
    simp only [location_query.throwing, location_query.with_ec, location_query.message,
      symbol_location_ptr_throwing]
    have e : symbol_location_ptr os p ec t = symbol_location_ptr os p none t := rfl
    rw [e]
    split_ifs with h <;> simp [report_error_fst, report_error_snd]
  | symbol_location a =>
    simp only [location_query.throwing, location_query.with_ec, location_query.message,
      symbol_location_throwing, symbol_location]
    split_ifs with h <;> simp [report_error_fst, report_error_snd]
  | this_line_location f =>
    simp only [location_query.throwing, location_query.with_ec, location_query.message,
      this_line_location_throwing, this_line_location, symbol_location]
    split_ifs with h <;> simp [report_error_fst, report_error_snd]
  | program_location =>
    simp only [location_query.throwing, location_query.with_ec, location_query.message,
      program_location_throwing, program_location]
    split_ifs with h <;> simp [report_error_fst, report_error_snd]

/-- A mode with a bit pattern cleared has none of its bits. -/
theorem land_bit_not_self (v a : Nat) : (v &&& bit_not a) &&& a = 0 := by
  apply Nat.eq_of_testBit_eq
  intro i
  simp only [Nat.testBit_and, testBit_bit_not, Nat.zero_testBit]
  cases v.testBit i <;> cases decide (i < 32) <;> cases a.testBit i <;> rfl

/-- Clearing a second bit pattern keeps the first one cleared. -/
theorem land_bit_not_other (v a b : Nat) : ((v &&& bit_not a) &&& bit_not b) &&& a = 0 := by
  apply Nat.eq_of_testBit_eq
  intro i
  simp only [Nat.testBit_and, testBit_bit_not, Nat.zero_testBit]
  cases v.testBit i <;> cases decide (i < 32) <;> cases a.testBit i <;>
    cases b.testBit i <;> rfl

/-- The native mode of `load` has neither private bit. -/
theorem native_mode_of_private (cfg : Platform) (pm : Nat) :
    native_mode_of cfg pm &&& load_mode.append_decorations = 0 ∧
    native_mode_of cfg pm &&& load_mode.search_system_folders = 0 :=
  ⟨land_bit_not_self _ _, land_bit_not_other _ _ _⟩

/-- The files `load` of a non-empty path opens, and the error code it leaves
on success. -/
theorem load_files (cfg : Platform) (os : OS) (self : shared_library_impl) (sl : path)
    (pm : Nat) (ec : error_code) (t : List Event) (hne : path_empty sl = false) :
    (∀ f ∈ dlopen_files (new_events (self.unload t).2 (load cfg os self sl pm ec t).trace),
      f = some (decorate cfg (load_path cfg os sl pm (self.unload t).2)) ∨
      f = some (load_path cfg os sl pm (self.unload t).2) ∨ f = none) ∧
    ((load cfg os self sl pm ec t).self.is_loaded = true →
      (((dlopen_files (new_events (self.unload t).2
            (load cfg os self sl pm ec t).trace)).getLast?
            = some (some (decorate cfg (load_path cfg os sl pm (self.unload t).2))) ∨
        (dlopen_files (new_events (self.unload t).2
            (load cfg os self sl pm ec t).trace)).getLast?
            = some (some (load_path cfg os sl pm (self.unload t).2))) ∧
        (load cfg os self sl pm ec t).ec = ec) ∨
      ((dlopen_files (new_events (self.unload t).2
            (load cfg os self sl pm ec t).trace)).getLast? = some none ∧
        (load cfg os self sl pm ec t).ec = none)) := by
  rw [load_of_nonempty cfg os self sl pm ec t hne]
  exact load_decorated_files cfg os _ _ ec _

/-- The overloads without error code on sample inputs: a null pointer raises
`bad_address` with the bare message when the loader has no error text, and
with the text in brackets when a failed `dlsym` left one; a known address
gives its file. -/
theorem location_query_samples :
    ((location_query.symbol_location_ptr 0).throwing linux_glibc os_glibc []).1 =
      Except.error { code := some errc.bad_address,
                     what_arg := "boost::dll::symbol_location_ptr(T ptr_to_symbol) failed".toList } ∧
    ((location_query.symbol_location_ptr 0).throwing linux_glibc os_glibc
        [Event.dlsym 7 "nope".toList 0]).1 =
      Except.error { code := some errc.bad_address,
                     what_arg := ("boost::dll::symbol_location_ptr(T ptr_to_symbol) failed" ++
                       " (dlerror system message: undefined symbol)").toList } ∧
    ((location_query.symbol_location 4096).throwing linux_glibc os_glibc []).1 =
      Except.ok "/lib/x86_64-linux-gnu/libc.so.6".toList ∧
    ((location_query.this_line_location 5).throwing linux_glibc os_glibc []) =
      (Except.error { code := some errc.bad_address,
                      what_arg := "boost::dll::this_line_location() failed".toList },
        [Event.dladdr 5 none, Event.dlerror, Event.dlerror]) ∧
    (location_query.program_location.throwing linux_glibc os_glibc []).1 =
      Except.ok "/usr/bin/app".toList :=
  ⟨rfl, rfl, rfl, rfl, rfl⟩

/-! ## The claims -/

/-- C1 (as stated, refuted): on Linux, decorating `plugin` twice gives
`libplugin.so.so`, which differs from `decorate("plugin") = libplugin.so`. -/
theorem decorate_twice_differs :
    decorate linux_glibc (decorate linux_glibc "plugin".toList) = "libplugin.so.so".toList ∧
    decorate linux_glibc "plugin".toList = "libplugin.so".toList ∧
    ¬ (decorate linux_glibc (decorate linux_glibc "plugin".toList)
        = decorate linux_glibc "plugin".toList) := by
  decide

/-- C1 (amended): decorating an already-decorated path adds no second `lib`
prefix: the parent directory stays the same and the file name of
`decorate(decorate(p))` is the file name of `decorate(p)` followed by the
platform suffix once more, so the two paths are never equal. -/
theorem decorate_twice_no_second_lib (cfg : Platform) (p : path) :
    parent_path (decorate cfg (decorate cfg p)) = parent_path (decorate cfg p) ∧
    filename (decorate cfg (decorate cfg p)) = filename (decorate cfg p) ++ suffix cfg ∧
    decorate cfg (decorate cfg p) ≠ decorate cfg p := by
  refine ⟨?_, ?_, ?_⟩
  · rw [parent_path_decorate cfg (decorate cfg p), if_neg]
    rintro ⟨h0, _⟩
    rw [has_relative_path_decorate] at h0
    cases h0
  · rw [filename_decorate cfg (decorate cfg p), if_pos (filename_decorate_take cfg p)]
  · rw [decorate_decorate]
    intro h
    have hlen := congrArg List.length h
    have : (suffix cfg).length ≠ 0 := by
      unfold suffix; split <;> decide
    simp at hlen
    exact this (by simpa using hlen)

/-- C3: `load` with an empty path reports `bad_file_descriptor`, returns
normally with the handle unloaded, and its only loader calls are the
`dlclose` of a previously held handle and one `dlerror`: no `dlopen`. -/
theorem load_empty_path (cfg : Platform) (os : OS) (self : shared_library_impl)
    (sl : path) (portable_mode : Nat) (ec : error_code) (t : List Event)
    (hsl : path_empty sl = true) :
    (load cfg os self sl portable_mode ec t).ec = some errc.bad_file_descriptor ∧
    (load cfg os self sl portable_mode ec t).self.is_loaded = false ∧
    (load cfg os self sl portable_mode ec t).threw = false ∧
    (load cfg os self sl portable_mode ec t).trace =
      t ++ (if self.is_loaded = true then [Event.dlclose self.handle_] else [])
        ++ [Event.dlerror] ∧
    (∀ e ∈ (load cfg os self sl portable_mode ec t).trace.drop t.length,
      ∀ file mode result, e ≠ Event.dlopen file mode result) := by
  have htr : (load cfg os self sl portable_mode ec t).trace =
      t ++ (if self.is_loaded = true then [Event.dlclose self.handle_] else [])
        ++ [Event.dlerror] := by
    simp [load, hsl, reset_dlerror, unload_snd]
  refine ⟨?_, ?_, ?_, htr, ?_⟩
  · simp [load, hsl]
  · simp [load, hsl, unload_fst, is_loaded]
  · simp [load, hsl]
  · rw [htr]
    intro e he file mode result
    rw [List.append_assoc, List.drop_left] at he
    split at he <;> simp at he <;> rcases he with rfl | rfl <;> simp

/-- C3 (witness): a handle holding 7 is asked to load the empty path. -/
theorem load_empty_path_witness :
    path_empty [] = true ∧
    (load linux_glibc os_glibc { handle_ := 7 } [] 0 none []).trace
      = [Event.dlclose 7, Event.dlerror] :=
  ⟨rfl, by
    have h := (load_empty_path linux_glibc os_glibc { handle_ := 7 } [] 0 none [] rfl).2.2.2.1
    simpa [is_loaded] using h⟩

/-- C4: when `load` is entered with a clear error code and returns, the handle
is loaded exactly when the error code is still clear; a load that reports an
error always leaves the handle unloaded. -/
theorem load_loaded_iff_no_error (cfg : Platform) (os : OS) (self : shared_library_impl)
    (sl : path) (portable_mode : Nat) (t : List Event)
    (hret : (load cfg os self sl portable_mode none t).threw = false) :
    ((load cfg os self sl portable_mode none t).self.is_loaded = true ↔
      (load cfg os self sl portable_mode none t).ec = none) ∧
    ((load cfg os self sl portable_mode none t).ec ≠ none →
      (load cfg os self sl portable_mode none t).self.is_loaded = false) := by
  have main : (load cfg os self sl portable_mode none t).self.is_loaded = true ↔
      (load cfg os self sl portable_mode none t).ec = none := by
    revert hret
    unfold load
    simp only []
    split_ifs with h1
    · simp [unload_fst, is_loaded]
    · exact load_decorated_loaded_iff _ _ _ _ _
  refine ⟨main, ?_⟩
  intro hne
  cases hl : (load cfg os self sl portable_mode none t).self.is_loaded
  · rfl
  · exact absurd (main.mp hl) hne

/-- C4 (witness): on Linux, `plugin` is loaded with `append_decorations` by a
loader that accepts it; the call returns, loaded and with the code clear. -/
theorem load_loaded_iff_no_error_witness :
    (load linux_glibc os_glibc default_construct "plugin".toList
        load_mode.append_decorations none []).threw = false ∧
    ((load linux_glibc os_glibc default_construct "plugin".toList
        load_mode.append_decorations none []).self.is_loaded = true ↔
     (load linux_glibc os_glibc default_construct "plugin".toList
        load_mode.append_decorations none []).ec = none) :=
  ⟨by decide,
   (load_loaded_iff_no_error linux_glibc os_glibc default_construct "plugin".toList
      load_mode.append_decorations [] (by decide)).1⟩

/-- C5: after `unload()` the handle is not loaded; on a loaded handle the one
loader call made is `dlclose` on the held native handle, on an unloaded handle
no call is made and nothing changes; a second `unload()` changes nothing. -/
theorem unload_closes_once (self : shared_library_impl) (t : List Event) :
    (self.unload t).1.is_loaded = false ∧
    (if self.is_loaded = true
      then self.unload t = ({ handle_ := 0 }, t ++ [Event.dlclose self.handle_])
      else self.unload t = (self, t)) ∧
    (self.unload t).1.unload (self.unload t).2 = self.unload t := by
  rcases self with ⟨h⟩
  by_cases hh : h = 0 <;> simp [unload, is_loaded, hh]

/-- C6 (as stated, refuted): a loader that, like `dlopen`, answers a second
open of a file with the handle of the first. Two objects load the same file:
both hold handle 7 while alive, and once both are destroyed handle 7 has been
passed to `dlclose` twice. -/
theorem two_objects_hold_one_handle :
    run linux_glibc os_glibc Program.start
        [Op.default_construct, Op.default_construct,
         Op.load 0 "a".toList 0 none, Op.load 1 "a".toList 0 none]
      = some { objects := [some { handle_ := 7 }, some { handle_ := 7 }],
               trace := [Event.dlopen (some "./a".toList) 1 7, Event.dlerror,
                         Event.dlopen (some "./a".toList) 1 7, Event.dlerror] } ∧
    run linux_glibc os_glibc
        { objects := [some { handle_ := 7 }, some { handle_ := 7 }],
          trace := [Event.dlopen (some "./a".toList) 1 7, Event.dlerror,
                    Event.dlopen (some "./a".toList) 1 7, Event.dlerror] }
        [Op.destroy 0, Op.destroy 1]
      = some { objects := [none, none],
               trace := [Event.dlopen (some "./a".toList) 1 7, Event.dlerror,
                         Event.dlopen (some "./a".toList) 1 7, Event.dlerror,
                         Event.dlclose 7, Event.dlclose 7] } ∧
    holders 7 [some { handle_ := 7 }, some { handle_ := 7 }] = 2 ∧
    closes_of 7 [Event.dlopen (some "./a".toList) 1 7, Event.dlerror,
                 Event.dlopen (some "./a".toList) 1 7, Event.dlerror,
                 Event.dlclose 7, Event.dlclose 7] = 2 := by
  decide

/-- C6 (amended): over every sequence of operations from program start that
ends with every object destroyed, each non-null native handle has been passed
to `dlclose` as many times as `dlopen` returned it, and at every intermediate
point the live objects holding a handle and the `dlclose` calls on it add up to
the `dlopen` calls that returned it. When no two successful `dlopen` calls of
the run returned the same handle, this is the claim as stated: every returned
handle is closed exactly once, no handle is held by two live objects, and no
handle already closed is held by any object. -/
theorem handles_closed_as_often_as_opened (cfg : Platform) (os : OS)
    (ops1 ops2 : List Op) (mid fin : Program)
    (h1 : run cfg os Program.start ops1 = some mid)
    (h2 : run cfg os mid ops2 = some fin)
    (hall : all_destroyed fin = true) :
    (∀ h, h ≠ 0 → closes_of h fin.trace = opens_of h fin.trace) ∧
    (∀ h, h ≠ 0 → holders h mid.objects + closes_of h mid.trace = opens_of h mid.trace) ∧
    ((opened_handles fin.trace).Nodup →
      (∀ h ∈ opened_handles fin.trace, closes_of h fin.trace = 1) ∧
      (∀ h, h ≠ 0 → holders h mid.objects ≤ 1) ∧
      (∀ h, h ≠ 0 → 1 ≤ closes_of h mid.trace → holders h mid.objects = 0)) := by
  obtain ⟨bmid, _⟩ := run_balanced cfg os ops1 _ _ h1 balanced_start
  obtain ⟨bfin, pfx⟩ := run_balanced cfg os ops2 _ _ h2 bmid
  have hfin : ∀ h, h ≠ 0 → closes_of h fin.trace = opens_of h fin.trace := by
    intro h hh
    have := bfin h hh
    rw [holders_of_all_destroyed fin hall h] at this
    omega
  refine ⟨hfin, bmid, ?_⟩
  intro hnd
  have hmidnd : (opened_handles mid.trace).Nodup :=
    List.Nodup.sublist (List.IsPrefix.filterMap _ pfx).sublist hnd
  have hle : ∀ h, h ≠ 0 → opens_of h mid.trace ≤ 1 := by
    intro h hh
    rw [opens_of_eq_count _ h hh]
    exact List.nodup_iff_count_le_one.mp hmidnd h
  refine ⟨?_, ?_, ?_⟩
  · intro h hm
    have hh := mem_opened_handles_ne_zero _ h hm
    rw [hfin h hh, opens_of_eq_count _ h hh]
    have h1 := List.nodup_iff_count_le_one.mp hnd h
    have h2 := List.count_pos_iff.mpr hm
    omega
  · intro h hh
    have := bmid h hh
    have := hle h hh
    omega
  · intro h hh hc
    have := bmid h hh
    have := hle h hh
    omega

/-- C6 (witness): three objects, two libraries opened to distinct handles,
moved, swapped and unloaded; every object is destroyed at the end and each of
the two handles has been closed once. -/
theorem handles_closed_as_often_as_opened_witness :
    run linux_glibc os_fresh Program.start sample_ops_first = some sample_mid ∧
    run linux_glibc os_fresh sample_mid sample_ops_second = some sample_fin ∧
    all_destroyed sample_fin = true ∧
    (opened_handles sample_fin.trace).Nodup ∧
    (∀ h ∈ opened_handles sample_fin.trace, closes_of h sample_fin.trace = 1) :=
  ⟨by decide, by decide, by decide, by decide,
   ((handles_closed_as_often_as_opened linux_glibc os_fresh sample_ops_first
      sample_ops_second sample_mid sample_fin (by decide) (by decide) (by decide)).2.2
      (by decide)).1⟩

/-- C7: move construction gives the new object the native handle of the
source, leaves the source unloaded, and makes no loader call. -/
theorem move_construct_transfers (sl : shared_library_impl) (t : List Event) :
    (move_construct sl t).1.native = sl.native ∧
    (move_construct sl t).2.1.is_loaded = false ∧
    (move_construct sl t).2.2 = t := by
  simp [move_construct, native, is_loaded]

/-- C8 (as stated, refuted): the destination holds 5 and the source 7; after
the move assignment the source holds 5 and is still loaded. -/
theorem move_assign_source_still_loaded :
    (move_assign { handle_ := 5 } { handle_ := 7 } []).1.native = 7 ∧
    (move_assign { handle_ := 5 } { handle_ := 7 } []).2.1.native = 5 ∧
    ¬ ((move_assign { handle_ := 5 } { handle_ := 7 } []).2.1.is_loaded = false) := by
  decide

/-- C8 (amended): after `d = move(s)` the destination holds the native handle
the source held and the source holds the native handle the destination held,
so the source is unloaded exactly when the destination was unloaded before. -/
theorem move_assign_exchanges (self sl : shared_library_impl) (t : List Event) :
    (move_assign self sl t).1.native = sl.native ∧
    (move_assign self sl t).2.1.native = self.native ∧
    (move_assign self sl t).2.1.is_loaded = self.is_loaded := by
  simp [move_assign, swap, native, is_loaded]

/-- C9: `symbol_addr` makes one `dlsym` call on the held native handle and the
name, returns its answer, sets the error code to `invalid_seek` when the answer
is null and leaves the error code as it was otherwise. -/
theorem symbol_addr_result (os : OS) (self : shared_library_impl) (sb : List Char)
    (ec : error_code) (t : List Event) :
    (symbol_addr os self sb ec t).1 = os.dlsym t self.native sb ∧
    (symbol_addr os self sb ec t).2.1 =
      (if os.dlsym t self.native sb = 0 then some errc.invalid_seek else ec) ∧
    (symbol_addr os self sb ec t).2.2 =
      t ++ [Event.dlsym self.native sb (os.dlsym t self.native sb)] := by
  simp [symbol_addr, native]

/-- C10 (as stated, refuted): a handle that is not loaded asks for `printf`
from a loader that searches the default scope for the null handle; the
address 4096 is returned and the error code stays clear. -/
theorem symbol_addr_unloaded_finds_symbol :
    default_construct.is_loaded = false ∧
    (symbol_addr os_glibc default_construct "printf".toList none []).1 = 4096 ∧
    (symbol_addr os_glibc default_construct "printf".toList none []).2.1 = none ∧
    ¬ ((symbol_addr os_glibc default_construct "printf".toList none []).1 = 0 ∧
       (symbol_addr os_glibc default_construct "printf".toList none []).2.1
         = some errc.invalid_seek) := by
  decide

/-- C10 (amended): on a handle that is not loaded, `symbol_addr` hands the null
native handle to `dlsym` and returns its answer; it fails with `invalid_seek`
and a null address exactly when that answer is null, otherwise the address is
returned and the error code is left as it was. -/
theorem symbol_addr_unloaded (os : OS) (self : shared_library_impl) (sb : List Char)
    (ec : error_code) (t : List Event) (h : self.is_loaded = false) :
    (symbol_addr os self sb ec t).1 = os.dlsym t 0 sb ∧
    (symbol_addr os self sb ec t).2.1 =
      (if os.dlsym t 0 sb = 0 then some errc.invalid_seek else ec) ∧
    (symbol_addr os self sb ec t).2.2 = t ++ [Event.dlsym 0 sb (os.dlsym t 0 sb)] := by
  have h0 : self.handle_ = 0 := by simpa [is_loaded] using h
  simp [symbol_addr, h0]

/-- C10 (witness): a loader that resolves nothing through the null handle. -/
theorem symbol_addr_unloaded_witness :
    default_construct.is_loaded = false ∧
    (symbol_addr os_refuse default_construct "plugin".toList none []).1 = 0 ∧
    (symbol_addr os_refuse default_construct "plugin".toList none []).2.1
      = some errc.invalid_seek :=
  ⟨rfl, by
    have h := symbol_addr_unloaded os_refuse default_construct "plugin".toList none [] rfl
    exact ⟨h.1, h.2.1⟩⟩

/-- C11: with the loader flags on separate bits, `load` of a non-empty path
makes at least one `dlopen` call, and the mode of every `dlopen` call it makes
has the `rtld_now` and `rtld_global` bits exactly as requested, has
`rtld_lazy` when the request lacks `rtld_now` (and the requested lazy bits
otherwise), and has `rtld_local` when the request lacks `rtld_global` (and the
requested local bits otherwise). -/
theorem load_native_mode_flags (cfg : Platform) (os : OS) (self : shared_library_impl)
    (sl : path) (pm : Nat) (ec : error_code) (t : List Event)
    (hd : flags_disjoint cfg) (hne : path_empty sl = false) :
    dlopen_modes (new_events t (load cfg os self sl pm ec t).trace) ≠ [] ∧
    ∀ x ∈ dlopen_modes (new_events t (load cfg os self sl pm ec t).trace),
      x &&& load_mode.rtld_now cfg = (pm % int_modulus) &&& load_mode.rtld_now cfg ∧
      x &&& load_mode.rtld_global cfg = (pm % int_modulus) &&& load_mode.rtld_global cfg ∧
      x &&& load_mode.rtld_lazy cfg
        = (if (pm % int_modulus) &&& load_mode.rtld_now cfg = 0 then load_mode.rtld_lazy cfg
           else (pm % int_modulus) &&& load_mode.rtld_lazy cfg) ∧
      x &&& load_mode.rtld_local cfg
        = (if (pm % int_modulus) &&& load_mode.rtld_global cfg = 0
           then load_mode.rtld_local cfg
           else (pm % int_modulus) &&& load_mode.rtld_local cfg) := by
  obtain ⟨k0, _, k2, _⟩ := load_new_events cfg os self sl pm ec t
  rw [dlopen_modes_new_events_unload self t _ k0]
  refine ⟨load_opens_something cfg os self sl pm ec t hne, ?_⟩
  intro x hx
  rw [k2 x hx]
  exact native_mode_flags cfg hd pm

/-- C11 (witness): on Linux with glibc a default-mode load of `plugin` opens
`./plugin` once, in mode `RTLD_LAZY | RTLD_LOCAL`, which is 1. -/
theorem load_native_mode_flags_witness :
    flags_disjoint linux_glibc ∧ path_empty "plugin".toList = false ∧
    dlopen_modes (new_events []
      (load linux_glibc os_glibc default_construct "plugin".toList 0 none []).trace) = [1] ∧
    ∀ x ∈ dlopen_modes (new_events []
        (load linux_glibc os_glibc default_construct "plugin".toList 0 none []).trace),
      x &&& load_mode.rtld_lazy linux_glibc = load_mode.rtld_lazy linux_glibc :=
  ⟨flags_disjoint_linux_glibc, by decide, by decide, fun x hx =>
    ((load_native_mode_flags linux_glibc os_glibc default_construct "plugin".toList 0 none []
      flags_disjoint_linux_glibc (by decide)).2 x hx).2.2.1⟩

/-- C12: a non-empty path is loaded with `append_decorations`. Write `t0` for
the trace after the release of the old handle, `p` for the path as `load`
hands it to `decorate` and `dlopen`, `d` for `decorate(p)`, `N` for the native
mode and `h` for the answer of `dlopen(d, N)`. That `dlopen` is the first call
after the release. If `h` is not null, `load` ends loaded with `h` and makes
no other `dlopen`. If `h` is null, `d` exists and `p` is not equivalent to the
running program, `load` reports `executable_format_error`, makes no further
call and ends unloaded. If `h` is null and `d` does not exist, or `p` is
equivalent to the running program, `load` goes on with the `dlopen` of `p`. -/
theorem load_decorated_first (cfg : Platform) (os : OS) (self : shared_library_impl)
    (sl : path) (pm : Nat) (ec : error_code) (t : List Event)
    (t0 : List Event) (p d : path) (N : Nat) (h : native_handle_t) (t1 : List Event)
    (ht0 : t0 = (self.unload t).2) (hp : p = load_path cfg os sl pm t0)
    (hd : d = decorate cfg p) (hN : N = native_mode_of cfg pm)
    (hh : h = os.dlopen t0 (some d) N) (ht1 : t1 = t0 ++ [Event.dlopen (some d) N h])
    (hne : path_empty sl = false)
    (hdec : (pm % int_modulus) &&& load_mode.append_decorations ≠ 0) :
    t1 <+: (load cfg os self sl pm ec t).trace ∧
    (h ≠ 0 →
      load cfg os self sl pm ec t =
        { self := { handle_ := h }, ec := ec, trace := t1 ++ [Event.dlerror],
          threw := false }) ∧
    (h = 0 → os.fs_exists t1 d = some true →
      (os.equivalent t1 p (program_location_impl cfg os t1).1).1 = false →
      load cfg os self sl pm ec t =
        { self := { handle_ := 0 }, ec := some errc.executable_format_error, trace := t1,
          threw := false }) ∧
    (h = 0 →
      (os.fs_exists t1 d = some false ∨
        (os.fs_exists t1 d = some true ∧
          (os.equivalent t1 p (program_location_impl cfg os t1).1).1 = true)) →
      load cfg os self sl pm ec t = load_exact cfg os p N ec t1 ∧
      t1 ++ [Event.dlopen (some p) N (os.dlopen t1 (some p) N)]
        <+: (load cfg os self sl pm ec t).trace) :=
  load_decorations_outcomes cfg os self sl pm ec t t0 p d N h t1 ht0 hp hd hN hh ht1 hne hdec

/-- C12 (witness): on Linux, `plugin` is loaded with `append_decorations` while
no file can be opened and no decorated file exists: `./libplugin.so` is tried
first, then `./plugin`. -/
theorem load_decorated_first_witness :
    path_empty "plugin".toList = false ∧
    (load_mode.append_decorations % int_modulus) &&& load_mode.append_decorations ≠ 0 ∧
    [Event.dlopen (some "./libplugin.so".toList) 1 0]
      <+: (load linux_glibc os_refuse default_construct "plugin".toList
            load_mode.append_decorations none []).trace ∧
    [Event.dlopen (some "./libplugin.so".toList) 1 0] ++ [Event.dlopen (some "./plugin".toList) 1 0]
      <+: (load linux_glibc os_refuse default_construct "plugin".toList
            load_mode.append_decorations none []).trace :=
  ⟨by decide, by decide,
   (load_decorated_first linux_glibc os_refuse default_construct "plugin".toList
      load_mode.append_decorations none [] [] "./plugin".toList "./libplugin.so".toList 1 0
      [Event.dlopen (some "./libplugin.so".toList) 1 0]
      (by decide) (by decide) (by decide) (by decide) (by decide) (by decide) (by decide)
      (by decide)).1,
   ((load_decorated_first linux_glibc os_refuse default_construct "plugin".toList
      load_mode.append_decorations none [] [] "./plugin".toList "./libplugin.so".toList 1 0
      [Event.dlopen (some "./libplugin.so".toList) 1 0]
      (by decide) (by decide) (by decide) (by decide) (by decide) (by decide) (by decide)
      (by decide)).2.2.2 rfl (Or.inl rfl)).2⟩

/-- C13 (as stated, refuted): on Linux the plain name `myplugin` is loaded
with `append_decorations`; no decorated file exists and the loader rejects
the decorated name, yet `load` succeeds, through the undecorated `./myplugin`. -/
theorem load_succeeds_without_decorated_file :
    has_parent_path "myplugin".toList = false ∧
    (load linux_glibc os_undecorated default_construct "myplugin".toList
      load_mode.append_decorations none []).self.is_loaded = true ∧
    (load linux_glibc os_undecorated default_construct "myplugin".toList
      load_mode.append_decorations none []).ec = none ∧
    (load linux_glibc os_undecorated default_construct "myplugin".toList
      load_mode.append_decorations none []).trace
      = [Event.dlopen (some "./libmyplugin.so".toList) 1 0,
         Event.dlopen (some "./myplugin".toList) 1 5, Event.dlerror] ∧
    os_undecorated.fs_exists [Event.dlopen (some "./libmyplugin.so".toList) 1 0]
      "./libmyplugin.so".toList = some false ∧
    os_undecorated.fs_exists [Event.dlopen (some "./libmyplugin.so".toList) 1 0]
      (decorate linux_glibc "myplugin".toList) = some false ∧
    os_undecorated.dlopen [] (some (decorate linux_glibc "myplugin".toList)) 1 = 0 := by
  decide

/-- C13 (amended): a non-empty path, a plain name in particular, is loaded
with `append_decorations`; `p`, `d`, `N`, `h` are as in C12. `load` ends loaded
exactly when the loader accepts the decorated file (`h` not null), or rejects
it while the decorated file is absent (or `p` is equivalent to the running
program) and the fallback on the undecorated path ends loaded. When the
loader rejects a decorated file that exists and `p` is not equivalent to the
running program, `load` ends unloaded with `executable_format_error`, which is
not the `bad_file_descriptor` of an invalid path. -/
theorem load_plain_name_decorated (cfg : Platform) (os : OS) (self : shared_library_impl)
    (sl : path) (pm : Nat) (ec : error_code) (t : List Event)
    (t0 : List Event) (p d : path) (N : Nat) (h : native_handle_t) (t1 : List Event)
    (ht0 : t0 = (self.unload t).2) (hp : p = load_path cfg os sl pm t0)
    (hd : d = decorate cfg p) (hN : N = native_mode_of cfg pm)
    (hh : h = os.dlopen t0 (some d) N) (ht1 : t1 = t0 ++ [Event.dlopen (some d) N h])
    (hne : path_empty sl = false)
    (hdec : (pm % int_modulus) &&& load_mode.append_decorations ≠ 0) :
    ((load cfg os self sl pm ec t).self.is_loaded = true ↔
      (h ≠ 0 ∨
        (h = 0 ∧
          (os.fs_exists t1 d = some false ∨
            (os.fs_exists t1 d = some true ∧
              (os.equivalent t1 p (program_location_impl cfg os t1).1).1 = true)) ∧
          (load_exact cfg os p N ec t1).self.is_loaded = true))) ∧
    (h = 0 → os.fs_exists t1 d = some true →
      (os.equivalent t1 p (program_location_impl cfg os t1).1).1 = false →
      (load cfg os self sl pm ec t).ec = some errc.executable_format_error ∧
      (load cfg os self sl pm ec t).ec ≠ some errc.bad_file_descriptor ∧
      (load cfg os self sl pm ec t).self.is_loaded = false) := by
  obtain ⟨_, o1, o2, o3⟩ := load_decorations_outcomes cfg os self sl pm ec t t0 p d N h t1
    ht0 hp hd hN hh ht1 hne hdec
  refine ⟨?_, ?_⟩
  · by_cases h0 : h = 0
    · have hload := load_of_nonempty cfg os self sl pm ec t hne
      have hbit := append_bit_kept cfg pm hdec
      obtain ⟨_, c2⟩ := load_decorated_cases cfg os p
        (fix_modes cfg (pm % int_modulus) &&& bit_not load_mode.search_system_folders) ec t0 hbit
      have hN' : (fix_modes cfg (pm % int_modulus) &&& bit_not load_mode.search_system_folders)
          &&& bit_not load_mode.append_decorations = N := by rw [hN]; rfl
      rw [hN', ← hd, ← hh] at c2
      obtain ⟨d1, _, _⟩ := c2 h0
      have ht1' := ht1
      rw [h0] at ht1'
      rw [← ht1'] at d1
      rw [← ht0, ← hp] at hload
      cases hfs : os.fs_exists t1 d with
      | none =>
        rw [hload, d1 hfs]
        simp [is_loaded, h0]
      | some found =>
        cases found with
        | false =>
          rw [(o3 h0 (Or.inl hfs)).1]
          simp [h0]
        | true =>
          cases heq : (os.equivalent t1 p (program_location_impl cfg os t1).1).1 with
          | false =>
            rw [o2 h0 hfs heq]
            simp [is_loaded, h0]
          | true =>
            rw [(o3 h0 (Or.inr ⟨hfs, heq⟩)).1]
            simp [h0]
    · rw [o1 h0]
      simp [is_loaded, h0]
  · intro h0 hfs heq
    rw [o2 h0 hfs heq]
    simp [is_loaded]

/-- C13 (witness): on Linux, `plugin` is loaded with `append_decorations` by a
loader that accepts `./libplugin.so`. -/
theorem load_plain_name_decorated_witness :
    path_empty "plugin".toList = false ∧ has_parent_path "plugin".toList = false ∧
    (load_mode.append_decorations % int_modulus) &&& load_mode.append_decorations ≠ 0 ∧
    (load linux_glibc os_glibc default_construct "plugin".toList
      load_mode.append_decorations none []).self.is_loaded = true :=
  ⟨by decide, by decide, by decide,
   (load_plain_name_decorated linux_glibc os_glibc default_construct "plugin".toList
      load_mode.append_decorations none [] [] "./plugin".toList "./libplugin.so".toList 1 7
      [Event.dlopen (some "./libplugin.so".toList) 1 7]
      (by decide) (by decide) (by decide) (by decide) (by decide) (by decide) (by decide)
      (by decide)).1.mpr (Or.inl (by decide))⟩

/-- C15: `load` first releases the handle held before: its loader calls are
one `dlclose` of that handle when the object was loaded and none otherwise,
followed by calls among which there is no `dlclose`; the handle held when
`load` is over is null or the answer of a `dlopen` made after the release. -/
theorem load_releases_first (cfg : Platform) (os : OS) (self : shared_library_impl)
    (sl : path) (pm : Nat) (ec : error_code) (t : List Event) :
    (load cfg os self sl pm ec t).trace =
      (t ++ (if self.is_loaded = true then [Event.dlclose self.handle_] else []))
        ++ new_events (self.unload t).2 (load cfg os self sl pm ec t).trace ∧
    dlclose_handles (new_events (self.unload t).2 (load cfg os self sl pm ec t).trace) = [] ∧
    dlclose_handles (new_events t (load cfg os self sl pm ec t).trace)
      = (if self.is_loaded = true then [self.handle_] else []) ∧
    ((load cfg os self sl pm ec t).self.is_loaded = false ∨
      (load cfg os self sl pm ec t).self.handle_ ∈
        opened_handles (new_events (self.unload t).2 (load cfg os self sl pm ec t).trace)) := by
  obtain ⟨k0, k1, _, k3⟩ := load_new_events cfg os self sl pm ec t
  have hsplit : (load cfg os self sl pm ec t).trace =
      (self.unload t).2 ++ new_events (self.unload t).2 (load cfg os self sl pm ec t).trace := by
    obtain ⟨b, hb⟩ := k0
    rw [← hb, new_events_append]
  refine ⟨?_, k1, ?_, ?_⟩
  · rw [← unload_snd]; exact hsplit
  · have h2 := k0
    rw [unload_snd] at h2
    rw [new_events_split _ _ _ h2, ← unload_snd]
    simp only [dlclose_handles, List.filterMap_append] at k1 ⊢
    rw [k1]
    split <;> simp
  · rcases k3 with k3 | k3
    · left; simp [is_loaded, k3]
    · right; exact k3

/-- C16: the three Windows-only flags are 0, as is `default_mode`; or-ing one
of them into a mode gives the same mode, and `load` with the combined mode is
`load` with the mode itself. -/
theorem windows_flags_ignored (cfg : Platform) (os : OS) (self : shared_library_impl)
    (sl : path) (m : Nat) (ec : error_code) (t : List Event) (hm : m < int_modulus) :
    load_mode.dont_resolve_dll_references = load_mode.default_mode ∧
    load_mode.load_ignore_code_authz_level = load_mode.default_mode ∧
    load_mode.load_with_altered_search_path = load_mode.default_mode ∧
    load_mode.default_mode = 0 ∧
    load_mode.bit_or m load_mode.dont_resolve_dll_references = m ∧
    load_mode.bit_or m load_mode.load_ignore_code_authz_level = m ∧
    load_mode.bit_or m load_mode.load_with_altered_search_path = m ∧
    load cfg os self sl (load_mode.bit_or m load_mode.dont_resolve_dll_references) ec t
      = load cfg os self sl m ec t ∧
    load cfg os self sl (load_mode.bit_or m load_mode.load_ignore_code_authz_level) ec t
      = load cfg os self sl m ec t ∧
    load cfg os self sl (load_mode.bit_or m load_mode.load_with_altered_search_path) ec t
      = load cfg os self sl m ec t := by
  have h0 : ∀ f, f = 0 → load_mode.bit_or m f = m := by
    intro f hf
    subst hf
    unfold load_mode.bit_or
    rw [Nat.mod_eq_of_lt hm]
    simp
  have h1 := h0 load_mode.dont_resolve_dll_references rfl
  have h2 := h0 load_mode.load_ignore_code_authz_level rfl
  have h3 := h0 load_mode.load_with_altered_search_path rfl
  exact ⟨rfl, rfl, rfl, rfl, h1, h2, h3, by rw [h1], by rw [h2], by rw [h3]⟩

/-- C16 (witness): `rtld_now | rtld_global` on Linux with glibc. -/
theorem windows_flags_ignored_witness :
    (0x102 : Nat) < int_modulus ∧
    load_mode.bit_or 0x102 load_mode.dont_resolve_dll_references = 0x102 :=
  ⟨by decide,
   (windows_flags_ignored linux_glibc os_glibc default_construct "plugin".toList 0x102 none []
      (by decide)).2.2.2.2.1⟩

/-- C17 (as stated, refuted): on a file that cannot be opened no reader is
asked, so no detection succeeds, and construction fails with the failure of
the stream, not with `Unsupported binary format`; the same holds for an empty
file, on which the first read of the ELF32 reader fails. -/
theorem construct_unreadable_file_raises :
    (library_info_construct host_linux64 sample_readers none true).probes = [] ∧
    (library_info_construct host_linux64 sample_readers none true).result
      = Except.error Exn.ios_failure ∧
    ¬ ((library_info_construct host_linux64 sample_readers none true).result
        = Except.error (Exn.runtime_error "Unsupported binary format")) ∧
    (library_info_construct host_linux64 sample_readers (some []) true).probes
      = [(fmt.fmt_elf_info32, none)] ∧
    (library_info_construct host_linux64 sample_readers (some []) true).result
      = Except.error Exn.ios_failure ∧
    ¬ ((library_info_construct host_linux64 sample_readers (some []) true).result
        = Except.error (Exn.runtime_error "Unsupported binary format")) := by
  refine ⟨rfl, rfl, ?_, rfl, rfl, ?_⟩
  · intro h
    have h2 : (library_info_construct host_linux64 sample_readers none true).result
        = Except.error Exn.ios_failure := rfl
    rw [h2] at h
    injection h with h
    cases h
  · intro h
    have h2 : (library_info_construct host_linux64 sample_readers (some []) true).result
        = Except.error Exn.ios_failure := rfl
    rw [h2] at h
    injection h with h
    cases h

/-- C17 (amended): construction on a file that could not be opened fails with
the failure of the stream and asks no reader. On an opened file the readers
are asked in the order ELF32, ELF64, PE32, PE64, Mach-O32, Mach-O64, each on
the stream as the one before left it. When the readers before `x` answer no
and `x` detects its format, the format of `x` is selected (subject to the
native check; without that check construction succeeds with `x`) and no
reader after `x` is asked; when instead the read of `x` fails, construction
fails with the failure of the stream. When all six answer no, construction
fails with `Unsupported binary format`, and it fails so in no other case. -/
theorem construct_selects_first_match {σ : Type} (host : Host)
    (ps : fmt → σ → Option Bool × σ) (f_ : σ) (throw_if_not_native : Bool) :
    (library_info_construct host ps none throw_if_not_native).result
      = Except.error Exn.ios_failure ∧
    (library_info_construct host ps none throw_if_not_native).probes = [] ∧
    (∀ pre x post, reader_order = pre ++ x :: post →
      (∀ pre1 y post1, pre = pre1 ++ y :: post1 → detect ps f_ pre1 y = some false) →
      (detect ps f_ pre x = some true →
        (library_info_construct host ps (some f_) throw_if_not_native).result
          = select_format host throw_if_not_native x ∧
        (throw_if_not_native = false →
          (library_info_construct host ps (some f_) throw_if_not_native).result
            = Except.ok x) ∧
        (library_info_construct host ps (some f_) throw_if_not_native).probes
          = pre.map (fun y => (y, some false)) ++ [(x, some true)]) ∧
      (detect ps f_ pre x = none →
        (library_info_construct host ps (some f_) throw_if_not_native).result
          = Except.error Exn.ios_failure ∧
        (library_info_construct host ps (some f_) throw_if_not_native).probes
          = pre.map (fun y => (y, some false)) ++ [(x, none)])) ∧
    ((∀ pre1 y post1, reader_order = pre1 ++ y :: post1 →
        detect ps f_ pre1 y = some false) →
      (library_info_construct host ps (some f_) throw_if_not_native).result
        = Except.error (Exn.runtime_error "Unsupported binary format") ∧
      (library_info_construct host ps (some f_) throw_if_not_native).probes
        = reader_order.map (fun y => (y, some false))) ∧
    ((library_info_construct host ps (some f_) throw_if_not_native).result
        = Except.error (Exn.runtime_error "Unsupported binary format") →
      ∀ pre1 y post1, reader_order = pre1 ++ y :: post1 →
        detect ps f_ pre1 y = some false) := by
  have hdef : library_info_construct host ps (some f_) throw_if_not_native
      = init_from host ps throw_if_not_native reader_order f_ [] := rfl
  have hmatch : ∀ pre x post, reader_order = pre ++ x :: post →
      (∀ pre1 y post1, pre = pre1 ++ y :: post1 → detect ps f_ pre1 y = some false) →
      (detect ps f_ pre x = some true →
        library_info_construct host ps (some f_) throw_if_not_native =
          { result := select_format host throw_if_not_native x,
            probes := pre.map (fun y => (y, some false)) ++ [(x, some true)] }) ∧
      (detect ps f_ pre x = none →
        library_info_construct host ps (some f_) throw_if_not_native =
          { result := Except.error Exn.ios_failure,
            probes := pre.map (fun y => (y, some false)) ++ [(x, none)] }) := by
    intro pre x post hro hpre
    rw [hdef, hro, init_from_skip host ps throw_if_not_native pre (x :: post) f_ [] hpre]
    have hh := init_from_head host ps throw_if_not_native x post (stream_after ps pre f_)
      ([] ++ pre.map (fun y => (y, some false)))
    simp only [List.nil_append] at hh ⊢
    exact hh
  have hnone : (∀ pre1 y post1, reader_order = pre1 ++ y :: post1 →
        detect ps f_ pre1 y = some false) →
      library_info_construct host ps (some f_) throw_if_not_native =
        { result := Except.error (Exn.runtime_error "Unsupported binary format"),
          probes := reader_order.map (fun y => (y, some false)) } := by
    intro hall
    have := init_from_skip host ps throw_if_not_native reader_order [] f_ [] hall
    rw [List.append_nil] at this
    rw [hdef, this]
    simp [init_from]
  refine ⟨rfl, rfl, ?_, ?_, ?_⟩
  · intro pre x post hro hpre
    obtain ⟨m1, m2⟩ := hmatch pre x post hro hpre
    refine ⟨fun hx => ?_, fun hx => ?_⟩
    · rw [m1 hx]
      refine ⟨rfl, ?_, rfl⟩
      intro hf
      subst hf
      rfl
    · rw [m2 hx]
      exact ⟨rfl, rfl⟩
  · intro hall
    rw [hnone hall]
    exact ⟨rfl, rfl⟩
  · intro hres
    rcases first_answer ps reader_order f_ with hall | ⟨pre, x, post, hro, hpre, hx⟩
    · exact hall
    · exfalso
      obtain ⟨m1, m2⟩ := hmatch pre x post hro hpre
      rcases hd : detect ps f_ pre x with _ | b
      · rw [m2 hd] at hres
        injection hres with hres
        cases hres
      · cases b with
        | false => exact hx hd
        | true =>
          rw [m1 hd] at hres
          exact select_format_ne_unsupported host throw_if_not_native x hres

/-- C19 (as stated, refuted): with the glibc loader `plugin` is imported
twice from the same library. Each call opens the library and gets handle 7.
Destroying the first value closes handle 7 while the second value, which
holds handle 7, is alive; destroying the second closes it again, so the
handle is closed twice, not once. -/
theorem second_import_handle_closed_early :
    (import_run linux_glibc os_glibc Importer.start
      [ImportOp.call_import "plugin".toList "plugin".toList load_mode.append_decorations,
       ImportOp.call_import "plugin".toList "plugin".toList load_mode.append_decorations,
       ImportOp.drop 0]
      = some { cells := [{ lib := none, use_count := 0 },
                         { lib := some { handle_ := 7 }, use_count := 1 }],
               trace := [Event.dlopen (some "./libplugin.so".toList) 1 7, Event.dlerror,
                         Event.dlsym 7 "plugin".toList 8192,
                         Event.dlopen (some "./libplugin.so".toList) 1 7, Event.dlerror,
                         Event.dlsym 7 "plugin".toList 8192,
                         Event.dlclose 7] }) ∧
    (import_run linux_glibc os_glibc Importer.start
      [ImportOp.call_import "plugin".toList "plugin".toList load_mode.append_decorations,
       ImportOp.call_import "plugin".toList "plugin".toList load_mode.append_decorations,
       ImportOp.drop 0, ImportOp.drop 1]
      = some { cells := [{ lib := none, use_count := 0 }, { lib := none, use_count := 0 }],
               trace := [Event.dlopen (some "./libplugin.so".toList) 1 7, Event.dlerror,
                         Event.dlsym 7 "plugin".toList 8192,
                         Event.dlopen (some "./libplugin.so".toList) 1 7, Event.dlerror,
                         Event.dlsym 7 "plugin".toList 8192,
                         Event.dlclose 7, Event.dlclose 7] }) ∧
    closes_of 7 [Event.dlopen (some "./libplugin.so".toList) 1 7, Event.dlerror,
                 Event.dlsym 7 "plugin".toList 8192,
                 Event.dlopen (some "./libplugin.so".toList) 1 7, Event.dlerror,
                 Event.dlsym 7 "plugin".toList 8192,
                 Event.dlclose 7, Event.dlclose 7] = 2 := by
  decide

/-- C19 (amended): every call of `import` that returns makes a control block
of its own over the library that call opened. After any statements from
program start: a control block has one owner, plus the copies, minus the
destructions of its values; while a value of it is left its library is alive
and loaded, and its handle was opened more often than closed; once the last
value is destroyed the library is destroyed. For every non-null handle the
control blocks holding it and the `dlclose` calls on it add up to the `dlopen`
calls that returned it, so once every value is destroyed each handle is
closed as often as it was opened. When no two `dlopen` calls returned the
same handle, this is the claim as stated: the handle of a value that is alive
is not closed, and a handle no value holds any more was closed exactly once. -/
theorem imported_values_share_library (cfg : Platform) (os : OS) (ops : List ImportOp)
    (fin : Importer) (hrun : import_run cfg os Importer.start ops = some fin) :
    (∀ (i : Nat) (c : SharedCell), fin.cells[i]? = some c →
      c.use_count + drops_of i ops = 1 + copies_of i ops ∧
      (drops_of i ops ≤ copies_of i ops →
        ∃ sl, c.lib = some sl ∧ sl.is_loaded = true ∧
          closes_of sl.handle_ fin.trace < opens_of sl.handle_ fin.trace) ∧
      (drops_of i ops = copies_of i ops + 1 → c.lib = none)) ∧
    (∀ h, h ≠ 0 → cell_holders h fin.cells + closes_of h fin.trace = opens_of h fin.trace) ∧
    ((∀ (i : Nat) (c : SharedCell), fin.cells[i]? = some c →
        drops_of i ops = copies_of i ops + 1) →
      ∀ h, h ≠ 0 → closes_of h fin.trace = opens_of h fin.trace) ∧
    ((opened_handles fin.trace).Nodup →
      (∀ (i : Nat) (c : SharedCell) (sl : shared_library_impl),
        fin.cells[i]? = some c → c.lib = some sl → closes_of sl.handle_ fin.trace = 0) ∧
      (∀ h ∈ opened_handles fin.trace, cell_holders h fin.cells = 0 →
        closes_of h fin.trace = 1) ∧
      (∀ h, h ≠ 0 → cell_holders h fin.cells ≤ 1)) := by
  obtain ⟨⟨hcells, hbal⟩, _⟩ := import_run_ok cfg os ops _ _ hrun importer_ok_start
  have hcount : ∀ (i : Nat) (c : SharedCell), fin.cells[i]? = some c →
      c.use_count + drops_of i ops = 1 + copies_of i ops := by
    intro i c hi
    exact (import_run_counts cfg os ops _ _ hrun i c hi).2 (by simp [Importer.start])
  have hlive : ∀ (i : Nat) (c : SharedCell) (sl : shared_library_impl),
      fin.cells[i]? = some c → c.lib = some sl →
      sl.handle_ ≠ 0 ∧ 1 ≤ cell_holders sl.handle_ fin.cells := by
    intro i c sl hi hl
    have hm : c ∈ fin.cells := List.getElem?_mem hi
    have hld := (hcells c hm).2 sl hl
    refine ⟨by simpa [is_loaded] using hld, cell_holders_pos _ _ c sl hm hl rfl⟩
  refine ⟨?_, hbal, ?_, ?_⟩
  · intro i c hi
    have hm : c ∈ fin.cells := List.getElem?_mem hi
    have hc := hcount i c hi
    refine ⟨hc, ?_, ?_⟩
    · intro hle
      cases hl : c.lib with
      | none =>
        have := (hcells c hm).1.mpr hl
        omega
      | some sl =>
        obtain ⟨h0, h1⟩ := hlive i c sl hi hl
        have := hbal sl.handle_ h0
        exact ⟨sl, rfl, (hcells c hm).2 sl hl, by omega⟩
    · intro heq
      exact (hcells c hm).1.mp (by omega)
  · intro hall h hh
    have hz : cell_holders h fin.cells = 0 := by
      apply cell_holders_of_no_lib
      intro c hc
      obtain ⟨i, hi⟩ := List.getElem?_of_mem hc
      have := hcount i c hi
      have := hall i c hi
      exact (hcells c hc).1.mp (by omega)
    have := hbal h hh
    omega
  · intro hnd
    have hle : ∀ h, h ≠ 0 → opens_of h fin.trace ≤ 1 := by
      intro h hh
      rw [opens_of_eq_count _ h hh]
      exact List.nodup_iff_count_le_one.mp hnd h
    refine ⟨?_, ?_, ?_⟩
    · intro i c sl hi hl
      obtain ⟨h0, h1⟩ := hlive i c sl hi hl
      have := hbal sl.handle_ h0
      have := hle sl.handle_ h0
      omega
    · intro h hm hz
      have hh := mem_opened_handles_ne_zero _ h hm
      have := hbal h hh
      rw [opens_of_eq_count _ h hh] at this
      have h1 := List.nodup_iff_count_le_one.mp hnd h
      have h2 := List.count_pos_iff.mpr hm
      omega
    · intro h hh
      have := hbal h hh
      have := hle h hh
      omega

/-- C19 (witness): `plugin` is imported, the value copied and one of the two
destroyed: handle 7 is not closed; once the other is destroyed too, handle 7
is closed once. -/
theorem imported_values_share_library_witness :
    (import_run linux_glibc os_glibc Importer.start
      [ImportOp.call_import "plugin".toList "plugin".toList load_mode.append_decorations,
       ImportOp.copy 0, ImportOp.drop 0]
      = some { cells := [{ lib := some { handle_ := 7 }, use_count := 1 }],
               trace := [Event.dlopen (some "./libplugin.so".toList) 1 7, Event.dlerror,
                         Event.dlsym 7 "plugin".toList 8192] }) ∧
    closes_of 7 [Event.dlopen (some "./libplugin.so".toList) 1 7, Event.dlerror,
                 Event.dlsym 7 "plugin".toList 8192] = 0 ∧
    (import_run linux_glibc os_glibc Importer.start
      [ImportOp.call_import "plugin".toList "plugin".toList load_mode.append_decorations,
       ImportOp.copy 0, ImportOp.drop 0, ImportOp.drop 0]
      = some { cells := [{ lib := none, use_count := 0 }],
               trace := [Event.dlopen (some "./libplugin.so".toList) 1 7, Event.dlerror,
                         Event.dlsym 7 "plugin".toList 8192, Event.dlclose 7] }) ∧
    closes_of 7 [Event.dlopen (some "./libplugin.so".toList) 1 7, Event.dlerror,
                 Event.dlsym 7 "plugin".toList 8192, Event.dlclose 7] = 1 :=
  ⟨by decide,
   ((imported_values_share_library linux_glibc os_glibc
      [ImportOp.call_import "plugin".toList "plugin".toList load_mode.append_decorations,
       ImportOp.copy 0, ImportOp.drop 0]
      { cells := [{ lib := some { handle_ := 7 }, use_count := 1 }],
        trace := [Event.dlopen (some "./libplugin.so".toList) 1 7, Event.dlerror,
                  Event.dlsym 7 "plugin".toList 8192] }
      (by decide)).2.2.2 (by decide)).1 0 _ { handle_ := 7 } rfl rfl,
   by decide,
   ((imported_values_share_library linux_glibc os_glibc
      [ImportOp.call_import "plugin".toList "plugin".toList load_mode.append_decorations,
       ImportOp.copy 0, ImportOp.drop 0, ImportOp.drop 0]
      { cells := [{ lib := none, use_count := 0 }],
        trace := [Event.dlopen (some "./libplugin.so".toList) 1 7, Event.dlerror,
                  Event.dlsym 7 "plugin".toList 8192, Event.dlclose 7] }
      (by decide)).2.2.2 (by decide)).2.1 7 (by decide) (by decide)⟩

/-- C20: `symbol_location_ptr` on a null pointer reports `bad_address`,
returns the empty path and makes no loader call. On a pointer that is not
null it calls `dladdr` once; when `dladdr` names a module it returns that
module file name with the error code clear; when `dladdr` fails it calls
`dlerror`, returns the empty path and reports `bad_address`. -/
theorem symbol_location_ptr_result (os : OS) (ptr_to_symbol : Nat) (ec : error_code)
    (t : List Event) :
    (ptr_to_symbol = 0 →
      symbol_location_ptr os ptr_to_symbol ec t = ([], some errc.bad_address, t)) ∧
    (ptr_to_symbol ≠ 0 → ∀ dli_fname, os.dladdr t ptr_to_symbol = some dli_fname →
      symbol_location_ptr os ptr_to_symbol ec t
        = (dli_fname, none, t ++ [Event.dladdr ptr_to_symbol (some dli_fname)])) ∧
    (ptr_to_symbol ≠ 0 → os.dladdr t ptr_to_symbol = none →
      symbol_location_ptr os ptr_to_symbol ec t
        = ([], some errc.bad_address,
            t ++ [Event.dladdr ptr_to_symbol none, Event.dlerror])) := by
  refine ⟨?_, ?_, ?_⟩
  · intro h
    simp [symbol_location_ptr, h]
  · intro h f hf
    simp [symbol_location_ptr, h, hf]
  · intro h hf
    simp [symbol_location_ptr, h, hf, reset_dlerror]

/-- C20 (witness): the address 4096 lies in the C library. -/
theorem symbol_location_ptr_result_witness :
    (4096 : Nat) ≠ 0 ∧
    os_glibc.dladdr [] 4096 = some "/lib/x86_64-linux-gnu/libc.so.6".toList ∧
    symbol_location_ptr os_glibc 4096 (some errc.invalid_seek) []
      = ("/lib/x86_64-linux-gnu/libc.so.6".toList, none,
          [Event.dladdr 4096 (some "/lib/x86_64-linux-gnu/libc.so.6".toList)]) :=
  ⟨by decide, by decide,
   (symbol_location_ptr_result os_glibc 4096 (some errc.invalid_seek) []).2.1 (by decide)
      "/lib/x86_64-linux-gnu/libc.so.6".toList (by decide)⟩

/-- C21: for each of `symbol_location_ptr`, `symbol_location`,
`this_line_location` and `program_location`, the overload without error code
raises exactly when the overload with error code reports an error on the same
input, and returns the same path otherwise. The exception carries that error
code; its text starts with the fixed message of the operation, is that
message alone when `dlerror()` hands out no text, and is the message followed
by ` (dlerror system message: ` the text `)` when it hands out one. -/
theorem location_overloads_agree (cfg : Platform) (os : OS) (q : location_query)
    (ec : error_code) (t : List Event) :
    ((∃ e, (q.throwing cfg os t).1 = Except.error e) ↔ (q.with_ec cfg os ec t).2.1 ≠ none) ∧
    ((q.with_ec cfg os ec t).2.1 = none →
      (q.throwing cfg os t).1 = Except.ok (q.with_ec cfg os ec t).1) ∧
    (∀ e, (q.throwing cfg os t).1 = Except.error e →
      e.code = (q.with_ec cfg os ec t).2.1 ∧
      q.message <+: e.what_arg ∧
      (os.dlerror (q.with_ec cfg os ec t).2.2 = none → e.what_arg = q.message) ∧
      (∀ error_txt, os.dlerror (q.with_ec cfg os ec t).2.2 = some error_txt →
        e.what_arg =
          q.message ++ " (dlerror system message: ".toList ++ error_txt ++ ")".toList)) := by
  rw [location_query_throwing_eq cfg os q ec t]
  by_cases h : (q.with_ec cfg os ec t).2.1 ≠ none
  · rw [if_pos h]
    refine ⟨⟨fun _ => h, fun _ => ⟨_, rfl⟩⟩, fun h0 => absurd h0 h, ?_⟩
    intro e he
    simp only [Except.error.injEq] at he
    subst he
    refine ⟨rfl, List.prefix_append _ _, ?_, ?_⟩
    · intro hn
      simp [hn, dlerror_note]
    · intro txt hs
      simp [hs, dlerror_note]
  · rw [if_neg h]
    have h0 : (q.with_ec cfg os ec t).2.1 = none := by
      by_contra hc
      exact h hc
    refine ⟨⟨fun ⟨e, he⟩ => by simp at he, fun hc => absurd hc h⟩, fun _ => rfl, ?_⟩
    intro e he
    simp at he

/-- C22: on Linux and Android, with the loader flags on separate bits, the
path `load` works with for a non-empty `sl` is `./` followed by `sl` when `sl`
has no parent path and the requested mode lacks `search_system_folders`, and
is `sl` itself when `sl` has a parent path or the mode has
`search_system_folders`. `load` makes at least one `dlopen` call, and every
file it hands to `dlopen` is this path, or `decorate` of this path, or `NULL`
(the running program). -/
theorem load_path_on_linux (cfg : Platform) (os : OS) (self : shared_library_impl)
    (sl : path) (pm : Nat) (ec : error_code) (t : List Event)
    (hos : cfg.BOOST_OS_LINUX = true ∨ cfg.BOOST_OS_ANDROID = true)
    (hd : flags_disjoint cfg) (hne : path_empty sl = false) :
    (has_parent_path sl = false ∧
        (pm % int_modulus) &&& load_mode.search_system_folders = 0 →
      load_path cfg os sl pm (self.unload t).2 = "./".toList ++ sl) ∧
    (has_parent_path sl = true ∨
        (pm % int_modulus) &&& load_mode.search_system_folders ≠ 0 →
      load_path cfg os sl pm (self.unload t).2 = sl) ∧
    (∀ f ∈ dlopen_files (new_events (self.unload t).2 (load cfg os self sl pm ec t).trace),
      f = some (decorate cfg (load_path cfg os sl pm (self.unload t).2)) ∨
      f = some (load_path cfg os sl pm (self.unload t).2) ∨ f = none) ∧
    dlopen_files (new_events (self.unload t).2 (load cfg os self sl pm ec t).trace) ≠ [] := by
  refine ⟨?_, ?_, (load_files cfg os self sl pm ec t hne).1, ?_⟩
  · intro h
    rw [load_path_linux cfg os sl pm _ hos hd, if_pos h]
  · intro h
    rw [load_path_linux cfg os sl pm _ hos hd, if_neg]
    rintro ⟨h1, h2⟩
    rcases h with h | h
    · rw [h1] at h; exact absurd h (by decide)
    · exact h h2
  · have := load_opens_something cfg os self sl pm ec t hne
    intro hnil
    apply this
    have hlen : (dlopen_modes (new_events (self.unload t).2
        (load cfg os self sl pm ec t).trace)).length
        = (dlopen_files (new_events (self.unload t).2
        (load cfg os self sl pm ec t).trace)).length := by
      generalize new_events (self.unload t).2 (load cfg os self sl pm ec t).trace = l
      induction l with
      | nil => rfl
      | cons e l ih =>
        cases e <;> simp_all [dlopen_modes, dlopen_files, List.filterMap_cons]
    rw [hnil] at hlen
    exact List.length_eq_zero.mp hlen

/-- C22 (witness): on Linux with glibc `plugin` is opened as `./plugin`, while
`dir/plugin` stays as it is and so does `plugin` with `search_system_folders`. -/
theorem load_path_on_linux_witness :
    load_path linux_glibc os_glibc "plugin".toList 0
        ((default_construct).unload []).2 = "./plugin".toList ∧
    load_path linux_glibc os_glibc "dir/plugin".toList 0
        ((default_construct).unload []).2 = "dir/plugin".toList ∧
    load_path linux_glibc os_glibc "plugin".toList load_mode.search_system_folders
        ((default_construct).unload []).2 = "plugin".toList ∧
    dlopen_files (new_events ((default_construct).unload []).2
      (load linux_glibc os_glibc default_construct "plugin".toList 0 none []).trace)
        = [some "./plugin".toList] :=
  ⟨(load_path_on_linux linux_glibc os_glibc default_construct "plugin".toList 0 none []
      (Or.inl rfl) flags_disjoint_linux_glibc (by decide)).1 ⟨by decide, by decide⟩,
   (load_path_on_linux linux_glibc os_glibc default_construct "dir/plugin".toList 0 none []
      (Or.inl rfl) flags_disjoint_linux_glibc (by decide)).2.1 (Or.inl (by decide)),
   (load_path_on_linux linux_glibc os_glibc default_construct "plugin".toList
      load_mode.search_system_folders none []
      (Or.inl rfl) flags_disjoint_linux_glibc (by decide)).2.1 (Or.inr (by decide)),
   by decide⟩

/-- C23: decorating twice gives `decorate(p)` with the suffix appended once
more; the file name of `decorate(p)` always begins with `lib`; on Linux,
decorating `plugin` twice gives `libplugin.so.so`. -/
theorem decorate_twice_appends_suffix (cfg : Platform) (p : path) :
    decorate cfg (decorate cfg p) = decorate cfg p ++ suffix cfg ∧
    (filename (decorate cfg p)).take 3 = "lib".toList ∧
    "lib".toList <+: filename (decorate cfg p) ∧
    decorate linux_glibc (decorate linux_glibc "plugin".toList) = "libplugin.so.so".toList := by
  refine ⟨decorate_decorate cfg p, filename_decorate_take cfg p, ?_, by decide⟩
  have h := filename_decorate_take cfg p
  rw [← h]
  exact List.take_prefix _ _

/-- C24: the mode of every `dlopen` call made by `load` has neither
`append_decorations` (0x00800000) nor `search_system_folders` (0x01000000).
The two bits differ from each other and, with the `<dlfcn.h>` values of glibc
and of macOS, from every bit of `rtld_lazy`, `rtld_now`, `rtld_global`,
`rtld_local` and `rtld_deepbind`. Any flag `f` that shares no bit with the two
reaches `dlopen` exactly as it stands after the "Fixing modes" block. -/
theorem load_clears_private_bits (cfg : Platform) (os : OS) (self : shared_library_impl)
    (sl : path) (pm : Nat) (ec : error_code) (t : List Event) :
    (∀ x ∈ dlopen_modes (new_events t (load cfg os self sl pm ec t).trace),
      x &&& load_mode.append_decorations = 0 ∧
      x &&& load_mode.search_system_folders = 0) ∧
    load_mode.append_decorations = 0x00800000 ∧
    load_mode.search_system_folders = 0x01000000 ∧
    load_mode.append_decorations &&& load_mode.search_system_folders = 0 ∧
    (∀ c, c = linux_glibc ∨ c = macos →
      ∀ f ∈ [load_mode.rtld_lazy c, load_mode.rtld_now c, load_mode.rtld_global c,
             load_mode.rtld_local c, load_mode.rtld_deepbind c],
        f &&& load_mode.append_decorations = 0 ∧
        f &&& load_mode.search_system_folders = 0) ∧
    (∀ f, f < int_modulus →
      f &&& (load_mode.append_decorations ||| load_mode.search_system_folders) = 0 →
      ∀ x ∈ dlopen_modes (new_events t (load cfg os self sl pm ec t).trace),
        x &&& f = fix_modes cfg (pm % int_modulus) &&& f) := by
  obtain ⟨k0, _, k2, _⟩ := load_new_events cfg os self sl pm ec t
  rw [dlopen_modes_new_events_unload self t _ k0]
  refine ⟨?_, by decide, by decide, by decide, ?_, ?_⟩
  · intro x hx
    rw [k2 x hx]
    exact native_mode_of_private cfg pm
  · intro c hc
    rcases hc with rfl | rfl <;> decide
  · intro f hf hdis x hx
    rw [k2 x hx]
    exact clear_private_land _ f hf hdis

/-- C25: when `load` of a non-empty path ends loaded, either the last file it
handed to `dlopen` is the decorated path or the exact path, and then the
error code of the caller is the one it had on entry, or the last `dlopen` is
that of the running program (`NULL`), and then the error code is cleared. -/
theorem load_success_keeps_error_code (cfg : Platform) (os : OS)
    (self : shared_library_impl) (sl : path) (pm : Nat) (ec : error_code) (t : List Event)
    (hne : path_empty sl = false)
    (hl : (load cfg os self sl pm ec t).self.is_loaded = true) :
    (((dlopen_files (new_events (self.unload t).2
          (load cfg os self sl pm ec t).trace)).getLast?
          = some (some (decorate cfg (load_path cfg os sl pm (self.unload t).2))) ∨
      (dlopen_files (new_events (self.unload t).2
          (load cfg os self sl pm ec t).trace)).getLast?
          = some (some (load_path cfg os sl pm (self.unload t).2))) ∧
      (load cfg os self sl pm ec t).ec = ec) ∨
    ((dlopen_files (new_events (self.unload t).2
          (load cfg os self sl pm ec t).trace)).getLast? = some none ∧
      (load cfg os self sl pm ec t).ec = none) :=
  (load_files cfg os self sl pm ec t hne).2 hl

/-- C25 (witness): a caller enters with the stale code `invalid_seek`. A load
that succeeds on the decorated path (glibc loader) or on the exact path leaves
`invalid_seek` in place; the load of `/usr/bin/app`, which succeeds as the
running program, clears it. -/
theorem load_success_keeps_error_code_witness :
    (load linux_glibc os_glibc default_construct "plugin".toList
        load_mode.append_decorations (some errc.invalid_seek) []).self.is_loaded = true ∧
    (load linux_glibc os_glibc default_construct "plugin".toList
        load_mode.append_decorations (some errc.invalid_seek) []).ec
        = some errc.invalid_seek ∧
    (load linux_glibc os_undecorated default_construct "myplugin".toList
        load_mode.append_decorations (some errc.invalid_seek) []).ec
        = some errc.invalid_seek ∧
    (load linux_glibc os_program default_construct "/usr/bin/app".toList
        0 (some errc.invalid_seek) []).ec = none ∧
    ((((dlopen_files (new_events ((default_construct).unload []).2
          (load linux_glibc os_program default_construct "/usr/bin/app".toList
            0 (some errc.invalid_seek) []).trace)).getLast?
          = some (some (decorate linux_glibc (load_path linux_glibc os_program
              "/usr/bin/app".toList 0 ((default_construct).unload []).2))) ∨
      (dlopen_files (new_events ((default_construct).unload []).2
          (load linux_glibc os_program default_construct "/usr/bin/app".toList
            0 (some errc.invalid_seek) []).trace)).getLast?
          = some (some (load_path linux_glibc os_program
              "/usr/bin/app".toList 0 ((default_construct).unload []).2))) ∧
      (load linux_glibc os_program default_construct "/usr/bin/app".toList
            0 (some errc.invalid_seek) []).ec = some errc.invalid_seek) ∨
    ((dlopen_files (new_events ((default_construct).unload []).2
          (load linux_glibc os_program default_construct "/usr/bin/app".toList
            0 (some errc.invalid_seek) []).trace)).getLast? = some none ∧
      (load linux_glibc os_program default_construct "/usr/bin/app".toList
            0 (some errc.invalid_seek) []).ec = none)) :=
  ⟨by decide, by decide, by decide, by decide,
   load_success_keeps_error_code linux_glibc os_program default_construct
     "/usr/bin/app".toList 0 (some errc.invalid_seek) [] (by decide) (by decide)⟩

/-- C26: move assignment is `swap`: the destination ends with the handle of
the source and the source with the handle of the destination, the assignment
makes no loader call, and a later `unload` or destruction of the source makes
the one `dlclose` call on the handle the destination had held (none if that
handle was null). -/
theorem move_assign_is_swap (self sl : shared_library_impl) (t : List Event) :
    move_assign self sl t = self.swap sl t ∧
    (move_assign self sl t).1.handle_ = sl.handle_ ∧
    (move_assign self sl t).2.1.handle_ = self.handle_ ∧
    (move_assign self sl t).2.2 = t ∧
    (∀ u, ((move_assign self sl t).2.1.unload u).2 =
      u ++ (if self.is_loaded = true then [Event.dlclose self.handle_] else [])) ∧
    (∀ u, (move_assign self sl t).2.1.destroy u =
      u ++ (if self.is_loaded = true then [Event.dlclose self.handle_] else [])) := by
  refine ⟨rfl, rfl, rfl, rfl, ?_, ?_⟩
  · intro u
    rw [unload_snd]
    rfl
  · intro u
    unfold destroy
    rw [unload_snd]
    rfl

end BoostDLL
